import Mathlib

/-!
A shallow embedding of the spaCy-to-UD dependency-tree normalizer
(`main.py`).  The Python program mutates a per-sentence graph of
`WordNode` objects in place; here a sentence is a list of word records,
each identified by its immutable 1-based `index` field, and every
in-place field assignment becomes an index-directed functional update
(`setWord`).  Object references (`governor_word`) become `Option Nat`
holding the referenced node's index; Python `None`-dereference errors
(`AttributeError`) and list `IndexError`s are modelled with
`Except String`.  Diagnostic `print` calls made by the rule engine are
collected in a `List String`.
-/

/-- The NER annotation stored on an entity head word
(Python dict `{text, words, span, type}`; the member word objects are
represented by their indices, in sentence order). -/
structure NerInfo where
  text : String
  words : List Nat
  span : Nat × Nat
  label : String
  deriving Repr, DecidableEq

/-- One word node of a sentence (Python class `WordNode`).  The
process-wide `wn_id` bookkeeping counter and the back-reference to the
owning sentence are omitted: the former is never read by any conversion
logic, and the latter is passed explicitly as the `Sentence` argument of
every operation. -/
structure WordNode where
  index : Nat
  index_span : Nat × Nat
  text : String
  «lemma» : String
  upos : String
  features : List (String × String)
  span : Nat × Nat
  ner : Option NerInfo
  ner_head_word : Option Nat
  dependency_relation : String
  governor : Nat
  governor_word : Option Nat
  deriving Repr, DecidableEq

/-- A sentence's word list (Python `SentenceNode.word_nodes`). -/
abbrev Sentence := List WordNode

/-- Look up the word node with the given (unique) `index` field:
the model of holding a Python reference to that object. -/
def getW (s : Sentence) (i : Nat) : Option WordNode :=
  s.find? (fun w => w.index == i)

/-- Apply an in-place field assignment to the node with index `i`
(all updates used below keep `index` unchanged). -/
def setWord (s : Sentence) (i : Nat) (f : WordNode → WordNode) : Sentence :=
  s.map fun w => if w.index == i then f w else w

/-- Read a node's `governor_word` reference and resolve it
(`AttributeError` when the reference is `None`, mirroring Python's
crash on dereferencing it). -/
def govOf (s : Sentence) (w : WordNode) : Except String WordNode :=
  match w.governor_word with
  | none => .error "AttributeError: NoneType governor"
  | some gi =>
    match getW s gi with
    | none => .error "missing governor node"
    | some g => .ok g

/-- The POS tags treated as nominal throughout the rules
(Python literal `['NOUN', 'PRON', 'PROPN']`). -/
def nominal_pos : List String := ["NOUN", "PRON", "PROPN"]

/-- `find_governed`: first word (in sentence order) governed by the node
with index `i` and carrying dependency relation `dep`. -/
def find_governed (s : Sentence) (i : Nat) (dep : String) : Option WordNode :=
  s.find? (fun wn => wn.governor_word == some i && wn.dependency_relation == dep)

/-- The subject relations recognized by `find_subj`. -/
def subj_rels : List String :=
  ["nsubj", "csubj", "nsubj:pass", "csubj:pass", "nsubj:outer", "csubj:outer"]

/-- `find_subj`: first word governed by the node with index `i` whose
relation is one of `subj_rels`. -/
def find_subj (s : Sentence) (i : Nat) : Option WordNode :=
  s.find? (fun wn => wn.governor_word == some i && subj_rels.contains wn.dependency_relation)

/-- The dependency relations that `redirect_dependants` moves. -/
def redirect_rels : List String :=
  ["prep", "attr", "advcl", "advmod", "acomp", "xcomp", "dep", "acl",
   "nsubj", "obj", "csubj", "ccomp", "mark", "cop", "npadvmod", "conj",
   "prataxis", "punct", "cc", "nsubj:outer", "csubj:outer"]

/-- The per-word effect of `redirect_dependants(from, to)`: a word
other than `from`/`to` currently governed by `from` whose relation is in
`redirect_rels` is re-governed by `to`; anything else is untouched. -/
def redirectF (fromI toI : Nat) (wn : WordNode) : WordNode :=
  if wn.index == fromI || wn.index == toI then wn
  else if wn.governor_word == some fromI && redirect_rels.contains wn.dependency_relation then
    { wn with governor := toI, governor_word := some toI }
  else wn

/-- `redirect_dependants(from, to)`: apply `redirectF` to every word of
the sentence (the Python loop body runs once per word). -/
def redirect_dependants (s : Sentence) (fromI toI : Nat) : Sentence :=
  s.map (redirectF fromI toI)

/-- The unconditional restructuring part of `make_copula` (the Python
statements after the existential guard): the head takes over `be`'s
governor position/word and relation, `be` becomes `cop`/`AUX` under the
head, and `be`'s redirectable dependents move to the head. -/
def make_copula_apply (s : Sentence) (headI beI : Nat) : Bool × Sentence :=
  match getW s beI with
  | none => (true, s)
  | some be =>
    let s1 := setWord s headI fun x =>
      { x with governor := be.governor, governor_word := be.governor_word,
               dependency_relation := be.dependency_relation }
    let s2 := setWord s1 beI fun x =>
      { x with governor := headI, governor_word := some headI,
               dependency_relation := "cop", upos := "AUX" }
    (true, redirect_dependants s2 beI headI)

/-- `make_copula`: refuses (returning `false` and the unchanged
sentence) when the first `expl` dependent of `be` has lemma "there";
otherwise restructures via `make_copula_apply` and returns `true`. -/
def make_copula (s : Sentence) (headI beI : Nat) : Bool × Sentence :=
  match find_governed s beI "expl" with
  | some e =>
    if e.«lemma» == "there" then (false, s)
    else make_copula_apply s headI beI
  | none => make_copula_apply s headI beI

/-- `make_passive(be, verb)`: re-govern `be`'s `nsubj` (else `csubj`)
dependent to the verb as `nsubj:pass` (`csubj:pass`), give the verb
`be`'s governor position/word and relation, and attach `be` to the verb
as `aux:pass`. -/
def make_passive (s : Sentence) (beI verbI : Nat) : Sentence :=
  let subjRel : Option (WordNode × String) :=
    match find_governed s beI "nsubj" with
    | some sj => some (sj, "nsubj:pass")
    | none =>
      match find_governed s beI "csubj" with
      | some sj => some (sj, "csubj:pass")
      | none => none
  let s1 :=
    match subjRel with
    | some (sj, rel) => setWord s sj.index fun x =>
        { x with governor := verbI, governor_word := some verbI, dependency_relation := rel }
    | none => s
  match getW s1 beI with
  | none => s1
  | some be =>
    let s2 := setWord s1 verbI fun x =>
      { x with governor := be.governor, governor_word := be.governor_word,
               dependency_relation := be.dependency_relation }
    setWord s2 beI fun x =>
      { x with governor := verbI, governor_word := some verbI,
               dependency_relation := "aux:pass" }

/-- The `while not head` climb of `prep_chain`, with fuel bounding the
walk (the Python loop would not terminate on a `prep` cycle); collects
the consecutive `prep`-labelled governors closest-first. -/
def prep_chain_walk (s : Sentence) : Nat → WordNode → List WordNode →
    Except String (WordNode × List WordNode)
  | 0, _, _ => .error "prep_chain does not terminate"
  | fuel + 1, x, acc =>
    if x.dependency_relation == "prep" then
      match x.governor_word with
      | none => .error "AttributeError: NoneType governor"
      | some gi =>
        match getW s gi with
        | none => .error "missing governor node"
        | some x2 => prep_chain_walk s fuel x2 (acc ++ [x])
    else .ok (x, acc)

/-- `prep_chain`: starting from `w`'s governor, return immediately with
that governor's governor when its relation is `iobj`/`agent`, else climb
consecutive `prep` governors until a non-`prep` head. -/
def prep_chain (s : Sentence) (w : WordNode) : Except String (Option Nat × List WordNode) :=
  match w.governor_word with
  | none => .error "AttributeError: NoneType governor"
  | some xi =>
    match getW s xi with
    | none => .error "missing governor node"
    | some x =>
      if x.dependency_relation == "iobj" || x.dependency_relation == "agent" then
        .ok (x.governor_word, [x])
      else
        match prep_chain_walk s (s.length + 1) x [] with
        | .error e => .error e
        | .ok (h, ps) => .ok (some h.index, ps)

/-- Rule result: the updated sentence plus any diagnostic lines the rule
printed (Python `print(...)` inside the rules). -/
abbrev RuleResult := Except String (Sentence × List String)

/-- `aux_to_ud`: a `PART` word labelled `aux` becomes `mark`; if its
governor is `acl:relcl`, the governor becomes `acl`. -/
def aux_to_ud (s : Sentence) (i : Nat) : RuleResult :=
  match getW s i with
  | none => .ok (s, [])
  | some w =>
    if w.upos == "PART" then
      let s1 := setWord s i fun x => { x with dependency_relation := "mark" }
      match govOf s1 w with
      | .error e => .error e
      | .ok g =>
        if g.dependency_relation == "acl:relcl" then
          .ok (setWord s1 g.index fun x => { x with dependency_relation := "acl" }, [])
        else .ok (s1, [])
    else .ok (s, [])

/-- `oprd_to_ud`: nominal `oprd` becomes `obj`, else `advcl`. -/
def oprd_to_ud (s : Sentence) (i : Nat) : RuleResult :=
  match getW s i with
  | none => .ok (s, [])
  | some w =>
    if nominal_pos.contains w.upos then
      .ok (setWord s i fun x => { x with dependency_relation := "obj" }, [])
    else
      .ok (setWord s i fun x => { x with dependency_relation := "advcl" }, [])

/-- `amod_to_ud`: `amod` under a `VERB` governor becomes `xcomp`. -/
def amod_to_ud (s : Sentence) (i : Nat) : RuleResult :=
  match getW s i with
  | none => .ok (s, [])
  | some w =>
    match govOf s w with
    | .error e => .error e
    | .ok g =>
      if g.upos == "VERB" then
        .ok (setWord s i fun x => { x with dependency_relation := "xcomp" }, [])
      else .ok (s, [])

/-- `nmod_to_ud`: an `nmod` word with lemma "$" under a `NUM` governor
swaps roles with the governor (currency reordering). -/
def nmod_to_ud (s : Sentence) (i : Nat) : RuleResult :=
  match getW s i with
  | none => .ok (s, [])
  | some w =>
    if w.«lemma» == "$" then
      match govOf s w with
      | .error e => .error e
      | .ok g =>
        if g.upos == "NUM" then
          let s1 := setWord s i fun x =>
            { x with dependency_relation := g.dependency_relation,
                     governor := g.governor, governor_word := g.governor_word }
          let s2 := setWord s1 g.index fun x =>
            { x with dependency_relation := "nummod",
                     governor := i, governor_word := some i }
          .ok (redirect_dependants s2 g.index i, [])
        else .ok (s, [])
    else .ok (s, [])

/-- `nummod_to_ud`: `nummod` whose governor is a `NOUN` immediately
preceding it becomes `nmod`. -/
def nummod_to_ud (s : Sentence) (i : Nat) : RuleResult :=
  match getW s i with
  | none => .ok (s, [])
  | some w =>
    match govOf s w with
    | .error e => .error e
    | .ok g =>
      if g.upos == "NOUN" && g.index == w.index - 1 then
        .ok (setWord s i fun x => { x with dependency_relation := "nmod" }, [])
      else .ok (s, [])

/-- `advcl_to_ud`: under a "be" governor with a subject dependent, make
the word the copula head (then turn a `VERB` `csubj` dependent into
`csubj:outer`); else under a nominal governor with no `cop` dependent,
relabel `acl`. -/
def advcl_to_ud (s : Sentence) (i : Nat) : RuleResult :=
  match getW s i with
  | none => .ok (s, [])
  | some w =>
    match govOf s w with
    | .error e => .error e
    | .ok g =>
      if g.«lemma» == "be" && (find_subj s i).isSome then
        let s1 := (make_copula s i g.index).2
        match find_governed s1 i "csubj" with
        | some c =>
          if c.upos == "VERB" then
            .ok (setWord s1 c.index fun x => { x with dependency_relation := "csubj:outer" }, [])
          else .ok (s1, [])
        | none => .ok (s1, [])
      else if nominal_pos.contains g.upos && (find_governed s g.index "cop").isNone then
        .ok (setWord s i fun x => { x with dependency_relation := "acl" }, [])
      else .ok (s, [])

/-- `comp_to_ud` (for `xcomp`/`ccomp`): under a "be" governor, make the
word the copula head and append ":outer" to the governor's subject
dependent's relation; else if the governor has a `cop` dependent and its
subject has lemma "it", relabel subject `expl` and the word `csubj`. -/
def comp_to_ud (s : Sentence) (i : Nat) : RuleResult :=
  match getW s i with
  | none => .ok (s, [])
  | some w =>
    match govOf s w with
    | .error e => .error e
    | .ok g =>
      let subj := find_subj s g.index
      if g.«lemma» == "be" then
        let s1 := (make_copula s i g.index).2
        match subj with
        | some sj =>
          .ok (setWord s1 sj.index fun x =>
            { x with dependency_relation := x.dependency_relation ++ ":outer" }, [])
        | none => .ok (s1, [])
      else if (find_governed s g.index "cop").isSome then
        match subj with
        | some sj =>
          if sj.«lemma» == "it" then
            let s1 := setWord s sj.index fun x => { x with dependency_relation := "expl" }
            .ok (setWord s1 i fun x => { x with dependency_relation := "csubj" }, [])
          else .ok (s, [])
        | none => .ok (s, [])
      else .ok (s, [])

/-- The final loop of `pobj_to_ud`: each preposition of the chain is
re-governed by the word and relabelled `case`, and any `advmod`
dependent of it is re-governed by the word as well. -/
def pobj_prep_loop (i : Nat) : Sentence → List WordNode → Sentence
  | s, [] => s
  | s, p :: rest =>
    let s1 := setWord s p.index fun x =>
      { x with governor := i, governor_word := some i, dependency_relation := "case" }
    let s2 :=
      match find_governed s1 p.index "advmod" with
      | some adv => setWord s1 adv.index fun x =>
          { x with governor := i, governor_word := some i }
      | none => s1
    pobj_prep_loop i s2 rest

/-- The relabelling block of `pobj_to_ud` (run when the copula path was
not taken): derive the word's new relation from the first preposition's
relation, report an anomaly for an unknown relation, then run the
preposition loop. -/
def pobj_relabel (s : Sentence) (i : Nat) (w g : WordNode) (preps : List WordNode) : RuleResult :=
  match preps with
  | [] => .ok (s, [])
  | p :: _ =>
    if p.dependency_relation == "prep" then
      let rel := if nominal_pos.contains g.upos then "nmod" else "obl"
      let s1 := setWord s i fun x =>
        { x with dependency_relation := rel, governor := g.index, governor_word := some g.index }
      .ok (pobj_prep_loop i s1 preps, [])
    else if p.dependency_relation == "iobj" then
      let s1 := setWord s i fun x =>
        { x with dependency_relation := "obl", governor := g.index, governor_word := some g.index }
      .ok (pobj_prep_loop i s1 preps, [])
    else if p.dependency_relation == "agent" then
      let s1 := setWord s i fun x =>
        { x with dependency_relation := "obl:agent", governor := g.index, governor_word := some g.index }
      .ok (pobj_prep_loop i s1 preps, [])
    else
      .ok (s, ["Unknown dep from PREP in: " ++ g.text ++ " <-" ++ p.dependency_relation
                ++ "- " ++ p.text ++ " <-pobj- " ++ w.text])

/-- `pobj_to_ud`: resolve the preposition chain; with no prepositions,
report an anomaly; with a "be" head try the copula restructuring first;
otherwise relabel via `pobj_relabel`; finally re-govern the chain. -/
def pobj_to_ud (s : Sentence) (i : Nat) : RuleResult :=
  match getW s i with
  | none => .ok (s, [])
  | some w =>
    match prep_chain s w with
    | .error e => .error e
    | .ok (gOpt, preps) =>
      if preps.isEmpty then
        .ok (s, ["pobj without preps, word: " ++ w.text])
      else
        match gOpt with
        | none => .error "AttributeError: NoneType governor"
        | some gi =>
          match getW s gi with
          | none => .error "missing governor node"
          | some g =>
            if g.«lemma» == "be" then
              match make_copula s i g.index with
              | (true, s1) => .ok (pobj_prep_loop i s1 preps, [])
              | (false, _) => pobj_relabel s i w g preps
            else pobj_relabel s i w g preps

/-- `pcomp_to_ud`: `ADP` under `SCONJ` becomes `fixed`; a governor not
labelled `prep` is an anomaly; under a "be" grandparent make the word
the copula head, else relabel `advcl` and rewire; the preposition
becomes `mark`/`case` and its dependents move to the word. -/
def pcomp_to_ud (s : Sentence) (i : Nat) : RuleResult :=
  match getW s i with
  | none => .ok (s, [])
  | some w =>
    match w.governor_word with
    | none => .error "AttributeError: NoneType governor"
    | some pi =>
      match getW s pi with
      | none => .error "missing governor node"
      | some prep =>
        if w.upos == "ADP" && prep.upos == "SCONJ" then
          .ok (setWord s i fun x => { x with dependency_relation := "fixed" }, [])
        else if prep.dependency_relation != "prep" then
          match prep.governor_word with
          | none => .error "AttributeError: NoneType governor"
          | some gi =>
            match getW s gi with
            | none => .error "missing governor node"
            | some g =>
              .ok (s, ["No prep dependency in: " ++ g.text ++ " <-"
                        ++ prep.dependency_relation ++ "- " ++ prep.text
                        ++ " <-pcomp- " ++ w.text])
        else
          match prep.governor_word with
          | none => .error "AttributeError: NoneType governor"
          | some gi =>
            match getW s gi with
            | none => .error "missing governor node"
            | some g =>
              let s1 :=
                if g.«lemma» == "be" then (make_copula s i g.index).2
                else
                  let t1 := setWord s i fun x =>
                    { x with dependency_relation := "advcl",
                             governor := g.index, governor_word := some g.index }
                  setWord t1 pi fun x =>
                    { x with governor := i, governor_word := some i }
              let dep := if prep.upos == "SCONJ" then "mark" else "case"
              let s2 := setWord s1 pi fun x => { x with dependency_relation := dep }
              .ok (redirect_dependants s2 pi i, [])

/-- `attr_to_ud`: `attr` under a non-"be" governor is an anomaly; with
an `expl` dependent on "be" the word becomes `nsubj`; otherwise the word
becomes the copula head. -/
def attr_to_ud (s : Sentence) (i : Nat) : RuleResult :=
  match getW s i with
  | none => .ok (s, [])
  | some w =>
    match govOf s w with
    | .error e => .error e
    | .ok be =>
      if be.«lemma» != "be" then
        .ok (s, ["Dep attr used with something other than to be: "
                  ++ be.text ++ " <-attr- " ++ w.text])
      else
        match find_governed s be.index "expl" with
        | some _ =>
          .ok (setWord s i fun x => { x with dependency_relation := "nsubj" }, [])
        | none => .ok ((make_copula s i be.index).2, [])

/-- `acomp_to_ud`: under "be", a perfect-aspect `VERB` triggers the
passive repair, anything else the copula restructuring; under any other
governor relabel `xcomp`. -/
def acomp_to_ud (s : Sentence) (i : Nat) : RuleResult :=
  match getW s i with
  | none => .ok (s, [])
  | some w =>
    match govOf s w with
    | .error e => .error e
    | .ok g =>
      if g.«lemma» == "be" then
        if w.upos == "VERB" && w.features.lookup "Aspect" == some "Perf" then
          .ok (make_passive s g.index i, [])
        else .ok ((make_copula s i g.index).2, [])
      else .ok (setWord s i fun x => { x with dependency_relation := "xcomp" }, [])

/-- `advmod_to_ud`: an `SCONJ` adverbial modifier becomes `mark` when
its governor is `advcl`, else its POS is changed to `ADV`. -/
def advmod_to_ud (s : Sentence) (i : Nat) : RuleResult :=
  match getW s i with
  | none => .ok (s, [])
  | some w =>
    if w.upos == "SCONJ" then
      match govOf s w with
      | .error e => .error e
      | .ok g =>
        if g.dependency_relation == "advcl" then
          .ok (setWord s i fun x => { x with dependency_relation := "mark" }, [])
        else
          .ok (setWord s i fun x => { x with upos := "ADV" }, [])
    else .ok (s, [])

/-- `npadvmod_to_ud`: climb one governor level when the governor is
already `obl:npmod`, then relabel the word `obl:npmod` under the
resulting governor. -/
def npadvmod_to_ud (s : Sentence) (i : Nat) : RuleResult :=
  match getW s i with
  | none => .ok (s, [])
  | some w =>
    match govOf s w with
    | .error e => .error e
    | .ok g0 =>
      if g0.dependency_relation == "obl:npmod" then
        match g0.governor_word with
        | none => .error "AttributeError: NoneType governor"
        | some gi =>
          match getW s gi with
          | none => .error "missing governor node"
          | some g1 =>
            .ok (setWord s i fun x =>
              { x with dependency_relation := "obl:npmod",
                       governor := g1.index, governor_word := some g1.index }, [])
      else
        .ok (setWord s i fun x =>
          { x with dependency_relation := "obl:npmod",
                   governor := g0.index, governor_word := some g0.index }, [])

/-- The final block of `conj_to_ud`: when the (possibly updated)
governor is itself labelled `conj`, re-govern the word one level up
(flattening nested `conj` chains); a missing governor reference there is
Python's `AttributeError`. -/
def conj_flatten (s2 : Sentence) (i gIdx : Nat) : RuleResult :=
  match getW s2 gIdx with
  | none => .ok (s2, [])
  | some g2 =>
    if g2.dependency_relation == "conj" then
      match g2.governor_word with
      | none => .error "AttributeError: NoneType governor"
      | some ggi =>
        .ok (setWord s2 i fun x =>
          { x with governor := ggi, governor_word := some ggi }, [])
    else .ok (s2, [])

/-- `conj_to_ud`: move the governor's `cc` to the word; for a nominal
conjunct of a verb with its own `nsubj`, swap in the `orphan`
construction; flatten nested `conj` chains one level. -/
def conj_to_ud (s : Sentence) (i : Nat) : RuleResult :=
  match getW s i with
  | none => .ok (s, [])
  | some w =>
    match govOf s w with
    | .error e => .error e
    | .ok g =>
      let cc := find_governed s g.index "cc"
      let s1 :=
        match cc with
        | some c => setWord s c.index fun x =>
            { x with governor := i, governor_word := some i }
        | none => s
      let s2 :=
        if g.upos == "VERB" && nominal_pos.contains w.upos then
          match find_governed s1 i "nsubj" with
          | some n =>
            let t1 := setWord s1 n.index fun x =>
              { x with dependency_relation := "conj",
                       governor := g.index, governor_word := some g.index }
            let t2 := setWord t1 i fun x =>
              { x with dependency_relation := "orphan",
                       governor := n.index, governor_word := some n.index }
            match cc with
            | some c => setWord t2 c.index fun x =>
                { x with governor := n.index, governor_word := some n.index }
            | none => t2
          | none => s1
        else s1
      conj_flatten s2 i g.index

/-- `dep_to_ud`: `dep` under a `VERB` governor becomes `ccomp`. -/
def dep_to_ud (s : Sentence) (i : Nat) : RuleResult :=
  match getW s i with
  | none => .ok (s, [])
  | some w =>
    match govOf s w with
    | .error e => .error e
    | .ok g =>
      if g.upos == "VERB" then
        .ok (setWord s i fun x => { x with dependency_relation := "ccomp" }, [])
      else .ok (s, [])

/-- One step of the rule-engine dispatch (`spacy_to_ud`'s `elif` chain):
read the current relation of the word at index `i` and run the matching
rule; unmatched relations (including `root`) are left alone. -/
def run_rule (s : Sentence) (i : Nat) : RuleResult :=
  match getW s i with
  | none => .ok (s, [])
  | some w =>
    match w.dependency_relation with
    | "aux" => aux_to_ud s i
    | "oprd" => oprd_to_ud s i
    | "amod" => amod_to_ud s i
    | "nmod" => nmod_to_ud s i
    | "nummod" => nummod_to_ud s i
    | "advcl" => advcl_to_ud s i
    | "pobj" => pobj_to_ud s i
    | "pcomp" => pcomp_to_ud s i
    | "xcomp" => comp_to_ud s i
    | "ccomp" => comp_to_ud s i
    | "attr" => attr_to_ud s i
    | "acomp" => acomp_to_ud s i
    | "advmod" => advmod_to_ud s i
    | "npadvmod" => npadvmod_to_ud s i
    | "conj" => conj_to_ud s i
    | "dep" => dep_to_ud s i
    | _ => .ok (s, [])

/-- The ascending pass of the rule engine: visit the listed node
identities in order, each rule observing the current state left by the
previous ones, and accumulate diagnostics. -/
def rules_pass (idxs : List Nat) (s : Sentence) (diags : List String) :
    Except String (Sentence × List String) :=
  match idxs with
  | [] => .ok (s, diags)
  | i :: rest =>
    match run_rule s i with
    | .error e => .error e
    | .ok (s1, d) => rules_pass rest s1 (diags ++ d)

/-- One step of the reverse cleanup `fix_advmod_cop`: a word still
labelled `advmod` whose governor has lemma "be" and is not already `cop`
becomes the copula head over that governor. -/
def fix_step (s : Sentence) (i : Nat) : Except String Sentence :=
  match getW s i with
  | none => .ok s
  | some w =>
    if w.dependency_relation == "advmod" then
      match w.governor_word with
      | none => .error "AttributeError: NoneType governor"
      | some gi =>
        match getW s gi with
        | none => .error "missing governor node"
        | some g =>
          if g.«lemma» == "be" && g.dependency_relation != "cop" then
            .ok (make_copula s i gi).2
          else .ok s
    else .ok s

/-- Fold `fix_step` over a list of node identities. -/
def fix_pass (idxs : List Nat) (s : Sentence) : Except String Sentence :=
  match idxs with
  | [] => .ok s
  | i :: rest =>
    match fix_step s i with
    | .error e => .error e
    | .ok s1 => fix_pass rest s1

/-- `fix_advmod_cop`: the reverse-order cleanup pass over the sentence's
words (Python `for word_node in reversed(sent.word_nodes)`). -/
def fix_advmod_cop (s : Sentence) : Except String Sentence :=
  fix_pass (s.map (fun w => w.index)).reverse s

/-- `spacy_to_ud`: the full rule engine for one sentence — the single
ascending pass followed by the reverse `advmod`-copula cleanup. -/
def spacy_to_ud (s : Sentence) : Except String (Sentence × List String) :=
  match rules_pass (s.map (fun w => w.index)) s [] with
  | .error e => .error e
  | .ok (s1, diags) =>
    match fix_advmod_cop s1 with
    | .error e => .error e
    | .ok s2 => .ok (s2, diags)

/-- A raw spaCy token as consumed by the converter: `i` is the token's
document-level index, `head` the document-level index of its head token
(equal to `i` exactly for a sentence root), `idx` its character offset. -/
structure SpacyToken where
  i : Nat
  text : String
  lemma_ : String
  pos_ : String
  dep_ : String
  head : Nat
  idx : Nat
  morph : List (String × String)
  deriving Repr, DecidableEq

/-- A raw spaCy entity span (character offsets and type label). -/
structure SpacySpan where
  text : String
  start_char : Nat
  end_char : Nat
  label_ : String
  deriving Repr, DecidableEq

/-- A raw spaCy sentence: its text, tokens and entity spans. -/
structure SpacySent where
  text : String
  tokens : List SpacyToken
  ents : List SpacySpan
  deriving Repr, DecidableEq

/-- The label remap table of `spacy_to_ud_token` (Python `dep_dict`). -/
def dep_dict : List (String × String) :=
  [("dobj", "obj"), ("dative", "iobj"), ("nsubjpass", "nsubj:pass"),
   ("csubjpass", "csubj:pass"), ("ROOT", "root"), ("auxpass", "aux:pass"),
   ("preconj", "pre:conj"), ("prt", "compound:prt"), ("predet", "det:predet"),
   ("poss", "nmod:poss"), ("relcl", "acl:relcl"), ("neg", "advmod"),
   ("quantmod", "compound"), ("parataxis", "prataxis")]

/-- `dep_dict.get(s_dep, s_dep)`: remap a raw label, passing unknown
labels through unchanged. -/
def remap_dep (d : String) : String :=
  match dep_dict.lookup d with
  | some v => v
  | none => d

/-- `WordNode.__init__` combined with `spacy_to_ud_token`: materialize
the word node for a raw token (index = raw index + 1, remapped label,
governor position 0 for a self-headed token else head index + 1, span
`[idx, idx + len(text))`, features copied). -/
def spacy_to_ud_token (t : SpacyToken) : WordNode :=
  { index := t.i + 1,
    index_span := (t.i + 1, t.i + 1),
    text := t.text,
    «lemma» := t.lemma_,
    upos := t.pos_,
    features := t.morph,
    span := (t.idx, t.idx + t.text.length),
    ner := none,
    ner_head_word := none,
    dependency_relation := remap_dep t.dep_,
    governor := if t.head == t.i then 0 else t.head + 1,
    governor_word := none }

/-- `add_governor_word`: resolve each word's numeric governor position
into a reference by indexing the sentence's word list at position
`governor - 1` (an out-of-range position is Python's `IndexError`). -/
def add_governor_word (s : Sentence) : Except String Sentence :=
  s.mapM fun w =>
    if w.governor > 0 then
      match s.get? (w.governor - 1) with
      | none => .error "IndexError: list index out of range"
      | some g => .ok { w with governor_word := some g.index }
    else .ok w

/-- `find_span_words`: the word nodes whose character span lies entirely
within the entity span, in sentence order. -/
def find_span_words (s : Sentence) (sp : SpacySpan) : List WordNode :=
  s.filter fun w => sp.start_char ≤ w.span.1 && w.span.2 ≤ sp.end_char

/-- Processing of one entity span inside `add_entities`: the first span
word whose governor is root or outside the span-word set becomes the
head and receives the annotation; every other span word gets a
back-reference to the head (`none` when no head qualified). -/
def add_entity (s : Sentence) (sp : SpacySpan) : Sentence :=
  let sw := find_span_words s sp
  let swIdx := sw.map fun w => w.index
  let headOpt := sw.find? fun w =>
    match w.governor_word with
    | none => true
    | some g => !(swIdx.contains g)
  match headOpt with
  | none =>
    s.map fun w =>
      if swIdx.contains w.index then { w with ner_head_word := none } else w
  | some h =>
    let s1 := setWord s h.index fun w =>
      { w with ner := some ⟨sp.text, swIdx, (sp.start_char, sp.end_char), sp.label_⟩ }
    s1.map fun w =>
      if swIdx.contains w.index && !(w.index == h.index) then
        { w with ner_head_word := some h.index }
      else w

/-- `add_entities`: process each raw entity span in order. -/
def add_entities (s : Sentence) (ents : List SpacySpan) : Sentence :=
  ents.foldl add_entity s

/-- A converted sentence (Python `SentenceNode`: original text plus the
word-node list; the backreference to the owning document is dropped). -/
structure SentenceNode where
  text : String
  word_nodes : Sentence
  deriving Repr, DecidableEq

/-- A converted document (Python `UdDoc.sentences`). -/
abbrev UdDoc := List SentenceNode

/-- `spacy_to_ud_sentence`: materialize the word nodes, resolve governor
references, run the rule engine, then align entities. -/
def spacy_to_ud_sentence (ss : SpacySent) : Except String (SentenceNode × List String) :=
  let words := ss.tokens.map spacy_to_ud_token
  match add_governor_word words with
  | .error e => .error e
  | .ok w2 =>
    match spacy_to_ud w2 with
    | .error e => .error e
    | .ok (w3, diags) => .ok ({ text := ss.text, word_nodes := add_entities w3 ss.ents }, diags)

/-- A raw spaCy document: its text, tokens and entities, plus its
sentence segmentation (empty when the pipeline produced none). -/
structure SpacyDoc where
  text : String
  tokens : List SpacyToken
  ents : List SpacySpan
  sents : List SpacySent
  deriving Repr, DecidableEq

/-- The per-sentence loop of `spacy_to_ud_doc`. -/
def convert_sents (ss : List SpacySent) (acc : UdDoc) (diags : List String) :
    Except String (UdDoc × List String) :=
  match ss with
  | [] => .ok (acc, diags)
  | x :: rest =>
    match spacy_to_ud_sentence x with
    | .error e => .error e
    | .ok (sn, d) => convert_sents rest (acc ++ [sn]) (diags ++ d)

/-- `spacy_to_ud_doc`: convert each raw sentence in order; an
undivided document is treated as one sentence. -/
def spacy_to_ud_doc (d : SpacyDoc) : Except String (UdDoc × List String) :=
  let ss := if d.sents.isEmpty then [⟨d.text, d.tokens, d.ents⟩] else d.sents
  convert_sents ss [] []

/-- Strip leading and trailing `|` characters (Python `str.strip('|')`). -/
def strip_pipes (str : String) : String :=
  String.mk (((str.toList.dropWhile (fun c => c == '|')).reverse.dropWhile
    (fun c => c == '|')).reverse)

/-- The morphological-feature rendering shared (verbatim, duplicated in
the Python source) by `WordNode.display_word` and `morph_to_string`:
`name=value` pairs joined by `|`, trailing separator stripped, literal
`None` when empty. -/
def feats_string (fs : List (String × String)) : String :=
  let f := fs.foldl (fun acc p => acc ++ p.1 ++ "=" ++ p.2 ++ "|") ""
  let f := strip_pipes f
  if f == "" then "None" else f

/-- `morph_to_string` applied to a raw token's feature mapping. -/
def morph_to_string (t : SpacyToken) : String :=
  feats_string t.morph

/-- The single output line of `WordNode.display_word`. -/
def display_word_line (w : WordNode) : String :=
  let res := toString w.index ++ "\t" ++ w.text ++ "\tlemma: " ++ w.«lemma»
    ++ "\tpos: " ++ w.upos
    ++ "\tdep: " ++ w.dependency_relation ++ "\tgov: " ++ toString w.governor
    ++ "\tfeats: " ++ feats_string w.features
  match w.ner with
  | some n =>
    res ++ "\tNER-type: " ++ n.label ++ "\tNER-words: " ++ toString n.words
  | none => res

/-- `SentenceNode.print_words` as an explicit state-passing traversal:
each word is read, rendered, and handed back unchanged; the returned
sentence is rebuilt from exactly the nodes the printer visited. -/
def print_words_run : Sentence → List String × Sentence
  | [] => ([], [])
  | w :: rest =>
    let line := display_word_line w
    let r := print_words_run rest
    (line :: r.1, w :: r.2)

/-- `UdDoc.print_doc` as a state-passing traversal: `fo` tells whether a
file sink was supplied (suppressing the extra blank line), `count` is
the optional sentence-number prefix. -/
def print_doc_run (fo : Bool) (count : Nat) : UdDoc → List String × UdDoc
  | [] => ([], [])
  | sn :: rest =>
    let txt := if count > 0 then "\n " ++ toString count ++ " " ++ sn.text else sn.text
    let wr := print_words_run sn.word_nodes
    let tailLines : List String := if fo then [] else [""]
    let r := print_doc_run fo count rest
    (txt :: (wr.1 ++ tailLines) ++ r.1, { text := sn.text, word_nodes := wr.2 } :: r.2)

/-- One raw-token line of `print_spacy_doc`. -/
def spacy_token_line (t : SpacyToken) : String :=
  toString t.i ++ "\t" ++ t.text ++ "\tlemma: " ++ t.lemma_ ++ "\tpos: " ++ t.pos_
    ++ "\tdep: " ++ t.dep_ ++ "\tgov: " ++ toString t.head
    ++ "\tfeats: " ++ morph_to_string t

/-- Raw-token loop of `print_spacy_doc`, state-passing. -/
def print_spacy_tokens_run : List SpacyToken → List String × List SpacyToken
  | [] => ([], [])
  | t :: rest =>
    let line := spacy_token_line t
    let r := print_spacy_tokens_run rest
    (line :: r.1, t :: r.2)

/-- Entity loop of `print_spacy_doc`, state-passing
(Python `print(ent.text, ent.start_char, ent.end_char, ent.label_)`). -/
def print_spacy_ents_run : List SpacySpan → List String × List SpacySpan
  | [] => ([], [])
  | e :: rest =>
    let line := e.text ++ " " ++ toString e.start_char ++ " "
      ++ toString e.end_char ++ " " ++ e.label_
    let r := print_spacy_ents_run rest
    (line :: r.1, e :: r.2)

/-- `print_spacy_doc` as a state-passing traversal of the raw document:
header, one line per token, then the entity list when non-empty. -/
def print_spacy_doc_run (d : SpacyDoc) : List String × SpacyDoc :=
  let header := "Spacy tokens for: " ++ d.text
  let tr := print_spacy_tokens_run d.tokens
  let er : List String × List SpacySpan :=
    if d.ents.isEmpty then ([], d.ents)
    else
      let r := print_spacy_ents_run d.ents
      ("Entities:" :: r.1, r.2)
  (header :: tr.1 ++ er.1, { text := d.text, tokens := tr.2, ents := er.2, sents := d.sents })

/-! ## Concrete inputs used by witnesses and counterexamples -/

/-- A raw token with an unlisted dependency label (`nsubj`), used to
witness the pass-through behaviour of the remap table. -/
def c5_tok : SpacyToken :=
  { i := 0, text := "Sue", lemma_ := "Sue", pos_ := "PROPN",
    dep_ := "nsubj", head := 1, idx := 0, morph := [] }

/-- Build a concrete word node (concrete-example convenience). -/
def mkW (i : Nat) (txt lem pos rel : String) (gov : Nat) (govw : Option Nat)
    (feats : List (String × String)) : WordNode :=
  { index := i, index_span := (i, i), text := txt, «lemma» := lem, upos := pos,
    features := feats, span := (10 * i, 10 * i + 3), ner := none,
    ner_head_word := none, dependency_relation := rel, governor := gov,
    governor_word := govw }

/-- Counterexample sentence for the make-copula claim: the "be" node has
two `expl` dependents; the first has lemma "it", the second "there". -/
def c3_sent : Sentence :=
  [mkW 1 "is" "be" "AUX" "root" 0 none [],
   mkW 2 "it" "it" "PRON" "expl" 1 (some 1) [],
   mkW 3 "there" "there" "PRON" "expl" 1 (some 1) [],
   mkW 4 "ghost" "ghost" "NOUN" "attr" 1 (some 1) []]

/-- Witness sentence for the amended make-copula claim: a "be" root with
an `attr` predicate and an `nsubj` dependent, no `expl` at all. -/
def c3_wsent : Sentence :=
  [mkW 1 "is" "be" "AUX" "root" 0 none [],
   mkW 2 "doctor" "doctor" "NOUN" "attr" 1 (some 1) [],
   mkW 3 "Mary" "Mary" "PROPN" "nsubj" 1 (some 1) []]

/-- Witness sentence for the currency swap ("Sam spent $40" after the
initial remap, with "$" about to be visited). -/
def c7_wsent : Sentence :=
  [mkW 1 "Sam" "Sam" "PROPN" "nsubj" 2 (some 2) [],
   mkW 2 "spent" "spend" "VERB" "root" 0 none [],
   mkW 3 "$" "$" "SYM" "nmod" 4 (some 4) [],
   mkW 4 "40" "40" "NUM" "obj" 2 (some 2) []]

/-- Witness sentence for the mislabeled-passive repair ("The speech was
well received", after the initial remap, with "received" about to be
visited). -/
def c6_wsent : Sentence :=
  [mkW 1 "The" "the" "DET" "det" 2 (some 2) [],
   mkW 2 "speech" "speech" "NOUN" "nsubj" 3 (some 3) [],
   mkW 3 "was" "be" "AUX" "root" 0 none [],
   mkW 4 "well" "well" "ADV" "advmod" 5 (some 5) [],
   mkW 5 "received" "receive" "VERB" "acomp" 3 (some 3) [("Aspect", "Perf")]]

/-- Counterexample sentence for the xcomp/ccomp `:outer` claim: the
"be" root's subject dependent carries the `nsubj:pass` relation, which
is not in the redirectable set. -/
def c4_sent : Sentence :=
  [mkW 1 "is" "be" "AUX" "root" 0 none [],
   mkW 2 "problem" "problem" "NOUN" "nsubj:pass" 1 (some 1) [],
   mkW 3 "left" "leave" "VERB" "ccomp" 1 (some 1) []]

/-- Witness sentence for the amended xcomp/ccomp claim ("The problem is
Sue left ...", reduced): a plain `nsubj` subject of the "be" root and a
`ccomp` dependent. -/
def c4_wsent : Sentence :=
  [mkW 1 "problem" "problem" "NOUN" "nsubj" 2 (some 2) [],
   mkW 2 "is" "be" "AUX" "root" 0 none [],
   mkW 3 "left" "leave" "VERB" "ccomp" 2 (some 2) []]

/-- Counterexample raw sentence for the anomaly-containment claim: a
`pcomp` token whose head is the sentence root (relation `root`, not
`prep`) makes the diagnostic itself dereference the root's missing
governor. -/
def c2_bad : SpacySent :=
  ⟨"runs waiting",
   [{ i := 0, text := "runs", lemma_ := "run", pos_ := "VERB", dep_ := "ROOT",
      head := 0, idx := 0, morph := [] },
    { i := 1, text := "waiting", lemma_ := "wait", pos_ := "VERB", dep_ := "pcomp",
      head := 0, idx := 5, morph := [] }], []⟩

/-- Witness sentence for the amended anomaly-containment claim: an
`attr` word whose governor's lemma is not "be". -/
def c2_wsent : Sentence :=
  [mkW 1 "looks" "look" "VERB" "root" 0 none [],
   mkW 2 "great" "great" "ADJ" "attr" 1 (some 1) []]

/-- Witness sentence for the reverse advmod-copula cleanup ("We are in
here" with both adverbs attached to "are"). -/
def c8_wsent : Sentence :=
  [mkW 1 "We" "we" "PRON" "nsubj" 2 (some 2) [],
   mkW 2 "are" "be" "AUX" "root" 0 none [],
   mkW 3 "in" "in" "ADP" "advmod" 2 (some 2) [],
   mkW 4 "here" "here" "ADV" "advmod" 2 (some 2) []]

/-- Witness sentence for entity alignment ("Steve Jones works" after
conversion; `mkW` gives word k the character span [10k, 10k+3)). -/
def c9_wsent : Sentence :=
  [mkW 1 "Steve" "Steve" "PROPN" "compound" 2 (some 2) [],
   mkW 2 "Jones" "Jones" "PROPN" "nsubj" 3 (some 3) [],
   mkW 3 "works" "work" "VERB" "root" 0 none []]

/-- The entity span covering "Steve Jones" in `c9_wsent`. -/
def c9_span : SpacySpan := ⟨"Steve Jones", 10, 23, "PERSON"⟩

/-- C1 witness input: token "Dogs" (nsubj of token 1). -/
def c1_tok0 : SpacyToken := ⟨0, "Dogs", "dog", "NOUN", "nsubj", 1, 0, []⟩

/-- C1 witness input: token "bark" (self-headed sentence root). -/
def c1_tok1 : SpacyToken := ⟨1, "bark", "bark", "VERB", "ROOT", 1, 5, []⟩

/-- C1 witness input: the raw sentence "Dogs bark". -/
def c1_sentW : SpacySent := ⟨"Dogs bark", [c1_tok0, c1_tok1], []⟩

/-- C1 witness input: a one-sentence document. -/
def c1_doc : SpacyDoc := ⟨"Dogs bark", [c1_tok0, c1_tok1], [], [c1_sentW]⟩

/-- C1 witness: the resolved word list of `c1_sentW` before the rule
engine (what `add_governor_word` returns on its materialized tokens). -/
def c1_resolved : Sentence :=
  [⟨1, (1, 1), "Dogs", "dog", "NOUN", [], (0, 4), none, none, "nsubj", 2, some 2⟩,
   ⟨2, (2, 2), "bark", "bark", "VERB", [], (5, 9), none, none, "root", 0, none⟩]

/-! ## The governor-tree invariant -/

/-- `i` reaches the root marker 0 by following governor positions. -/
inductive Reaches (s : Sentence) : Nat → Prop where
  | zero : Reaches s 0
  | step {i : Nat} {w : WordNode} : getW s i = some w → Reaches s w.governor → Reaches s i

/-- `j` is an iterated governor of `i` (including `i` itself). -/
inductive Chain (s : Sentence) : Nat → Nat → Prop where
  | refl (i : Nat) : Chain s i i
  | step {i j : Nat} {w : WordNode} : getW s i = some w → Chain s w.governor j → Chain s i j

/-- The numeric governor and the governor reference agree on every word,
no word claims position 0, and non-root governors resolve. -/
def Consistent (s : Sentence) : Prop :=
  ∀ w ∈ s, w.index ≠ 0
    ∧ (w.governor = 0 → w.governor_word = none)
    ∧ (w.governor ≠ 0 → w.governor_word = some w.governor ∧ (getW s w.governor).isSome)

/-- Exactly one word of the sentence has governor position 0. -/
def UniqueRoot (s : Sentence) : Prop :=
  ∃ r ∈ s, r.governor = 0 ∧ ∀ w ∈ s, w.governor = 0 → w = r

/-- Every word's governor chain reaches the root marker (no cycles). -/
def Acyc (s : Sentence) : Prop := ∀ w ∈ s, Reaches s w.index

/-- The full governor-tree invariant maintained by the rule engine. -/
def TreeInv (s : Sentence) : Prop :=
  (s.map WordNode.index).Nodup ∧ Consistent s ∧ UniqueRoot s ∧ Acyc s

/-- Executable reachability check with fuel (used to state decidable
validity hypotheses on concrete sentences). -/
def reaches_root_b (s : Sentence) : Nat → Nat → Bool
  | 0, _ => false
  | fuel + 1, i =>
    if i == 0 then true
    else
      match getW s i with
      | none => false
      | some w => reaches_root_b s fuel w.governor

/-- Executable form of the full invariant for a resolved sentence. -/
def sentence_ok (s : Sentence) : Bool :=
  decide ((s.map WordNode.index).Nodup)
  && s.all (fun w =>
       (w.index != 0)
       && (cond (w.governor == 0) (w.governor_word == none)
            (w.governor_word == some w.governor && (getW s w.governor).isSome))
       && reaches_root_b s (s.length + 1) w.index)
  && (s.countP (fun w => w.governor == 0) == 1)

/-! ## Infrastructure lemmas about the state operations -/

theorem getW_eq_some_index {s : Sentence} {i : Nat} {w : WordNode}
    (h : getW s i = some w) : w.index = i := by
  have := List.find?_some h
  simpa using this

theorem getW_eq_some_mem {s : Sentence} {i : Nat} {w : WordNode}
    (h : getW s i = some w) : w ∈ s :=
  List.mem_of_find?_eq_some h

theorem getW_map {g : WordNode → WordNode} (hg : ∀ w, (g w).index = w.index)
    (s : Sentence) (i : Nat) : getW (s.map g) i = (getW s i).map g := by
  unfold getW
  rw [List.find?_map]
  have : ((fun w => w.index == i) ∘ g) = (fun w => w.index == i) := by
    funext w
    simp [hg w]
  rw [this]

theorem setWord_index_eq {i : Nat} {f : WordNode → WordNode}
    (hf : ∀ w, (f w).index = w.index) (w : WordNode) :
    (if w.index == i then f w else w).index = w.index := by
  by_cases h : w.index == i <;> simp [h, hf w]

theorem getW_setWord {f : WordNode → WordNode} (hf : ∀ w, (f w).index = w.index)
    (s : Sentence) (i j : Nat) :
    getW (setWord s i f) j = if j = i then (getW s j).map f else getW s j := by
  unfold setWord
  rw [getW_map (setWord_index_eq hf)]
  by_cases hij : j = i
  · subst hij
    simp only [if_pos rfl]
    cases h : getW s j with
    | none => rfl
    | some w =>
      have hw := getW_eq_some_index h
      simp [hw]
  · simp only [if_neg hij]
    cases h : getW s j with
    | none => rfl
    | some w =>
      have hw := getW_eq_some_index h
      have hne : (w.index == i) = false := by
        rw [hw]
        exact beq_eq_false_iff_ne.mpr hij
      simp [hne]
      intro hc
      exact absurd hc (beq_eq_false_iff_ne.mp hne)

theorem redirectF_index (fromI toI : Nat) (w : WordNode) :
    (redirectF fromI toI w).index = w.index := by
  unfold redirectF
  split
  · rfl
  · split <;> rfl

theorem getW_redirect (s : Sentence) (a b j : Nat) :
    getW (redirect_dependants s a b) j = (getW s j).map (redirectF a b) := by
  unfold redirect_dependants
  exact getW_map (redirectF_index a b) s j

theorem lookup_eq_none_of_not_mem_keys {l : List (String × String)} {d : String}
    (h : d ∉ l.map Prod.fst) : l.lookup d = none := by
  induction l with
  | nil => rfl
  | cons a t ih =>
    simp only [List.map_cons, List.mem_cons, not_or] at h
    have hb : (d == a.1) = false := beq_eq_false_iff_ne.mpr h.1
    simp [List.lookup, hb, ih h.2]

theorem print_words_run_snd (ws : Sentence) : (print_words_run ws).2 = ws := by
  induction ws with
  | nil => rfl
  | cons w rest ih => simp [print_words_run, ih]

theorem print_doc_run_snd (fo : Bool) (count : Nat) (d : UdDoc) :
    (print_doc_run fo count d).2 = d := by
  induction d with
  | nil => rfl
  | cons sn rest ih => simp [print_doc_run, print_words_run_snd, ih]

theorem print_spacy_tokens_run_snd (ts : List SpacyToken) :
    (print_spacy_tokens_run ts).2 = ts := by
  induction ts with
  | nil => rfl
  | cons t rest ih => simp [print_spacy_tokens_run, ih]

theorem print_spacy_ents_run_snd (es : List SpacySpan) :
    (print_spacy_ents_run es).2 = es := by
  induction es with
  | nil => rfl
  | cons e rest ih => simp [print_spacy_ents_run, ih]

/-! ## Claim theorems -/

/-- Claim C10: printing a normalized document (`print_doc` /
`display_word`) and printing a raw analysis (`print_spacy_doc`) only
produce text: the document state handed back by each state-passing
printer — every word node with all its fields, every sentence, the
document, and the raw analysis — is exactly the input state. -/
theorem printing_preserves_all_state :
    (∀ (fo : Bool) (count : Nat) (d : UdDoc), (print_doc_run fo count d).2 = d)
    ∧ (∀ ws : Sentence, (print_words_run ws).2 = ws)
    ∧ (∀ d : SpacyDoc, (print_spacy_doc_run d).2 = d) := by
  refine ⟨print_doc_run_snd, print_words_run_snd, ?_⟩
  intro d
  cases d with
  | mk txt ts es ss =>
    simp only [print_spacy_doc_run, print_spacy_tokens_run_snd]
    by_cases h : es.isEmpty <;>
      simp [h, print_spacy_ents_run_snd]

/-- Claim C5: the initial remap of `spacy_to_ud_token` sends `dobj` to
`obj`, `ROOT` to `root` and `parataxis` to the literal `prataxis`, the
lookup table has exactly fourteen entries, and a raw label not among the
table's keys is copied to the word unchanged. -/
theorem spacy_to_ud_token_remap_table (t : SpacyToken) :
    (spacy_to_ud_token t).dependency_relation = remap_dep t.dep_
    ∧ (t.dep_ = "dobj" → (spacy_to_ud_token t).dependency_relation = "obj")
    ∧ (t.dep_ = "ROOT" → (spacy_to_ud_token t).dependency_relation = "root")
    ∧ (t.dep_ = "parataxis" → (spacy_to_ud_token t).dependency_relation = "prataxis")
    ∧ dep_dict.length = 14
    ∧ (t.dep_ ∉ dep_dict.map Prod.fst →
        (spacy_to_ud_token t).dependency_relation = t.dep_) := by
  refine ⟨rfl, ?_, ?_, ?_, rfl, ?_⟩
  · intro h
    simp [spacy_to_ud_token, remap_dep, h, dep_dict, List.lookup]
  · intro h
    simp [spacy_to_ud_token, remap_dep, h, dep_dict, List.lookup]
  · intro h
    simp [spacy_to_ud_token, remap_dep, h, dep_dict, List.lookup]
  · intro h
    have := lookup_eq_none_of_not_mem_keys h
    simp [spacy_to_ud_token, remap_dep, this]

/-- Witness for C5 at a concrete token whose label `nsubj` is not in the
table: it passes through unchanged. -/
theorem spacy_to_ud_token_remap_table_witness :
    (spacy_to_ud_token c5_tok).dependency_relation = "nsubj" :=
  (spacy_to_ud_token_remap_table c5_tok).2.2.2.2.2 (by decide)

theorem make_copula_apply_spec (s : Sentence) (headI beI : Nat) (be : WordNode)
    (hbe : getW s beI = some be) (hne : headI ≠ beI) :
    (make_copula_apply s headI beI).1 = true
    ∧ getW (make_copula_apply s headI beI).2 headI = (getW s headI).map (fun h =>
        { h with governor := be.governor, governor_word := be.governor_word,
                 dependency_relation := be.dependency_relation })
    ∧ getW (make_copula_apply s headI beI).2 beI =
        some ({ be with governor := headI, governor_word := some headI,
                        dependency_relation := "cop", upos := "AUX" })
    ∧ (∀ j w, j ≠ headI → j ≠ beI → getW s j = some w →
        getW (make_copula_apply s headI beI).2 j =
          some (if w.governor_word == some beI
                   && redirect_rels.contains w.dependency_relation
                then { w with governor := headI, governor_word := some headI }
                else w)) := by
  unfold make_copula_apply
  rw [hbe]
  simp only
  have hf1 : ∀ x : WordNode, (({ x with governor := be.governor, governor_word := be.governor_word, dependency_relation := be.dependency_relation } : WordNode)).index = x.index := fun _ => rfl
  have hf2 : ∀ x : WordNode, (({ x with governor := headI, governor_word := some headI, dependency_relation := "cop", upos := "AUX" } : WordNode)).index = x.index := fun _ => rfl
  refine ⟨trivial, ?_, ?_, ?_⟩
  · rw [getW_redirect, getW_setWord hf2, if_neg hne, getW_setWord hf1, if_pos rfl]
    cases h : getW s headI with
    | none => rfl
    | some hn =>
      have hi := getW_eq_some_index h
      simp only [Option.map_some']
      have hidx : (({ hn with governor := be.governor, governor_word := be.governor_word, dependency_relation := be.dependency_relation } : WordNode).index == headI) = true := by
        simp [hi]
      simp [redirectF, hidx]
  · rw [getW_redirect, getW_setWord hf2, if_pos rfl, getW_setWord hf1, if_neg (fun hc => hne hc.symm), hbe]
    simp only [Option.map_some']
    have hbi : (({ be with governor := headI, governor_word := some headI, dependency_relation := "cop", upos := "AUX" } : WordNode).index == beI) = true := by
      simp [getW_eq_some_index hbe]
    simp [redirectF, hbi]
  · intro j w hjh hjb hw
    rw [getW_redirect, getW_setWord hf2, if_neg hjb, getW_setWord hf1, if_neg hjh, hw]
    simp only [Option.map_some']
    have hwi := getW_eq_some_index hw
    have h1 : (w.index == beI) = false := by
      rw [hwi]; exact beq_eq_false_iff_ne.mpr hjb
    have h2 : (w.index == headI) = false := by
      rw [hwi]; exact beq_eq_false_iff_ne.mpr hjh
    simp only [redirectF, h1, h2, Bool.or_self, Bool.or_false, if_neg]
    rfl

/-- Claim C3 (counterexample): the "be" node of `c3_sent` has an `expl`
dependent with lemma "there", yet `make_copula` reports success and
changes the sentence — the code only inspects the first `expl`
dependent, here the one with lemma "it". -/
theorem make_copula_expl_there_counterexample :
    (∃ w ∈ c3_sent, w.governor_word = some 1 ∧ w.dependency_relation = "expl"
      ∧ w.«lemma» = "there")
    ∧ (make_copula c3_sent 4 1).1 = true
    ∧ (make_copula c3_sent 4 1).2 ≠ c3_sent := by decide

/-- Claim C3 (amended): `make_copula` reports failure and changes
nothing exactly when the first (sentence-order) `expl` dependent of the
"be" node has lemma "there"; otherwise the head candidate takes over
"be"'s governor position, governor word and dependency relation, "be"
becomes `cop`/`AUX` governed by the head, every other word is
re-governed to the head iff it was a redirectable dependent of "be", and
success is reported. -/
theorem make_copula_spec (s : Sentence) (headI beI : Nat) (be : WordNode)
    (hbe : getW s beI = some be) (hne : headI ≠ beI) :
    ((find_governed s beI "expl").any (fun e => e.«lemma» == "there") = true →
        make_copula s headI beI = (false, s))
    ∧ ((find_governed s beI "expl").all (fun e => !(e.«lemma» == "there")) = true →
        (make_copula s headI beI).1 = true
        ∧ getW (make_copula s headI beI).2 headI = (getW s headI).map (fun h =>
            { h with governor := be.governor, governor_word := be.governor_word,
                     dependency_relation := be.dependency_relation })
        ∧ getW (make_copula s headI beI).2 beI =
            some ({ be with governor := headI, governor_word := some headI,
                            dependency_relation := "cop", upos := "AUX" })
        ∧ (∀ j w, j ≠ headI → j ≠ beI → getW s j = some w →
            getW (make_copula s headI beI).2 j =
              some (if w.governor_word == some beI
                       && redirect_rels.contains w.dependency_relation
                    then { w with governor := headI, governor_word := some headI }
                    else w))) := by
  constructor
  · intro h
    unfold make_copula
    cases hf : find_governed s beI "expl" with
    | none => rw [hf] at h; simp [Option.any] at h
    | some e =>
      rw [hf] at h
      simp only [Option.any] at h
      simp [h]
  · intro h
    have hmc : make_copula s headI beI = make_copula_apply s headI beI := by
      unfold make_copula
      cases hf : find_governed s beI "expl" with
      | none => rfl
      | some e =>
        rw [hf] at h
        simp only [Option.all] at h
        simp only [Bool.not_eq_true'] at h
        simp [h]
    rw [hmc]
    exact make_copula_apply_spec s headI beI be hbe hne

/-- Witness for the amended C3 at `c3_wsent`: the copula succeeds and
"is" ends up as `cop`/`AUX` governed by "doctor". -/
theorem make_copula_spec_witness :
    (make_copula c3_wsent 2 1).1 = true
    ∧ getW (make_copula c3_wsent 2 1).2 1 =
        some ({ mkW 1 "is" "be" "AUX" "root" 0 none [] with governor := 2, governor_word := some 2, dependency_relation := "cop", upos := "AUX" }) := by
  have h := (make_copula_spec c3_wsent 2 1 (mkW 1 "is" "be" "AUX" "root" 0 none [])
    (by decide) (by decide)).2 (by decide)
  exact ⟨h.1, h.2.2.1⟩

/-- Claim C7: for a word labelled `nmod` with lemma "$" whose governor's
POS is `NUM`, the rule-engine step swaps roles: the word receives the
governor's governor position, governor word and dependency relation; the
former governor becomes the word's `nummod` dependent; and every other
word is re-governed to the word iff it was a redirectable dependent of
the former governor. -/
theorem nmod_currency_swap (s : Sentence) (i gi : Nat) (w g : WordNode)
    (hw : getW s i = some w) (hrel : w.dependency_relation = "nmod")
    (hlem : w.«lemma» = "$") (hgov : w.governor_word = some gi)
    (hg : getW s gi = some g) (hupos : g.upos = "NUM") (hne : i ≠ gi) :
    ∃ s2, run_rule s i = .ok (s2, [])
    ∧ getW s2 i = some ({ w with
        dependency_relation := g.dependency_relation,
        governor := g.governor, governor_word := g.governor_word })
    ∧ getW s2 gi = some ({ g with
        dependency_relation := "nummod",
        governor := i, governor_word := some i })
    ∧ (∀ j u, j ≠ i → j ≠ gi → getW s j = some u →
        getW s2 j = some (if u.governor_word == some gi
                             && redirect_rels.contains u.dependency_relation
                          then { u with governor := i, governor_word := some i }
                          else u)) := by
  have hrun : run_rule s i = nmod_to_ud s i := by
    unfold run_rule
    simp only [hw]
    rw [hrel]
    rfl
  have hgidx : g.index = gi := getW_eq_some_index hg
  have hbody : nmod_to_ud s i =
      .ok (redirect_dependants
        (setWord (setWord s i fun x =>
          { x with
            dependency_relation := g.dependency_relation,
            governor := g.governor, governor_word := g.governor_word })
          g.index fun x =>
          { x with
            dependency_relation := "nummod",
            governor := i, governor_word := some i }) g.index i, []) := by
    unfold nmod_to_ud
    simp only [hw]
    simp only [hlem, beq_self_eq_true, if_true]
    unfold govOf
    simp only [hgov]
    simp only [hg]
    simp [hupos]
  rw [hrun, hbody]
  have hf1 : ∀ x : WordNode, (({ x with dependency_relation := g.dependency_relation, governor := g.governor, governor_word := g.governor_word } : WordNode)).index = x.index := fun _ => rfl
  have hf2 : ∀ x : WordNode, (({ x with dependency_relation := "nummod", governor := i, governor_word := some i } : WordNode)).index = x.index := fun _ => rfl
  refine ⟨_, rfl, ?_, ?_, ?_⟩
  · rw [getW_redirect, hgidx, getW_setWord hf2, if_neg hne, getW_setWord hf1,
        if_pos rfl, hw]
    simp only [Option.map_some']
    have hidx : ((({ w with dependency_relation := g.dependency_relation, governor := g.governor, governor_word := g.governor_word } : WordNode)).index == i) = true := by
      simp [getW_eq_some_index hw]
    simp [redirectF, hidx]
  · rw [getW_redirect, hgidx, getW_setWord hf2, if_pos rfl, getW_setWord hf1,
        if_neg (fun hc => hne hc.symm), hg]
    simp only [Option.map_some']
    have hidx : ((({ g with dependency_relation := "nummod", governor := i, governor_word := some i } : WordNode)).index == gi) = true := by
      simp [hgidx]
    simp [redirectF, hidx]
    exact hgidx
  · intro j u hji hjg hu
    rw [getW_redirect, hgidx, getW_setWord hf2, if_neg hjg, getW_setWord hf1,
        if_neg hji, hu]
    simp only [Option.map_some']
    have hui := getW_eq_some_index hu
    have h1 : (u.index == gi) = false := by
      rw [hui]; exact beq_eq_false_iff_ne.mpr hjg
    have h2 : (u.index == i) = false := by
      rw [hui]; exact beq_eq_false_iff_ne.mpr hji
    simp only [redirectF, h1, h2, Bool.or_self, Bool.or_false, if_neg]
    rfl

/-- Witness for C7 at "Sam spent $40": "$" takes over `obj` under
"spent" and "40" becomes its `nummod` dependent. -/
theorem nmod_currency_swap_witness :
    ∃ s2, run_rule c7_wsent 3 = .ok (s2, [])
    ∧ getW s2 3 = some ({ mkW 3 "$" "$" "SYM" "nmod" 4 (some 4) [] with
        dependency_relation := "obj", governor := 2, governor_word := some 2 })
    ∧ getW s2 4 = some ({ mkW 4 "40" "40" "NUM" "obj" 2 (some 2) [] with
        dependency_relation := "nummod", governor := 3, governor_word := some 3 }) := by
  obtain ⟨s2, h1, h2, h3, _⟩ := nmod_currency_swap c7_wsent 3 4
    (mkW 3 "$" "$" "SYM" "nmod" 4 (some 4) [])
    (mkW 4 "40" "40" "NUM" "obj" 2 (some 2) [])
    (by decide) rfl rfl rfl (by decide) rfl (by decide)
  exact ⟨s2, h1, h2, h3⟩

theorem getW_of_mem_nodup {s : Sentence} {w : WordNode}
    (hnd : (s.map WordNode.index).Nodup) (hmem : w ∈ s) :
    getW s w.index = some w := by
  induction s with
  | nil => cases hmem
  | cons a t ih =>
    simp only [List.map_cons, List.nodup_cons] at hnd
    rcases List.mem_cons.mp hmem with h | h
    · subst h
      unfold getW
      simp [List.find?]
    · unfold getW
      simp only [List.find?]
      have hne : (a.index == w.index) = false := by
        apply beq_eq_false_iff_ne.mpr
        intro hc
        exact hnd.1 (hc ▸ List.mem_map_of_mem WordNode.index h)
      rw [hne]
      exact ih hnd.2 h

theorem find_governed_mem {s : Sentence} {i : Nat} {dep : String} {e : WordNode}
    (h : find_governed s i dep = some e) :
    e ∈ s ∧ e.governor_word = some i ∧ e.dependency_relation = dep := by
  refine ⟨List.mem_of_find?_eq_some h, ?_, ?_⟩
  · have := List.find?_some h
    simp only [Bool.and_eq_true, beq_iff_eq] at this
    exact this.1
  · have := List.find?_some h
    simp only [Bool.and_eq_true, beq_iff_eq] at this
    exact this.2

theorem make_passive_spec (s : Sentence) (beI verbI : Nat) (be : WordNode)
    (hnd : (s.map WordNode.index).Nodup)
    (hbe : getW s beI = some be) (hne : verbI ≠ beI) :
    (∀ sj, find_governed s beI "nsubj" = some sj → sj.index ≠ verbI → sj.index ≠ beI →
        getW (make_passive s beI verbI) sj.index =
          some ({ sj with
            governor := verbI, governor_word := some verbI,
            dependency_relation := "nsubj:pass" })
        ∧ getW (make_passive s beI verbI) verbI = (getW s verbI).map (fun v =>
            { v with
              governor := be.governor, governor_word := be.governor_word,
              dependency_relation := be.dependency_relation })
        ∧ getW (make_passive s beI verbI) beI =
          some ({ be with
            governor := verbI, governor_word := some verbI,
            dependency_relation := "aux:pass" })
        ∧ (∀ j, j ≠ verbI → j ≠ beI → j ≠ sj.index →
            getW (make_passive s beI verbI) j = getW s j))
    ∧ (find_governed s beI "nsubj" = none →
       ∀ sj, find_governed s beI "csubj" = some sj → sj.index ≠ verbI → sj.index ≠ beI →
        getW (make_passive s beI verbI) sj.index =
          some ({ sj with
            governor := verbI, governor_word := some verbI,
            dependency_relation := "csubj:pass" })
        ∧ getW (make_passive s beI verbI) verbI = (getW s verbI).map (fun v =>
            { v with
              governor := be.governor, governor_word := be.governor_word,
              dependency_relation := be.dependency_relation })
        ∧ getW (make_passive s beI verbI) beI =
          some ({ be with
            governor := verbI, governor_word := some verbI,
            dependency_relation := "aux:pass" })
        ∧ (∀ j, j ≠ verbI → j ≠ beI → j ≠ sj.index →
            getW (make_passive s beI verbI) j = getW s j))
    ∧ (find_governed s beI "nsubj" = none → find_governed s beI "csubj" = none →
        getW (make_passive s beI verbI) verbI = (getW s verbI).map (fun v =>
            { v with
              governor := be.governor, governor_word := be.governor_word,
              dependency_relation := be.dependency_relation })
        ∧ getW (make_passive s beI verbI) beI =
          some ({ be with
            governor := verbI, governor_word := some verbI,
            dependency_relation := "aux:pass" })
        ∧ (∀ j, j ≠ verbI → j ≠ beI →
            getW (make_passive s beI verbI) j = getW s j)) := by
  have hfB : ∀ x : WordNode, (({ x with governor := verbI, governor_word := some verbI, dependency_relation := "aux:pass" } : WordNode)).index = x.index := fun _ => rfl
  have hfV : ∀ x : WordNode, (({ x with governor := be.governor, governor_word := be.governor_word, dependency_relation := be.dependency_relation } : WordNode)).index = x.index := fun _ => rfl
  refine ⟨?_, ?_, ?_⟩
  · intro sj hfn hsv hsb
    have hsj : getW s sj.index = some sj :=
      getW_of_mem_nodup hnd (find_governed_mem hfn).1
    have hfS : ∀ x : WordNode, (({ x with governor := verbI, governor_word := some verbI, dependency_relation := "nsubj:pass" } : WordNode)).index = x.index := fun _ => rfl
    have hbe1 : getW (setWord s sj.index fun x =>
        { x with governor := verbI, governor_word := some verbI,
                 dependency_relation := "nsubj:pass" }) beI = some be := by
      rw [getW_setWord hfS, if_neg (fun hc => hsb hc.symm), hbe]
    have hmp : make_passive s beI verbI =
        setWord (setWord (setWord s sj.index fun x =>
            { x with governor := verbI, governor_word := some verbI,
                     dependency_relation := "nsubj:pass" })
          verbI fun x =>
            { x with governor := be.governor, governor_word := be.governor_word,
                     dependency_relation := be.dependency_relation })
          beI fun x =>
            { x with governor := verbI, governor_word := some verbI,
                     dependency_relation := "aux:pass" } := by
      unfold make_passive
      simp only [hfn]
      simp only [hbe1]
    rw [hmp]
    refine ⟨?_, ?_, ?_, ?_⟩
    · rw [getW_setWord hfB, if_neg hsb, getW_setWord hfV, if_neg hsv,
          getW_setWord hfS, if_pos rfl, hsj]
      rfl
    · rw [getW_setWord hfB, if_neg hne, getW_setWord hfV, if_pos rfl,
          getW_setWord hfS, if_neg (fun hc => hsv hc.symm)]
    · rw [getW_setWord hfB, if_pos rfl, getW_setWord hfV,
          if_neg (fun hc => hne hc.symm), hbe1]
      rfl
    · intro j hjv hjb hjs
      rw [getW_setWord hfB, if_neg hjb, getW_setWord hfV, if_neg hjv,
          getW_setWord hfS, if_neg hjs]
  · intro hn sj hfc hsv hsb
    have hsj : getW s sj.index = some sj :=
      getW_of_mem_nodup hnd (find_governed_mem hfc).1
    have hfS : ∀ x : WordNode, (({ x with governor := verbI, governor_word := some verbI, dependency_relation := "csubj:pass" } : WordNode)).index = x.index := fun _ => rfl
    have hbe1 : getW (setWord s sj.index fun x =>
        { x with governor := verbI, governor_word := some verbI,
                 dependency_relation := "csubj:pass" }) beI = some be := by
      rw [getW_setWord hfS, if_neg (fun hc => hsb hc.symm), hbe]
    have hmp : make_passive s beI verbI =
        setWord (setWord (setWord s sj.index fun x =>
            { x with governor := verbI, governor_word := some verbI,
                     dependency_relation := "csubj:pass" })
          verbI fun x =>
            { x with governor := be.governor, governor_word := be.governor_word,
                     dependency_relation := be.dependency_relation })
          beI fun x =>
            { x with governor := verbI, governor_word := some verbI,
                     dependency_relation := "aux:pass" } := by
      unfold make_passive
      simp only [hn, hfc]
      simp only [hbe1]
    rw [hmp]
    refine ⟨?_, ?_, ?_, ?_⟩
    · rw [getW_setWord hfB, if_neg hsb, getW_setWord hfV, if_neg hsv,
          getW_setWord hfS, if_pos rfl, hsj]
      rfl
    · rw [getW_setWord hfB, if_neg hne, getW_setWord hfV, if_pos rfl,
          getW_setWord hfS, if_neg (fun hc => hsv hc.symm)]
    · rw [getW_setWord hfB, if_pos rfl, getW_setWord hfV,
          if_neg (fun hc => hne hc.symm), hbe1]
      rfl
    · intro j hjv hjb hjs
      rw [getW_setWord hfB, if_neg hjb, getW_setWord hfV, if_neg hjv,
          getW_setWord hfS, if_neg hjs]
  · intro hn hc
    have hmp : make_passive s beI verbI =
        setWord (setWord s verbI fun x =>
            { x with governor := be.governor, governor_word := be.governor_word,
                     dependency_relation := be.dependency_relation })
          beI fun x =>
            { x with governor := verbI, governor_word := some verbI,
                     dependency_relation := "aux:pass" } := by
      unfold make_passive
      simp only [hn, hc]
      simp only [hbe]
    rw [hmp]
    refine ⟨?_, ?_, ?_⟩
    · rw [getW_setWord hfB, if_neg hne, getW_setWord hfV, if_pos rfl]
    · rw [getW_setWord hfB, if_pos rfl, getW_setWord hfV,
          if_neg (fun hc2 => hne hc2.symm), hbe]
      rfl
    · intro j hjv hjb
      rw [getW_setWord hfB, if_neg hjb, getW_setWord hfV, if_neg hjv]

/-- Claim C6: for a word labelled `acomp` whose governor's lemma is "be"
and whose POS is `VERB` with feature Aspect=Perf, the rule-engine step
runs make-passive: the verb takes over "be"'s governor position,
governor word and dependency relation; "be"'s first `nsubj` dependent
(else its first `csubj` dependent), if any, is re-governed by the verb
as `nsubj:pass` (respectively `csubj:pass`); "be" becomes the verb's
dependent with relation `aux:pass`; and every other word is
unchanged. -/
theorem acomp_passive_repair (s : Sentence) (i gi : Nat) (w g : WordNode)
    (hnd : (s.map WordNode.index).Nodup)
    (hw : getW s i = some w) (hrel : w.dependency_relation = "acomp")
    (hgov : w.governor_word = some gi) (hg : getW s gi = some g)
    (hlem : g.«lemma» = "be") (hupos : w.upos = "VERB")
    (hasp : w.features.lookup "Aspect" = some "Perf") (hne : i ≠ gi) :
    run_rule s i = .ok (make_passive s gi i, [])
    ∧ (∀ sj, find_governed s gi "nsubj" = some sj → sj.index ≠ i → sj.index ≠ gi →
        getW (make_passive s gi i) sj.index =
          some ({ sj with
            governor := i, governor_word := some i,
            dependency_relation := "nsubj:pass" })
        ∧ getW (make_passive s gi i) i = (getW s i).map (fun v =>
            { v with
              governor := g.governor, governor_word := g.governor_word,
              dependency_relation := g.dependency_relation })
        ∧ getW (make_passive s gi i) gi =
          some ({ g with
            governor := i, governor_word := some i,
            dependency_relation := "aux:pass" })
        ∧ (∀ j, j ≠ i → j ≠ gi → j ≠ sj.index →
            getW (make_passive s gi i) j = getW s j))
    ∧ (find_governed s gi "nsubj" = none →
       ∀ sj, find_governed s gi "csubj" = some sj → sj.index ≠ i → sj.index ≠ gi →
        getW (make_passive s gi i) sj.index =
          some ({ sj with
            governor := i, governor_word := some i,
            dependency_relation := "csubj:pass" })
        ∧ getW (make_passive s gi i) i = (getW s i).map (fun v =>
            { v with
              governor := g.governor, governor_word := g.governor_word,
              dependency_relation := g.dependency_relation })
        ∧ getW (make_passive s gi i) gi =
          some ({ g with
            governor := i, governor_word := some i,
            dependency_relation := "aux:pass" })
        ∧ (∀ j, j ≠ i → j ≠ gi → j ≠ sj.index →
            getW (make_passive s gi i) j = getW s j))
    ∧ (find_governed s gi "nsubj" = none → find_governed s gi "csubj" = none →
        getW (make_passive s gi i) i = (getW s i).map (fun v =>
            { v with
              governor := g.governor, governor_word := g.governor_word,
              dependency_relation := g.dependency_relation })
        ∧ getW (make_passive s gi i) gi =
          some ({ g with
            governor := i, governor_word := some i,
            dependency_relation := "aux:pass" })
        ∧ (∀ j, j ≠ i → j ≠ gi →
            getW (make_passive s gi i) j = getW s j)) := by
  have hgidx : g.index = gi := getW_eq_some_index hg
  have hspec := make_passive_spec s gi i g hnd hg hne
  refine ⟨?_, hspec.1, hspec.2.1, hspec.2.2⟩
  unfold run_rule
  simp only [hw]
  rw [hrel]
  show acomp_to_ud s i = _
  unfold acomp_to_ud
  simp only [hw]
  unfold govOf
  simp only [hgov]
  simp only [hg]
  simp [hlem, hupos, hasp, hgidx]

/-- Witness for C6 at "The speech was well received": the rule triggers
make-passive, "speech" becomes `nsubj:pass` of "received" and "was"
becomes `aux:pass` of "received". -/
theorem acomp_passive_repair_witness :
    run_rule c6_wsent 5 = .ok (make_passive c6_wsent 3 5, [])
    ∧ getW (make_passive c6_wsent 3 5) 2 =
        some ({ mkW 2 "speech" "speech" "NOUN" "nsubj" 3 (some 3) [] with
          governor := 5, governor_word := some 5,
          dependency_relation := "nsubj:pass" })
    ∧ getW (make_passive c6_wsent 3 5) 3 =
        some ({ mkW 3 "was" "be" "AUX" "root" 0 none [] with
          governor := 5, governor_word := some 5,
          dependency_relation := "aux:pass" }) := by
  have h := acomp_passive_repair c6_wsent 5 3
    (mkW 5 "received" "receive" "VERB" "acomp" 3 (some 3) [("Aspect", "Perf")])
    (mkW 3 "was" "be" "AUX" "root" 0 none [])
    (by decide) (by decide) rfl rfl (by decide) rfl rfl rfl (by decide)
  have h2 := h.2.1 (mkW 2 "speech" "speech" "NOUN" "nsubj" 3 (some 3) [])
    (by decide) (by decide) (by decide)
  exact ⟨h.1, h2.1, h2.2.2.1⟩

theorem find_subj_mem {s : Sentence} {i : Nat} {e : WordNode}
    (h : find_subj s i = some e) :
    e ∈ s ∧ e.governor_word = some i
    ∧ subj_rels.contains e.dependency_relation = true := by
  refine ⟨List.mem_of_find?_eq_some h, ?_, ?_⟩
  · have := List.find?_some h
    simp only [Bool.and_eq_true, beq_iff_eq] at this
    exact this.1
  · have := List.find?_some h
    simp only [Bool.and_eq_true] at this
    exact this.2

/-- Claim C4 (counterexample): in `c4_sent` the "be" governor's subject
dependent has relation `nsubj:pass`; after the `ccomp` rule the subject
carries `nsubj:pass:outer` but is still governed by word 1 ("be", now
`cop`), not by the `ccomp` word 3 — it was never redirected. -/
theorem comp_outer_not_redirected_counterexample :
    (run_rule c4_sent 3).toOption.map (fun p =>
      ((getW p.1 2).map WordNode.dependency_relation,
       (getW p.1 2).map WordNode.governor,
       (getW p.1 1).map WordNode.dependency_relation)) =
    some (some "nsubj:pass:outer", some 1, some "cop") := by decide

/-- Claim C4 (amended): for a word labelled `xcomp`/`ccomp` whose
governor's lemma is "be": when the copula restructuring succeeds the
word becomes the copula head over the governor and the governor's
subject dependent (if any) gets ":outer" appended to its relation, but
it is re-governed to the word only when its relation is in the
redirectable set (the `:pass` variants keep their old governor); when
the copula restructuring fails (first `expl` dependent has lemma
"there") the word and governor are left unchanged, yet ":outer" is still
appended to the subject's relation. -/
theorem comp_be_outer_spec (s : Sentence) (i gi : Nat) (w g : WordNode)
    (hnd : (s.map WordNode.index).Nodup)
    (hw : getW s i = some w)
    (hrel : w.dependency_relation = "xcomp" ∨ w.dependency_relation = "ccomp")
    (hgov : w.governor_word = some gi) (hg : getW s gi = some g)
    (hlem : g.«lemma» = "be") (hne : i ≠ gi)
    (hsjd : ∀ sj, find_subj s gi = some sj → sj.index ≠ i ∧ sj.index ≠ gi) :
    ((find_governed s gi "expl").any (fun e => e.«lemma» == "there") = true →
      (∀ sj, find_subj s gi = some sj →
        run_rule s i = .ok (setWord s sj.index (fun x =>
          { x with dependency_relation := x.dependency_relation ++ ":outer" }), []))
      ∧ (find_subj s gi = none → run_rule s i = .ok (s, [])))
    ∧ ((find_governed s gi "expl").all (fun e => !(e.«lemma» == "there")) = true →
      ∃ s2, run_rule s i = .ok (s2, [])
      ∧ getW s2 i = some ({ w with
          governor := g.governor, governor_word := g.governor_word,
          dependency_relation := g.dependency_relation })
      ∧ getW s2 gi = some ({ g with
          governor := i, governor_word := some i,
          dependency_relation := "cop", upos := "AUX" })
      ∧ (∀ sj, find_subj s gi = some sj →
          getW s2 sj.index = some (
            if redirect_rels.contains sj.dependency_relation
            then { sj with
              governor := i, governor_word := some i,
              dependency_relation := sj.dependency_relation ++ ":outer" }
            else { sj with
              dependency_relation := sj.dependency_relation ++ ":outer" }))
      ∧ (find_subj s gi = none → ∀ j u, j ≠ i → j ≠ gi → getW s j = some u →
          getW s2 j = some (redirectF gi i u))) := by
  have hgidx : g.index = gi := getW_eq_some_index hg
  have hdisp : run_rule s i = comp_to_ud s i := by
    unfold run_rule
    simp only [hw]
    rcases hrel with h | h
    · rw [h]
      rfl
    · rw [h]
      rfl
  have hfout : ∀ x : WordNode, (({ x with dependency_relation := x.dependency_relation ++ ":outer" } : WordNode)).index = x.index := fun _ => rfl
  have hspec := make_copula_spec s i gi g hg hne
  cases hsubj : find_subj s gi with
  | none =>
    have hbody : comp_to_ud s i = .ok ((make_copula s i gi).2, []) := by
      unfold comp_to_ud
      simp only [hw]
      unfold govOf
      simp only [hgov]
      simp only [hg]
      rw [hgidx]
      simp only [hlem, beq_self_eq_true, if_true, hsubj]
    constructor
    · intro hfail
      refine ⟨?_, ?_⟩
      · intro sj hsj
        exact Option.noConfusion hsj
      · intro _
        rw [hdisp, hbody, (hspec.1 hfail)]
    · intro hall
      have hs := hspec.2 hall
      refine ⟨(make_copula s i gi).2, by rw [hdisp, hbody], ?_, ?_, ?_, ?_⟩
      · rw [hs.2.1, hw]
        rfl
      · exact hs.2.2.1
      · intro sj hsj
        exact Option.noConfusion hsj
      · intro _ j u hji hjg hu
        rw [hs.2.2.2 j u hji hjg hu]
        have hui := getW_eq_some_index hu
        have h1 : (u.index == gi) = false := by
          rw [hui]; exact beq_eq_false_iff_ne.mpr hjg
        have h2 : (u.index == i) = false := by
          rw [hui]; exact beq_eq_false_iff_ne.mpr hji
        simp only [redirectF, h1, h2, Bool.or_self, Bool.or_false, if_neg]
        rfl
  | some sj =>
    have hsd := hsjd sj hsubj
    have hsm := find_subj_mem hsubj
    have hsjW : getW s sj.index = some sj := getW_of_mem_nodup hnd hsm.1
    have hbody : comp_to_ud s i = .ok (setWord (make_copula s i gi).2 sj.index (fun x =>
        { x with dependency_relation := x.dependency_relation ++ ":outer" }), []) := by
      unfold comp_to_ud
      simp only [hw]
      unfold govOf
      simp only [hgov]
      simp only [hg]
      rw [hgidx]
      simp only [hlem, beq_self_eq_true, if_true, hsubj]
    constructor
    · intro hfail
      refine ⟨?_, ?_⟩
      · intro sj2 hsj2
        have h12 := Option.some.inj hsj2
        subst h12
        rw [hdisp, hbody, (hspec.1 hfail)]
      · intro hnone
        exact Option.noConfusion hnone
    · intro hall
      have hs := hspec.2 hall
      refine ⟨setWord (make_copula s i gi).2 sj.index (fun x =>
          { x with dependency_relation := x.dependency_relation ++ ":outer" }),
        by rw [hdisp, hbody], ?_, ?_, ?_, ?_⟩
      · rw [getW_setWord hfout, if_neg (fun hc => hsd.1 hc.symm), hs.2.1, hw]
        rfl
      · rw [getW_setWord hfout, if_neg (fun hc => hsd.2 hc.symm), hs.2.2.1]
      · intro sj2 hsj2
        have h12 := Option.some.inj hsj2
        subst h12
        rw [getW_setWord hfout, if_pos rfl,
            hs.2.2.2 sj.index sj hsd.1 hsd.2 hsjW]
        simp only [Option.map_some']
        rw [hsm.2.1]
        simp only [beq_self_eq_true, Bool.true_and]
        cases hcontains : redirect_rels.contains sj.dependency_relation
        · simp [hsm.2.1]
        · simp [hsm.2.1]
      · intro hnone
        exact Option.noConfusion hnone

/-- Witness for the amended C4 at "The problem is Sue left" (reduced):
"left" becomes the root copula head, "is" becomes `cop`, and the
`nsubj` subject is redirected to "left" as `nsubj:outer`. -/
theorem comp_be_outer_spec_witness :
    ∃ s2, run_rule c4_wsent 3 = .ok (s2, [])
    ∧ getW s2 3 = some ({ mkW 3 "left" "leave" "VERB" "ccomp" 2 (some 2) [] with
        governor := 0, governor_word := none, dependency_relation := "root" })
    ∧ getW s2 2 = some ({ mkW 2 "is" "be" "AUX" "root" 0 none [] with
        governor := 3, governor_word := some 3,
        dependency_relation := "cop", upos := "AUX" })
    ∧ getW s2 1 = some ({ mkW 1 "problem" "problem" "NOUN" "nsubj" 2 (some 2) [] with
        governor := 3, governor_word := some 3,
        dependency_relation := "nsubj:outer" }) := by
  have hsjd : ∀ sj, find_subj c4_wsent 2 = some sj → sj.index ≠ 3 ∧ sj.index ≠ 2 := by
    intro sj hsj
    have hk : find_subj c4_wsent 2 =
        some (mkW 1 "problem" "problem" "NOUN" "nsubj" 2 (some 2) []) := by decide
    have h12 := Option.some.inj (hk.symm.trans hsj)
    subst h12
    exact ⟨by decide, by decide⟩
  have h := comp_be_outer_spec c4_wsent 3 2
    (mkW 3 "left" "leave" "VERB" "ccomp" 2 (some 2) [])
    (mkW 2 "is" "be" "AUX" "root" 0 none [])
    (by decide) (by decide) (Or.inr rfl) rfl (by decide) rfl (by decide) hsjd
  obtain ⟨s2, hrun, hi, hgi, hsubj, -⟩ := h.2 (by decide)
  refine ⟨s2, hrun, ?_, ?_, ?_⟩
  · rw [hi]
    rfl
  · rw [hgi]
  · have hx := hsubj (mkW 1 "problem" "problem" "NOUN" "nsubj" 2 (some 2) []) (by decide)
    have hone : (mkW 1 "problem" "problem" "NOUN" "nsubj" 2 (some 2) []).index = 1 := rfl
    rw [hone] at hx
    rw [hx]
    rfl

/-- Claim C2 (counterexample): the raw sentence `c2_bad` has a `pcomp`
word whose immediate governor — the sentence root, labelled `root` — is
not labelled `prep`; the rule's structural precondition is violated, yet
the conversion does not emit a diagnostic and continue: it raises
(formatting the diagnostic dereferences the root's `None` governor). -/
theorem pcomp_anomaly_raises_counterexample :
    (∃ w ∈ c2_bad.tokens.map spacy_to_ud_token,
        w.dependency_relation = "pcomp" ∧ w.governor = 1)
    ∧ (∀ w ∈ c2_bad.tokens.map spacy_to_ud_token,
        w.index = 1 → w.dependency_relation = "root" ∧ w.governor = 0)
    ∧ ∃ e, spacy_to_ud_sentence c2_bad = .error e :=
  ⟨by decide, by decide, "AttributeError: NoneType governor", rfl⟩

/-- Claim C2 (amended): for the three listed structural-precondition
violations — an `attr` word whose governor's lemma is not "be", a `pobj`
word whose governor chain yields no preposition, and a `pcomp` word
whose governor is not labelled `prep` but itself has a resolvable
governor — the rule-engine step returns normally with the sentence
unchanged and exactly the diagnostic line appended, and the engine pass
then continues with the remaining words.  (When the offending `pcomp`
word's governor is the sentence root, composing the diagnostic instead
raises, as the counterexample shows.) -/
theorem anomaly_containment_spec (s : Sentence) (i : Nat) (w : WordNode)
    (hw : getW s i = some w) :
    (∀ gi g, w.dependency_relation = "attr" → w.governor_word = some gi →
      getW s gi = some g → g.«lemma» ≠ "be" →
      run_rule s i = .ok (s,
        ["Dep attr used with something other than to be: "
          ++ g.text ++ " <-attr- " ++ w.text]))
    ∧ (w.dependency_relation = "pobj" → ∀ gOpt, prep_chain s w = .ok (gOpt, []) →
      run_rule s i = .ok (s, ["pobj without preps, word: " ++ w.text]))
    ∧ (∀ pi prep gi g, w.dependency_relation = "pcomp" → w.governor_word = some pi →
      getW s pi = some prep →
      (w.upos == "ADP" && prep.upos == "SCONJ") = false →
      prep.dependency_relation ≠ "prep" →
      prep.governor_word = some gi → getW s gi = some g →
      run_rule s i = .ok (s,
        ["No prep dependency in: " ++ g.text ++ " <-"
          ++ prep.dependency_relation ++ "- " ++ prep.text
          ++ " <-pcomp- " ++ w.text]))
    ∧ (∀ rest diags d, run_rule s i = .ok (s, d) →
        rules_pass (i :: rest) s diags = rules_pass rest s (diags ++ d)) := by
  refine ⟨?_, ?_, ?_, ?_⟩
  · intro gi g hrel hgov hg hne
    unfold run_rule
    simp only [hw]
    rw [hrel]
    show attr_to_ud s i = _
    unfold attr_to_ud
    simp only [hw]
    unfold govOf
    simp only [hgov]
    simp only [hg]
    have hb : (g.«lemma» != "be") = true := bne_iff_ne.mpr hne
    simp [hb]
  · intro hrel gOpt hchain
    unfold run_rule
    simp only [hw]
    rw [hrel]
    show pobj_to_ud s i = _
    unfold pobj_to_ud
    simp only [hw]
    simp only [hchain]
    rfl
  · intro pi prep gi g hrel hgov hprep hfix hnp hpg hg
    unfold run_rule
    simp only [hw]
    rw [hrel]
    show pcomp_to_ud s i = _
    unfold pcomp_to_ud
    simp only [hw]
    simp only [hgov]
    simp only [hprep]
    simp only [hfix, Bool.false_eq_true, if_false]
    have hb : (prep.dependency_relation != "prep") = true := bne_iff_ne.mpr hnp
    simp only [hb, if_true]
    simp only [hpg]
    simp only [hg]
  · intro rest diags d hok
    unfold rules_pass
    simp only [hok]
    cases rest with
    | nil => rfl
    | cons j rest2 =>
      simp only [rules_pass]

/-- Witness for the amended C2: an `attr` word under a non-"be" governor
produces exactly the diagnostic, leaves the sentence unchanged, and the
step returns normally. -/
theorem anomaly_containment_spec_witness :
    run_rule c2_wsent 2 = .ok (c2_wsent,
      ["Dep attr used with something other than to be: looks <-attr- great"]) :=
  (anomaly_containment_spec c2_wsent 2
      (mkW 2 "great" "great" "ADJ" "attr" 1 (some 1) []) (by decide)).1
    1 (mkW 1 "looks" "look" "VERB" "root" 0 none []) rfl rfl (by decide) (by decide)

theorem redirectF_rel (a c : Nat) (u : WordNode) :
    (redirectF a c u).dependency_relation = u.dependency_relation := by
  unfold redirectF
  split
  · rfl
  · split
    · rfl
    · rfl

theorem fix_pass_append (L1 L2 : List Nat) (s : Sentence) :
    fix_pass (L1 ++ L2) s =
      match fix_pass L1 s with
      | .error e => .error e
      | .ok s1 => fix_pass L2 s1 := by
  induction L1 generalizing s with
  | nil => rfl
  | cons j rest ih =>
    simp only [List.cons_append, fix_pass]
    cases fix_step s j with
    | error e => rfl
    | ok s1 => exact ih s1

theorem fix_pass_id (L : List Nat) (s : Sentence)
    (h : ∀ j ∈ L, fix_step s j = .ok s) : fix_pass L s = .ok s := by
  induction L with
  | nil => rfl
  | cons j rest ih =>
    simp only [fix_pass, h j (List.mem_cons_self j rest)]
    exact ih (fun k hk => h k (List.mem_cons_of_mem j hk))

/-- Claim C8: the cleanup pass visits words from last to first; for a
sentence whose `advmod` words all hang off the one "be" node `g` (not
itself `cop`, no existential `expl`-"there"), with `b` the last-placed
such adverb, the cleanup makes exactly `b` the copula's final head: the
whole pass returns the state produced by `make_copula(b, g)`, in which
`g` is `cop`/`AUX` governed by `b` and `b` carries `g`'s old governor
position, governor word and relation.  Adverbs to the left of `b` were
redirected to `b` (whose lemma is not "be") before being visited, so
none of them fires. -/
theorem fix_advmod_cop_rightmost (s s1 s2 : Sentence) (bI gI : Nat) (b g : WordNode)
    (hnd : (s.map WordNode.index).Nodup)
    (hsplit : s = s1 ++ b :: s2)
    (hb : getW s bI = some b) (hbrel : b.dependency_relation = "advmod")
    (hbgov : b.governor_word = some gI) (hblem : b.«lemma» ≠ "be")
    (hg : getW s gI = some g) (hglem : g.«lemma» = "be")
    (hgrel : g.dependency_relation ≠ "cop") (hne : bI ≠ gI)
    (hall : (find_governed s gI "expl").all (fun e => !(e.«lemma» == "there")) = true)
    (hadv : ∀ u ∈ s, u.dependency_relation = "advmod" → u.governor_word = some gI)
    (hlast : ∀ u ∈ s2, u.dependency_relation ≠ "advmod") :
    fix_advmod_cop s = .ok (make_copula s bI gI).2
    ∧ getW (make_copula s bI gI).2 gI =
        some ({ g with
          governor := bI, governor_word := some bI,
          dependency_relation := "cop", upos := "AUX" })
    ∧ getW (make_copula s bI gI).2 bI =
        some ({ b with
          governor := g.governor, governor_word := g.governor_word,
          dependency_relation := g.dependency_relation }) := by
  have hbindex : b.index = bI := getW_eq_some_index hb
  have hspec := (make_copula_spec s bI gI g hg hne).2 hall
  have hmap : s.map WordNode.index =
      s1.map WordNode.index ++ bI :: s2.map WordNode.index := by
    rw [hsplit]
    simp [hbindex]
  have hndm : (s1.map WordNode.index ++ bI :: s2.map WordNode.index).Nodup := by
    rw [← hmap]; exact hnd
  have hbnotin1 : bI ∉ s1.map WordNode.index := by
    intro hmem
    have hdisj := (List.nodup_append.mp hndm).2.2
    exact hdisj hmem (List.mem_cons_self bI _)
  have hrev : (s.map WordNode.index).reverse =
      (s2.map WordNode.index).reverse ++ bI :: (s1.map WordNode.index).reverse := by
    rw [hmap]
    simp
  -- phase A: words to the right of b are not advmod, so the pass skips them
  have hA : fix_pass ((s2.map WordNode.index).reverse) s = .ok s := by
    apply fix_pass_id
    intro j hj
    rw [List.mem_reverse] at hj
    obtain ⟨u, hu2, hju⟩ := List.mem_map.mp hj
    have humem : u ∈ s := by
      rw [hsplit]; exact List.mem_append_right _ (List.mem_cons_of_mem _ hu2)
    have hgu : getW s j = some u := by
      rw [← hju]; exact getW_of_mem_nodup hnd humem
    unfold fix_step
    simp only [hgu]
    have : (u.dependency_relation == "advmod") = false :=
      beq_eq_false_iff_ne.mpr (hlast u hu2)
    simp [this]
  -- phase B: b itself fires make_copula
  have hB : fix_step s bI = .ok (make_copula s bI gI).2 := by
    unfold fix_step
    simp only [hb]
    simp only [hbrel, beq_self_eq_true, if_true]
    simp only [hbgov]
    simp only [hg]
    have h1 : (g.«lemma» == "be") = true := by simp [hglem]
    have h2 : (g.dependency_relation != "cop") = true := bne_iff_ne.mpr hgrel
    simp [h1, h2]
  -- phase C: everything to the left of b is skipped in the new state
  have hC : fix_pass ((s1.map WordNode.index).reverse) (make_copula s bI gI).2 =
      .ok (make_copula s bI gI).2 := by
    apply fix_pass_id
    intro j hj
    rw [List.mem_reverse] at hj
    by_cases hjg : j = gI
    · subst hjg
      unfold fix_step
      rw [hspec.2.2.1]
      rfl
    · obtain ⟨u, hu1, hju⟩ := List.mem_map.mp hj
      have hjb : j ≠ bI := by
        intro hc
        exact hbnotin1 (hc ▸ hj)
      have humem : u ∈ s := by
        rw [hsplit]; exact List.mem_append_left _ hu1
      have hgu : getW s j = some u := by
        rw [← hju]; exact getW_of_mem_nodup hnd humem
      have hframe := hspec.2.2.2 j u hjb hjg hgu
      unfold fix_step
      simp only [hframe]
      by_cases hur : u.dependency_relation = "advmod"
      · have hugov : u.governor_word = some gI := hadv u humem hur
        have hc : (u.governor_word == some gI
            && redirect_rels.contains u.dependency_relation) = true := by
          rw [hugov, hur]
          simp [redirect_rels]
        simp only [hc, if_true]
        have hrel2 : ((({ u with governor := bI, governor_word := some bI } : WordNode)).dependency_relation == "advmod") = true := by
          simp [hur]
        simp only [hrel2, if_true]
        simp only [hspec.2.1]
        simp only [hb, Option.map_some']
        have hfalse : ((({ b with governor := g.governor, governor_word := g.governor_word, dependency_relation := g.dependency_relation } : WordNode)).«lemma» == "be") = false :=
          beq_eq_false_iff_ne.mpr hblem
        simp [hfalse]
      · cases hcb : (u.governor_word == some gI
            && redirect_rels.contains u.dependency_relation) with
        | false =>
          simp only [hcb, Bool.false_eq_true, if_false]
          have hbq : (u.dependency_relation == "advmod") = false :=
            beq_eq_false_iff_ne.mpr hur
          simp [hbq]
        | true =>
          simp only [hcb, if_true]
          have hbq : ((({ u with governor := bI, governor_word := some bI } : WordNode)).dependency_relation == "advmod") = false :=
            beq_eq_false_iff_ne.mpr hur
          simp [hbq]
  refine ⟨?_, hspec.2.2.1, ?_⟩
  · unfold fix_advmod_cop
    rw [hrev, fix_pass_append]
    rw [hA]
    simp only [fix_pass]
    rw [hB]
    exact hC
  · rw [hspec.2.1, hb]
    rfl

/-- Witness for C8 at "We are in here": the rightmost adverb "here"
becomes the copula head of "are"; the whole cleanup equals that single
copula restructuring. -/
theorem fix_advmod_cop_rightmost_witness :
    fix_advmod_cop c8_wsent = .ok (make_copula c8_wsent 4 2).2
    ∧ getW (make_copula c8_wsent 4 2).2 2 =
        some ({ mkW 2 "are" "be" "AUX" "root" 0 none [] with
          governor := 4, governor_word := some 4,
          dependency_relation := "cop", upos := "AUX" })
    ∧ getW (make_copula c8_wsent 4 2).2 4 =
        some ({ mkW 4 "here" "here" "ADV" "advmod" 2 (some 2) [] with
          governor := 0, governor_word := none,
          dependency_relation := "root" }) :=
  fix_advmod_cop_rightmost c8_wsent
    [mkW 1 "We" "we" "PRON" "nsubj" 2 (some 2) [],
     mkW 2 "are" "be" "AUX" "root" 0 none [],
     mkW 3 "in" "in" "ADP" "advmod" 2 (some 2) []]
    [] 4 2
    (mkW 4 "here" "here" "ADV" "advmod" 2 (some 2) [])
    (mkW 2 "are" "be" "AUX" "root" 0 none [])
    (by decide) rfl (by decide) rfl rfl (by decide) (by decide) rfl
    (by decide) (by decide) (by decide) (by decide) (by decide)

theorem map_eq_self_of_id {s : Sentence} {f : WordNode → WordNode}
    (h : ∀ w ∈ s, f w = w) : s.map f = s := by
  induction s with
  | nil => rfl
  | cons a t ih =>
    rw [List.map_cons, h a (List.mem_cons_self a t),
        ih (fun w hw => h w (List.mem_cons_of_mem a hw))]

theorem nodup_index_inj {s : Sentence} {u v : WordNode}
    (hnd : (s.map WordNode.index).Nodup) (hu : u ∈ s) (hv : v ∈ s)
    (hi : u.index = v.index) : u = v := by
  have h1 := getW_of_mem_nodup hnd hu
  have h2 := getW_of_mem_nodup hnd hv
  rw [hi] at h1
  rw [h1] at h2
  exact Option.some.inj h2

/-- Claim C9: for a named-entity span, the span words are exactly the
sentence's words whose character span lies inside the entity's span, in
sentence order; the annotation (text, ordered member indices, character
span, type) goes to the first span word whose governor is root or
outside the span-word set; every other span word gets a back-reference
to that head; words outside the span set are untouched; and with no
qualifying head no annotation is attached — the only writes unset the
members' back-references, so a sentence whose members had no
back-reference is returned unchanged. -/
theorem entity_alignment_spec (s : Sentence) (sp : SpacySpan)
    (hnd : (s.map WordNode.index).Nodup) :
    (∀ w, w ∈ find_span_words s sp ↔
        (w ∈ s ∧ sp.start_char ≤ w.span.1 ∧ w.span.2 ≤ sp.end_char))
    ∧ (find_span_words s sp).Sublist s
    ∧ (∀ h, (find_span_words s sp).find? (fun w =>
          match w.governor_word with
          | none => true
          | some g => !(((find_span_words s sp).map WordNode.index).contains g)) = some h →
        getW (add_entity s sp) h.index = some ({ h with
          ner := some ⟨sp.text, (find_span_words s sp).map WordNode.index,
                       (sp.start_char, sp.end_char), sp.label_⟩ })
        ∧ (∀ u ∈ find_span_words s sp, u.index ≠ h.index →
            getW (add_entity s sp) u.index = some ({ u with ner_head_word := some h.index }))
        ∧ (∀ j u, getW s j = some u →
            u.index ∉ (find_span_words s sp).map WordNode.index →
            getW (add_entity s sp) j = some u))
    ∧ ((find_span_words s sp).find? (fun w =>
          match w.governor_word with
          | none => true
          | some g => !(((find_span_words s sp).map WordNode.index).contains g)) = none →
        (∀ j u, getW s j = some u →
            getW (add_entity s sp) j = some
              (if ((find_span_words s sp).map WordNode.index).contains u.index
               then { u with ner_head_word := none } else u))
        ∧ ((∀ u ∈ find_span_words s sp, u.ner_head_word = none) →
            add_entity s sp = s)) := by
  have hsub : (find_span_words s sp).Sublist s := List.filter_sublist s
  have hmemiff : ∀ w, w ∈ find_span_words s sp ↔
      (w ∈ s ∧ sp.start_char ≤ w.span.1 ∧ w.span.2 ≤ sp.end_char) := by
    intro w
    unfold find_span_words
    rw [List.mem_filter]
    simp [and_assoc]
  refine ⟨hmemiff, hsub, ?_, ?_⟩
  · intro h hfind
    have hh : h ∈ find_span_words s sp := List.mem_of_find?_eq_some hfind
    have hhs : h ∈ s := hsub.mem hh
    have hgh : getW s h.index = some h := getW_of_mem_nodup hnd hhs
    have hA : add_entity s sp =
        (setWord s h.index (fun w => { w with
          ner := some ⟨sp.text, (find_span_words s sp).map WordNode.index,
                       (sp.start_char, sp.end_char), sp.label_⟩ })).map
          (fun w => if ((find_span_words s sp).map WordNode.index).contains w.index
              && !(w.index == h.index)
            then { w with ner_head_word := some h.index } else w) := by
      unfold add_entity
      simp only [hfind]
    have hfner : ∀ x : WordNode, (({ x with ner := some ⟨sp.text, (find_span_words s sp).map WordNode.index, (sp.start_char, sp.end_char), sp.label_⟩ } : WordNode)).index = x.index := fun _ => rfl
    have hgmapidx : ∀ x : WordNode, ((if ((find_span_words s sp).map WordNode.index).contains x.index && !(x.index == h.index) then { x with ner_head_word := some h.index } else x)).index = x.index := by
      intro x
      split
      · rfl
      · rfl
    refine ⟨?_, ?_, ?_⟩
    · rw [hA, getW_map hgmapidx, getW_setWord hfner, if_pos rfl, hgh]
      simp only [Option.map_some']
      have hskip : ((((find_span_words s sp).map WordNode.index).contains
          (({ h with ner := some ⟨sp.text, (find_span_words s sp).map WordNode.index, (sp.start_char, sp.end_char), sp.label_⟩ } : WordNode)).index
          && !((({ h with ner := some ⟨sp.text, (find_span_words s sp).map WordNode.index, (sp.start_char, sp.end_char), sp.label_⟩ } : WordNode)).index == h.index))) = false := by
        simp
      rw [hskip]
      simp
    · intro u hu hune
      have hus : u ∈ s := hsub.mem hu
      have hgu : getW s u.index = some u := getW_of_mem_nodup hnd hus
      rw [hA, getW_map hgmapidx, getW_setWord hfner,
          if_neg hune, hgu]
      simp only [Option.map_some']
      have hcontains : (((find_span_words s sp).map WordNode.index).contains u.index) = true := by
        have : u.index ∈ (find_span_words s sp).map WordNode.index :=
          List.mem_map_of_mem WordNode.index hu
        simpa using this
      have hneq : (u.index == h.index) = false := beq_eq_false_iff_ne.mpr hune
      rw [hcontains, hneq]
      simp
    · intro j u hju hnotin
      have hji : u.index = j := getW_eq_some_index hju
      have hjh : j ≠ h.index := by
        intro hc
        apply hnotin
        rw [hji, hc]
        exact List.mem_map_of_mem WordNode.index hh
      rw [hA, getW_map hgmapidx, getW_setWord hfner, if_neg hjh, hju]
      simp only [Option.map_some']
      have hcontains : (((find_span_words s sp).map WordNode.index).contains u.index) = false := by
        simpa using hnotin
      rw [hcontains]
      simp
  · intro hfind
    have hA : add_entity s sp =
        s.map (fun w => if ((find_span_words s sp).map WordNode.index).contains w.index
          then { w with ner_head_word := none } else w) := by
      unfold add_entity
      simp only [hfind]
    have hgmapidx : ∀ x : WordNode, ((if ((find_span_words s sp).map WordNode.index).contains x.index then { x with ner_head_word := none } else x)).index = x.index := by
      intro x
      split
      · rfl
      · rfl
    refine ⟨?_, ?_⟩
    · intro j u hju
      rw [hA, getW_map hgmapidx, hju]
      simp only [Option.map_some']
    · intro hnone
      rw [hA]
      apply map_eq_self_of_id
      intro w hw
      cases hc : ((find_span_words s sp).map WordNode.index).contains w.index
      · rw [if_neg Bool.false_ne_true]
      · rw [if_pos rfl]
        have hmemw : w.index ∈ (find_span_words s sp).map WordNode.index := by
          simpa using hc
        obtain ⟨v, hv, hvw⟩ := List.mem_map.mp hmemw
        have hveq : v = w := nodup_index_inj hnd (hsub.mem hv) hw hvw
        have hwnone : w.ner_head_word = none := hveq ▸ hnone v hv
        rw [← hwnone]

/-- Witness for C9 at "Steve Jones works": "Jones" (the only span word
whose governor lies outside the span) receives the annotation with
member list [1, 2]; "Steve" gets the back-reference to it. -/
theorem entity_alignment_spec_witness :
    getW (add_entity c9_wsent c9_span) 2 =
      some ({ mkW 2 "Jones" "Jones" "PROPN" "nsubj" 3 (some 3) [] with
        ner := some ⟨"Steve Jones", [1, 2], (10, 23), "PERSON"⟩ })
    ∧ getW (add_entity c9_wsent c9_span) 1 =
      some ({ mkW 1 "Steve" "Steve" "PROPN" "compound" 2 (some 2) [] with
        ner_head_word := some 2 }) := by
  have h := (entity_alignment_spec c9_wsent c9_span (by decide)).2.2.1
    (mkW 2 "Jones" "Jones" "PROPN" "nsubj" 3 (some 3) []) (by decide)
  have hone : (mkW 2 "Jones" "Jones" "PROPN" "nsubj" 3 (some 3) []).index = 2 := rfl
  constructor
  · have hx := h.1
    rw [hone] at hx
    rw [hx]
    rfl
  · have hx := h.2.1 (mkW 1 "Steve" "Steve" "PROPN" "compound" 2 (some 2) [])
      (by decide) (by decide)
    have hone1 : (mkW 1 "Steve" "Steve" "PROPN" "compound" 2 (some 2) []).index = 1 := rfl
    rw [hone1, hone] at hx
    rw [hx]
    rfl

/-! ## Reachability infrastructure for the governor-tree invariant -/

theorem map_index_of_map {F : WordNode → WordNode}
    (hF : ∀ w, (F w).index = w.index) (s : Sentence) :
    (s.map F).map WordNode.index = s.map WordNode.index := by
  induction s with
  | nil => rfl
  | cons a t ih => simp only [List.map_cons, hF, ih]

theorem map_index_setWord {f : WordNode → WordNode}
    (hf : ∀ w, (f w).index = w.index) (s : Sentence) (i : Nat) :
    (setWord s i f).map WordNode.index = s.map WordNode.index :=
  map_index_of_map (setWord_index_eq hf) s

theorem map_index_redirect (s : Sentence) (a b : Nat) :
    (redirect_dependants s a b).map WordNode.index = s.map WordNode.index :=
  map_index_of_map (redirectF_index a b) s

theorem getW_isSome_iff_mem {s : Sentence} {j : Nat} :
    (getW s j).isSome = true ↔ j ∈ s.map WordNode.index := by
  unfold getW
  rw [List.find?_isSome]
  constructor
  · rintro ⟨x, hx, hp⟩
    exact (beq_iff_eq.mp hp) ▸ List.mem_map_of_mem WordNode.index hx
  · rintro hj
    rcases List.mem_map.mp hj with ⟨x, hx, hxi⟩
    exact ⟨x, hx, beq_iff_eq.mpr hxi⟩

theorem getW_isSome_of_map_index {s s' : Sentence}
    (h : s'.map WordNode.index = s.map WordNode.index) (j : Nat) :
    (getW s' j).isSome = (getW s j).isSome := by
  by_cases hm : j ∈ s.map WordNode.index
  · have ha : (getW s' j).isSome = true := getW_isSome_iff_mem.mpr (h.symm ▸ hm)
    have hb : (getW s j).isSome = true := getW_isSome_iff_mem.mpr hm
    rw [ha, hb]
  · have ha : ¬ (getW s' j).isSome = true := fun hc => hm (h ▸ getW_isSome_iff_mem.mp hc)
    have hb : ¬ (getW s j).isSome = true := fun hc => hm (getW_isSome_iff_mem.mp hc)
    rw [Bool.not_eq_true] at ha hb
    rw [ha, hb]

theorem getW_exists_of_map_index {s s' : Sentence}
    (h : s'.map WordNode.index = s.map WordNode.index) {j : Nat} {w : WordNode}
    (hw : getW s j = some w) : ∃ w', getW s' j = some w' := by
  have hs := getW_isSome_of_map_index h j
  rw [hw] at hs
  cases hg : getW s' j with
  | none => rw [hg] at hs; exact absurd hs.symm (by simp)
  | some w' => exact ⟨w', rfl⟩

theorem getW_zero_none {s : Sentence} (hc : Consistent s) : getW s 0 = none := by
  cases hg : getW s 0 with
  | none => rfl
  | some w => exact absurd (getW_eq_some_index hg) ((hc w (getW_eq_some_mem hg)).1)

theorem chain_trans {s : Sentence} {i j k : Nat}
    (h1 : Chain s i j) (h2 : Chain s j k) : Chain s i k := by
  induction h1 with
  | refl => exact h2
  | step hg _ ih => exact Chain.step hg (ih h2)

theorem chain_snoc {s : Sentence} {i j : Nat} {w : WordNode}
    (h : Chain s i j) (hg : getW s j = some w) : Chain s i w.governor :=
  chain_trans h (Chain.step hg (Chain.refl _))

theorem reaches_parent {s : Sentence} {i : Nat} {w : WordNode}
    (hz : getW s 0 = none) (hr : Reaches s i) (hg : getW s i = some w) :
    Reaches s w.governor := by
  cases hr with
  | zero => rw [hz] at hg; exact Option.noConfusion hg
  | step hg2 hr2 =>
    rw [hg2] at hg
    injection hg with he
    subst he
    exact hr2

theorem no_loop_strict {s : Sentence} (hz : getW s 0 = none) :
    ∀ {i : Nat}, Reaches s i →
      ∀ w : WordNode, getW s i = some w → Chain s w.governor i → False := by
  intro i hr
  induction hr with
  | zero =>
    intro w hg _
    rw [hz] at hg
    exact Option.noConfusion hg
  | @step i w1 hg1 hr1 ih =>
    intro w hg hc
    rw [hg1] at hg
    injection hg with he
    subst he
    cases hc with
    | refl => exact ih w1 hg1 (Chain.refl _)
    | @step _ _ w2 hg2 hc2 =>
      exact ih w2 hg2 (chain_trans hc2 (Chain.step hg1 (Chain.refl _)))

theorem chain_mutual_false {s : Sentence} (hz : getW s 0 = none) {i j : Nat} {w : WordNode}
    (hr : Reaches s i) (hg : getW s i = some w)
    (h1 : Chain s w.governor j) (h2 : Chain s j i) : False :=
  no_loop_strict hz hr w hg (chain_trans h1 h2)

theorem ne_of_gov_chain {s : Sentence} (hz : getW s 0 = none) {i j : Nat} {w : WordNode}
    (hr : Reaches s i) (hg : getW s i = some w) (h1 : Chain s w.governor j) : i ≠ j := by
  intro he
  apply no_loop_strict hz hr w hg
  rw [he]
  exact h1

theorem self_gov_ne {s : Sentence} (hz : getW s 0 = none) {i : Nat} {w : WordNode}
    (hr : Reaches s i) (hg : getW s i = some w) : w.governor ≠ i := by
  intro he
  apply no_loop_strict hz hr w hg
  rw [he]
  exact Chain.refl i

theorem reaches_splice {s s' : Sentence} (A : Nat → Prop)
    (H2 : ∀ i, ¬ A i →
      (getW s' i).map WordNode.governor = (getW s i).map WordNode.governor)
    (H3 : ∀ a, A a → Reaches s' a) :
    ∀ i, Reaches s i → Reaches s' i := by
  intro i h
  induction h with
  | zero => exact Reaches.zero
  | @step i w hg _ ih =>
    by_cases hA : A i
    · exact H3 _ hA
    · have h2 := H2 _ hA
      rw [hg] at h2
      cases hg' : getW s' i with
      | none => rw [hg'] at h2; exact Option.noConfusion h2
      | some w' =>
        rw [hg'] at h2
        simp only [Option.map_some'] at h2
        have he := Option.some.inj h2
        exact Reaches.step hg' (he.symm ▸ ih)

theorem reaches_of_avoid {s s' : Sentence} (A : Nat → Prop)
    (H2 : ∀ i, ¬ A i →
      (getW s' i).map WordNode.governor = (getW s i).map WordNode.governor) :
    ∀ x, Reaches s x → (∀ z, Chain s x z → ¬ A z) → Reaches s' x := by
  intro x hr
  induction hr with
  | zero => exact fun _ => Reaches.zero
  | @step i w hg _ ih =>
    intro havoid
    have hAi : ¬ A i := havoid i (Chain.refl i)
    have h2 := H2 i hAi
    rw [hg] at h2
    cases hg' : getW s' i with
    | none => rw [hg'] at h2; exact Option.noConfusion h2
    | some w' =>
      rw [hg'] at h2
      simp only [Option.map_some'] at h2
      have he := Option.some.inj h2
      have ih2 := ih (fun z hcz => havoid z (Chain.step hg hcz))
      exact Reaches.step hg' (he.symm ▸ ih2)

theorem chain_transfer_back {s s' : Sentence} :
    ∀ {x z : Nat}, Chain s' x z →
      (∀ y, Chain s x y →
        (getW s' y).map WordNode.governor = (getW s y).map WordNode.governor) →
      Chain s x z := by
  intro x z hc
  induction hc with
  | refl => exact fun _ => Chain.refl _
  | @step i j w' hg' hc2 ih =>
    intro H
    have h2 := H i (Chain.refl i)
    rw [hg'] at h2
    cases hg : getW s i with
    | none => rw [hg] at h2; exact Option.noConfusion h2
    | some w =>
      rw [hg] at h2
      simp only [Option.map_some'] at h2
      have he := Option.some.inj h2
      have H2 : ∀ y, Chain s w.governor y →
          (getW s' y).map WordNode.governor = (getW s y).map WordNode.governor :=
        fun y hcy => H y (Chain.step hg hcy)
      exact Chain.step hg (he ▸ ih (he.symm ▸ H2))

theorem reaches_of_fuel {s : Sentence} :
    ∀ {f i : Nat}, reaches_root_b s f i = true → Reaches s i := by
  intro f
  induction f with
  | zero =>
    intro i h
    exact absurd h (by simp [reaches_root_b])
  | succ f ih =>
    intro i h
    unfold reaches_root_b at h
    cases hb : (i == 0) with
    | true => exact (beq_iff_eq.mp hb) ▸ Reaches.zero
    | false =>
      simp only [hb] at h
      cases hg : getW s i with
      | none =>
        rw [hg] at h
        exact absurd h (by simp)
      | some w =>
        rw [hg] at h
        exact Reaches.step hg (ih h)

theorem countP_one_unique {p : WordNode → Bool} :
    ∀ {s : List WordNode}, s.countP p = 1 →
      ∃ r ∈ s, p r = true ∧ ∀ w ∈ s, p w = true → w = r := by
  intro s
  induction s with
  | nil => intro h; exact absurd h (by simp)
  | cons a t ih =>
    intro h
    cases hpa : p a with
    | true =>
      have h' : t.countP p + 1 = 1 := by simpa [List.countP_cons, hpa] using h
      have ht : t.countP p = 0 := by omega
      refine ⟨a, List.mem_cons_self a t, hpa, ?_⟩
      intro w hw hpw
      rcases List.mem_cons.mp hw with h1 | h1
      · exact h1
      · exact absurd hpw (by simpa using List.countP_eq_zero.mp ht w h1)
    | false =>
      have h' : t.countP p = 1 := by simpa [List.countP_cons, hpa] using h
      rcases ih h' with ⟨r, hr, hpr, hu⟩
      refine ⟨r, List.mem_cons_of_mem a hr, hpr, ?_⟩
      intro w hw hpw
      rcases List.mem_cons.mp hw with h1 | h1
      · subst h1; exact absurd hpw (by simp [hpa])
      · exact hu w h1 hpw

theorem sentence_ok_TreeInv {s : Sentence} (h : sentence_ok s = true) : TreeInv s := by
  unfold sentence_ok at h
  simp only [Bool.and_eq_true] at h
  obtain ⟨⟨hnd, hall⟩, hcount⟩ := h
  refine ⟨of_decide_eq_true hnd, ?_, ?_, ?_⟩
  · intro w hw
    have hx := List.all_eq_true.mp hall w hw
    simp only [Bool.and_eq_true] at hx
    obtain ⟨⟨hidx, hgw⟩, _⟩ := hx
    refine ⟨by simpa using hidx, ?_, ?_⟩
    · intro h0
      have hb : (w.governor == 0) = true := beq_iff_eq.mpr h0
      rw [hb] at hgw
      simpa using hgw
    · intro h0
      have hb : (w.governor == 0) = false := beq_eq_false_iff_ne.mpr h0
      rw [hb] at hgw
      simp only [cond_false, Bool.and_eq_true, beq_iff_eq] at hgw
      exact ⟨hgw.1, hgw.2⟩
  · have hc : s.countP (fun w => w.governor == 0) = 1 := by simpa using hcount
    rcases countP_one_unique hc with ⟨r, hr, hpr, hu⟩
    exact ⟨r, hr, beq_iff_eq.mp hpr, fun w hw h0 => hu w hw (beq_iff_eq.mpr h0)⟩
  · intro w hw
    have hx := List.all_eq_true.mp hall w hw
    simp only [Bool.and_eq_true] at hx
    exact reaches_of_fuel hx.2

/-! ## Preservation of the tree invariant by the state surgeries -/

theorem TreeInv_map {s : Sentence} {F : WordNode → WordNode}
    (hFi : ∀ w, (F w).index = w.index)
    (hFg : ∀ w, (F w).governor = w.governor)
    (hFw : ∀ w, (F w).governor_word = w.governor_word)
    (hinv : TreeInv s) : TreeInv (s.map F) := by
  obtain ⟨hnd, hcons, hroot, hacyc⟩ := hinv
  have hmapidx : (s.map F).map WordNode.index = s.map WordNode.index :=
    map_index_of_map hFi s
  have hgW : ∀ j, getW (s.map F) j = (getW s j).map F := getW_map hFi s
  refine ⟨by rw [hmapidx]; exact hnd, ?_, ?_, ?_⟩
  · intro w' hw'
    rcases List.mem_map.mp hw' with ⟨w, hw, hF⟩
    subst hF
    obtain ⟨h1, h2, h3⟩ := hcons w hw
    refine ⟨by rw [hFi]; exact h1, ?_, ?_⟩
    · intro h0
      rw [hFw]
      exact h2 (by rw [hFg] at h0; exact h0)
    · intro h0
      have h0' : w.governor ≠ 0 := by rw [hFg] at h0; exact h0
      obtain ⟨ha, hb⟩ := h3 h0'
      refine ⟨by rw [hFw, hFg]; exact ha, ?_⟩
      rw [hFg, hgW]
      simpa using hb
  · obtain ⟨r, hr, hr0, hru⟩ := hroot
    refine ⟨F r, List.mem_map_of_mem F hr, by rw [hFg]; exact hr0, ?_⟩
    intro w' hw' h0
    rcases List.mem_map.mp hw' with ⟨w, hw, hF⟩
    subst hF
    rw [hFg] at h0
    rw [hru w hw h0]
  · intro w' hw'
    rcases List.mem_map.mp hw' with ⟨w, hw, hF⟩
    subst hF
    rw [hFi]
    have H2 : ∀ i, ¬ (False : Prop) →
        (getW (s.map F) i).map WordNode.governor = (getW s i).map WordNode.governor := by
      intro i _
      rw [hgW]
      cases getW s i <;> simp [hFg]
    exact reaches_splice (fun _ => False) H2 (fun a ha => absurd ha (by simp))
      w.index (hacyc w hw)

theorem TreeInv_setWord_rel {s : Sentence} {i : Nat} {f : WordNode → WordNode}
    (hfi : ∀ w, (f w).index = w.index)
    (hfg : ∀ w, (f w).governor = w.governor)
    (hfw : ∀ w, (f w).governor_word = w.governor_word)
    (hinv : TreeInv s) : TreeInv (setWord s i f) := by
  unfold setWord
  apply TreeInv_map ?_ ?_ ?_ hinv
  · intro w
    by_cases h : (w.index == i) = true <;> simp [h, hfi]
  · intro w
    by_cases h : (w.index == i) = true <;> simp [h, hfg]
  · intro w
    by_cases h : (w.index == i) = true <;> simp [h, hfw]

theorem TreeInv_repoint {s s' : Sentence} (A : Nat → Prop) {t : Nat} {wt : WordNode}
    (hinv : TreeInv s)
    (ht : getW s t = some wt)
    (hmapidx : s'.map WordNode.index = s.map WordNode.index)
    (hmoved : ∀ a, A a → ∃ wa wa', getW s a = some wa ∧ wa.governor ≠ 0 ∧
        getW s' a = some wa' ∧ wa'.governor = t ∧ wa'.governor_word = some t)
    (hkeep : ∀ j, ¬ A j → ∀ w', getW s' j = some w' →
        ∃ w, getW s j = some w ∧ w'.governor = w.governor ∧
          w'.governor_word = w.governor_word)
    (havoid : ∀ a, A a → ¬ Chain s t a) :
    TreeInv s' := by
  obtain ⟨hnd, hcons, hroot, hacyc⟩ := hinv
  have hz : getW s 0 = none := getW_zero_none hcons
  have hnd' : (s'.map WordNode.index).Nodup := by rw [hmapidx]; exact hnd
  have H2 : ∀ i, ¬ A i →
      (getW s' i).map WordNode.governor = (getW s i).map WordNode.governor := by
    intro i hAi
    cases hg' : getW s' i with
    | none =>
      have hs := getW_isSome_of_map_index hmapidx i
      rw [hg'] at hs
      cases hg : getW s i with
      | none => rfl
      | some w => rw [hg] at hs; exact absurd hs (by simp)
    | some w' =>
      rcases hkeep i hAi w' hg' with ⟨w, hw, hgov, _⟩
      rw [hw]
      simp [hgov]
  have hrst : Reaches s t := by
    have := hacyc wt (getW_eq_some_mem ht)
    rwa [getW_eq_some_index ht] at this
  have hrt : Reaches s' t :=
    reaches_of_avoid A H2 t hrst (fun z hcz hAz => havoid z hAz hcz)
  have H3 : ∀ a, A a → Reaches s' a := by
    intro a hA
    rcases hmoved a hA with ⟨wa, wa', _, _, hga', hgov', _⟩
    exact Reaches.step hga' (by rw [hgov']; exact hrt)
  have hsplice := reaches_splice A H2 H3
  have htne : t ≠ 0 := by
    have := (hcons wt (getW_eq_some_mem ht)).1
    rwa [getW_eq_some_index ht] at this
  have ht'some : (getW s' t).isSome = true := by
    rw [getW_isSome_of_map_index hmapidx t, ht]
    rfl
  refine ⟨hnd', ?_, ?_, ?_⟩
  · intro w' hw'
    have hj' : getW s' w'.index = some w' := getW_of_mem_nodup hnd' hw'
    have hjne : w'.index ≠ 0 := by
      have hmem : w'.index ∈ s.map WordNode.index := by
        rw [← hmapidx]; exact List.mem_map_of_mem WordNode.index hw'
      rcases List.mem_map.mp hmem with ⟨w, hw, hwi⟩
      rw [← hwi]; exact (hcons w hw).1
    by_cases hA : A w'.index
    · rcases hmoved _ hA with ⟨wa, wa', hga, hgne, hga', hgov', hgw'⟩
      rw [hj'] at hga'
      injection hga' with he
      subst he
      refine ⟨hjne, ?_, ?_⟩
      · intro h0
        rw [hgov'] at h0
        exact absurd h0 htne
      · intro _
        refine ⟨by rw [hgw', hgov'], ?_⟩
        rw [hgov']
        exact ht'some
    · rcases hkeep _ hA w' hj' with ⟨w, hw, hgov, hgw⟩
      obtain ⟨h1, h2, h3⟩ := hcons w (getW_eq_some_mem hw)
      refine ⟨hjne, ?_, ?_⟩
      · intro h0
        rw [hgw]
        exact h2 (by rw [← hgov]; exact h0)
      · intro h0
        have h0' : w.governor ≠ 0 := by rw [← hgov]; exact h0
        obtain ⟨ha, hb⟩ := h3 h0'
        refine ⟨by rw [hgw, hgov]; exact ha, ?_⟩
        rw [hgov, getW_isSome_of_map_index hmapidx]
        exact hb
  · obtain ⟨r, hr, hr0, hru⟩ := hroot
    have hgr : getW s r.index = some r := getW_of_mem_nodup hnd hr
    have hrA : ¬ A r.index := by
      intro hA
      rcases hmoved _ hA with ⟨wa, wa', hga, hgne, _⟩
      rw [hgr] at hga
      injection hga with he
      exact hgne (by rw [← he]; exact hr0)
    rcases getW_exists_of_map_index hmapidx hgr with ⟨r', hgr'⟩
    rcases hkeep _ hrA r' hgr' with ⟨w, hw, hgov, _⟩
    rw [hgr] at hw
    injection hw with he
    refine ⟨r', getW_eq_some_mem hgr', by rw [hgov, ← he]; exact hr0, ?_⟩
    intro w' hw' h0
    have hj' : getW s' w'.index = some w' := getW_of_mem_nodup hnd' hw'
    by_cases hA : A w'.index
    · rcases hmoved _ hA with ⟨wa, wa', _, _, hga', hgov', _⟩
      rw [hj'] at hga'
      injection hga' with he2
      rw [he2, hgov'] at h0
      exact absurd h0 htne
    · rcases hkeep _ hA w' hj' with ⟨w2, hw2, hgov2, _⟩
      have hwr : w2 = r := hru w2 (getW_eq_some_mem hw2) (by rw [← hgov2]; exact h0)
      have hidx : w'.index = r.index := by
        have h4 := getW_eq_some_index hw2
        rw [hwr] at h4
        exact h4.symm
      rw [hidx, hgr'] at hj'
      exact (Option.some.inj hj').symm
  · intro w' hw'
    have hmem : w'.index ∈ s.map WordNode.index := by
      rw [← hmapidx]; exact List.mem_map_of_mem WordNode.index hw'
    rcases List.mem_map.mp hmem with ⟨w, hw, hwi⟩
    rw [← hwi]
    exact hsplice w.index (hacyc w hw)

theorem TreeInv_restructure {s s' : Sentence} (A : Nat → Prop) {headI beI : Nat}
    {head be : WordNode}
    (hinv : TreeInv s)
    (hhead : getW s headI = some head) (hbe : getW s beI = some be)
    (hchain : Chain s headI beI) (hne : headI ≠ beI)
    (hmapidx : s'.map WordNode.index = s.map WordNode.index)
    (hH : ∀ w', getW s' headI = some w' →
        w'.governor = be.governor ∧ w'.governor_word = be.governor_word)
    (hB : ∀ w', getW s' beI = some w' →
        w'.governor = headI ∧ w'.governor_word = some headI)
    (hmoved : ∀ a, A a → ∃ wa wa', getW s a = some wa ∧ wa.governor = beI ∧
        getW s' a = some wa' ∧ wa'.governor = headI ∧ wa'.governor_word = some headI)
    (hkeep : ∀ j, j ≠ headI → j ≠ beI → ¬ A j → ∀ w', getW s' j = some w' →
        ∃ w, getW s j = some w ∧ w'.governor = w.governor ∧
          w'.governor_word = w.governor_word) :
    TreeInv s' := by
  obtain ⟨hnd, hcons, hroot, hacyc⟩ := hinv
  have hz : getW s 0 = none := getW_zero_none hcons
  have hnd' : (s'.map WordNode.index).Nodup := by rw [hmapidx]; exact hnd
  have hbene : beI ≠ 0 := by
    have := (hcons be (getW_eq_some_mem hbe)).1
    rwa [getW_eq_some_index hbe] at this
  have hheadne : headI ≠ 0 := by
    have := (hcons head (getW_eq_some_mem hhead)).1
    rwa [getW_eq_some_index hhead] at this
  have hReachesBe : Reaches s beI := by
    have := hacyc be (getW_eq_some_mem hbe)
    rwa [getW_eq_some_index hbe] at this
  have havoidPa : ∀ z, Chain s be.governor z → ¬ (z = headI ∨ z = beI ∨ A z) := by
    intro z hcz hz'
    rcases hz' with h | h | h
    · subst h
      exact no_loop_strict hz hReachesBe be hbe (chain_trans hcz hchain)
    · subst h
      exact no_loop_strict hz hReachesBe be hbe hcz
    · rcases hmoved z h with ⟨wa, _, hga, hgb, _⟩
      refine no_loop_strict hz hReachesBe be hbe ?_
      have h5 := chain_snoc hcz hga
      rw [hgb] at h5
      exact h5
  have H2 : ∀ i, ¬ (i = headI ∨ i = beI ∨ A i) →
      (getW s' i).map WordNode.governor = (getW s i).map WordNode.governor := by
    intro i hni
    push_neg at hni
    cases hg' : getW s' i with
    | none =>
      have hs := getW_isSome_of_map_index hmapidx i
      rw [hg'] at hs
      cases hg : getW s i with
      | none => rfl
      | some w => rw [hg] at hs; exact absurd hs (by simp)
    | some w' =>
      rcases hkeep i hni.1 hni.2.1 hni.2.2 w' hg' with ⟨w, hw, hgov, _⟩
      rw [hw]
      simp [hgov]
  rcases getW_exists_of_map_index hmapidx hhead with ⟨head', hhead'⟩
  rcases getW_exists_of_map_index hmapidx hbe with ⟨be', hbe'⟩
  obtain ⟨hHg, hHw⟩ := hH head' hhead'
  obtain ⟨hBg, hBw⟩ := hB be' hbe'
  have hrhead' : Reaches s' headI := by
    by_cases hpa : be.governor = 0
    · exact Reaches.step hhead' (by rw [hHg, hpa]; exact Reaches.zero)
    · have hrpa : Reaches s be.governor := reaches_parent hz hReachesBe hbe
      have h6 : Reaches s' be.governor :=
        reaches_of_avoid (fun z => z = headI ∨ z = beI ∨ A z) H2 _ hrpa havoidPa
      exact Reaches.step hhead' (by rw [hHg]; exact h6)
  have hrbe' : Reaches s' beI := Reaches.step hbe' (by rw [hBg]; exact hrhead')
  have H3 : ∀ a, (a = headI ∨ a = beI ∨ A a) → Reaches s' a := by
    rintro a (h | h | h)
    · subst h; exact hrhead'
    · subst h; exact hrbe'
    · rcases hmoved a h with ⟨_, wa', _, _, hga', hgov', _⟩
      exact Reaches.step hga' (by rw [hgov']; exact hrhead')
  have hsplice := reaches_splice (fun z => z = headI ∨ z = beI ∨ A z) H2 H3
  have hhead'some : (getW s' headI).isSome = true := by rw [hhead']; rfl
  have hheadgovne : head.governor ≠ 0 := by
    intro h0
    cases hchain with
    | refl => exact hne rfl
    | step hg hc =>
      rw [hhead] at hg
      injection hg with he
      rw [← he, h0] at hc
      cases hc with
      | refl => exact hbene rfl
      | step hg2 _ => rw [hz] at hg2; exact Option.noConfusion hg2
  refine ⟨hnd', ?_, ?_, ?_⟩
  · -- Consistent
    intro w' hw'
    have hj' : getW s' w'.index = some w' := getW_of_mem_nodup hnd' hw'
    have hjne : w'.index ≠ 0 := by
      have hmem : w'.index ∈ s.map WordNode.index := by
        rw [← hmapidx]; exact List.mem_map_of_mem WordNode.index hw'
      rcases List.mem_map.mp hmem with ⟨w, hw, hwi⟩
      rw [← hwi]; exact (hcons w hw).1
    by_cases hjh : w'.index = headI
    · rw [hjh, hhead'] at hj'
      injection hj' with he
      subst he
      obtain ⟨_, h2, h3⟩ := hcons be (getW_eq_some_mem hbe)
      refine ⟨hjne, ?_, ?_⟩
      · intro h0
        rw [hHw]
        exact h2 (by rw [← hHg]; exact h0)
      · intro h0
        have h0' : be.governor ≠ 0 := by rw [← hHg]; exact h0
        obtain ⟨ha, hb⟩ := h3 h0'
        refine ⟨by rw [hHw, hHg]; exact ha, ?_⟩
        rw [hHg, getW_isSome_of_map_index hmapidx]
        exact hb
    · by_cases hjb : w'.index = beI
      · rw [hjb, hbe'] at hj'
        injection hj' with he
        subst he
        refine ⟨hjne, ?_, ?_⟩
        · intro h0
          rw [hBg] at h0
          exact absurd h0 hheadne
        · intro _
          refine ⟨by rw [hBw, hBg], ?_⟩
          rw [hBg]
          exact hhead'some
      · by_cases hA : A w'.index
        · rcases hmoved _ hA with ⟨wa, wa', hga, hgne, hga', hgov', hgw'⟩
          rw [hj'] at hga'
          injection hga' with he
          subst he
          refine ⟨hjne, ?_, ?_⟩
          · intro h0
            rw [hgov'] at h0
            exact absurd h0 hheadne
          · intro _
            refine ⟨by rw [hgw', hgov'], ?_⟩
            rw [hgov']
            exact hhead'some
        · rcases hkeep _ hjh hjb hA w' hj' with ⟨w, hw, hgov, hgw⟩
          obtain ⟨_, h2, h3⟩ := hcons w (getW_eq_some_mem hw)
          refine ⟨hjne, ?_, ?_⟩
          · intro h0
            rw [hgw]
            exact h2 (by rw [← hgov]; exact h0)
          · intro h0
            have h0' : w.governor ≠ 0 := by rw [← hgov]; exact h0
            obtain ⟨ha, hb⟩ := h3 h0'
            refine ⟨by rw [hgw, hgov]; exact ha, ?_⟩
            rw [hgov, getW_isSome_of_map_index hmapidx]
            exact hb
  · -- UniqueRoot
    obtain ⟨r, hr, hr0, hru⟩ := hroot
    have hgr : getW s r.index = some r := getW_of_mem_nodup hnd hr
    by_cases hpa : be.governor = 0
    · -- "be" was the root; the head takes over
      have hber : be = r := hru be (getW_eq_some_mem hbe) hpa
      refine ⟨head', getW_eq_some_mem hhead', by rw [hHg]; exact hpa, ?_⟩
      intro w' hw' h0
      have hj' : getW s' w'.index = some w' := getW_of_mem_nodup hnd' hw'
      by_cases hjh : w'.index = headI
      · rw [hjh, hhead'] at hj'
        exact (Option.some.inj hj').symm
      · by_cases hjb : w'.index = beI
        · rw [hjb, hbe'] at hj'
          injection hj' with he
          subst he
          rw [hBg] at h0
          exact absurd h0 hheadne
        · by_cases hA : A w'.index
          · rcases hmoved _ hA with ⟨wa, wa', _, _, hga', hgov', _⟩
            rw [hj'] at hga'
            injection hga' with he
            subst he
            rw [hgov'] at h0
            exact absurd h0 hheadne
          · rcases hkeep _ hjh hjb hA w' hj' with ⟨w, hw, hgov, _⟩
            have hwr : w = r := hru w (getW_eq_some_mem hw) (by rw [← hgov]; exact h0)
            have hidx := getW_eq_some_index hw
            rw [hwr, ← hber] at hidx
            rw [getW_eq_some_index hbe] at hidx
            exact absurd hidx.symm hjb
    · -- the old root keeps its position
      have hrh : r.index ≠ headI := by
        intro he
        rw [he, hhead] at hgr
        injection hgr with he2
        exact hheadgovne (by rw [he2]; exact hr0)
      have hrb : r.index ≠ beI := by
        intro he
        rw [he, hbe] at hgr
        injection hgr with he2
        exact hpa (by rw [he2]; exact hr0)
      have hrA : ¬ A r.index := by
        intro hA
        rcases hmoved _ hA with ⟨wa, _, hga, hgb, _⟩
        rw [hgr] at hga
        injection hga with he
        rw [← he] at hgb
        rw [hr0] at hgb
        exact hbene hgb.symm
      rcases getW_exists_of_map_index hmapidx hgr with ⟨r', hgr'⟩
      rcases hkeep _ hrh hrb hrA r' hgr' with ⟨w, hw, hgov, _⟩
      rw [hgr] at hw
      injection hw with he
      refine ⟨r', getW_eq_some_mem hgr', by rw [hgov, ← he]; exact hr0, ?_⟩
      intro w' hw' h0
      have hj' : getW s' w'.index = some w' := getW_of_mem_nodup hnd' hw'
      by_cases hjh : w'.index = headI
      · rw [hjh, hhead'] at hj'
        injection hj' with he2
        subst he2
        rw [hHg] at h0
        exact absurd h0 hpa
      · by_cases hjb : w'.index = beI
        · rw [hjb, hbe'] at hj'
          injection hj' with he2
          subst he2
          rw [hBg] at h0
          exact absurd h0 hheadne
        · by_cases hA : A w'.index
          · rcases hmoved _ hA with ⟨wa, wa', _, _, hga', hgov', _⟩
            rw [hj'] at hga'
            injection hga' with he2
            subst he2
            rw [hgov'] at h0
            exact absurd h0 hheadne
          · rcases hkeep _ hjh hjb hA w' hj' with ⟨w2, hw2, hgov2, _⟩
            have hwr : w2 = r := hru w2 (getW_eq_some_mem hw2) (by rw [← hgov2]; exact h0)
            have hidx : w'.index = r.index := by
              have h4 := getW_eq_some_index hw2
              rw [hwr] at h4
              exact h4.symm
            rw [hidx, hgr'] at hj'
            exact (Option.some.inj hj').symm
  · -- Acyc
    intro w' hw'
    have hmem : w'.index ∈ s.map WordNode.index := by
      rw [← hmapidx]; exact List.mem_map_of_mem WordNode.index hw'
    rcases List.mem_map.mp hmem with ⟨w, hw, hwi⟩
    rw [← hwi]
    exact hsplice w.index (hacyc w hw)

theorem gov_eq_of_govword {s : Sentence} (hcons : Consistent s) {w : WordNode} {gi : Nat}
    (hw : w ∈ s) (h : w.governor_word = some gi) : w.governor = gi := by
  obtain ⟨_, h2, h3⟩ := hcons w hw
  by_cases h0 : w.governor = 0
  · rw [h2 h0] at h
    exact Option.noConfusion h
  · have h4 := (h3 h0).1
    rw [h4] at h
    exact Option.some.inj h

theorem reaches_of_getW {s : Sentence} (hacyc : Acyc s) {i : Nat} {w : WordNode}
    (h : getW s i = some w) : Reaches s i := by
  have h2 := hacyc w (getW_eq_some_mem h)
  rwa [getW_eq_some_index h] at h2

theorem map_index_make_copula_apply (s : Sentence) (headI beI : Nat) :
    ((make_copula_apply s headI beI).2).map WordNode.index = s.map WordNode.index := by
  unfold make_copula_apply
  cases getW s beI with
  | none => rfl
  | some be =>
    simp only
    rw [map_index_redirect, map_index_setWord, map_index_setWord]
    all_goals intro x
    all_goals rfl

theorem map_index_make_copula (s : Sentence) (headI beI : Nat) :
    ((make_copula s headI beI).2).map WordNode.index = s.map WordNode.index := by
  unfold make_copula
  cases hfg : find_governed s beI "expl" with
  | some e =>
    simp only
    by_cases hth : (e.«lemma» == "there") = true
    · rw [if_pos hth]
    · rw [if_neg hth]
      exact map_index_make_copula_apply s headI beI
  | none => exact map_index_make_copula_apply s headI beI

theorem map_index_make_passive (s : Sentence) (beI verbI : Nat) :
    (make_passive s beI verbI).map WordNode.index = s.map WordNode.index := by
  unfold make_passive
  dsimp only
  repeat' split
  all_goals repeat rw [map_index_setWord]
  all_goals first
  | rfl
  | (intro x; rfl)

theorem TreeInv_make_copula_apply {s : Sentence} {headI beI : Nat} {head be : WordNode}
    (hinv : TreeInv s)
    (hhead : getW s headI = some head) (hbe : getW s beI = some be)
    (hchain : Chain s headI beI) (hne : headI ≠ beI) :
    TreeInv (make_copula_apply s headI beI).2 := by
  obtain ⟨_, hHeq, hBeq, hOeq⟩ := make_copula_apply_spec s headI beI be hbe hne
  have hcons := hinv.2.1
  apply TreeInv_restructure
    (fun a => a ≠ headI ∧ a ≠ beI ∧ ∃ wa, getW s a = some wa ∧
      (wa.governor_word == some beI && redirect_rels.contains wa.dependency_relation) = true)
    hinv hhead hbe hchain hne (map_index_make_copula_apply s headI beI)
  · intro w' hw'
    rw [hHeq, hhead] at hw'
    simp only [Option.map_some'] at hw'
    injection hw' with he
    rw [← he]
    exact ⟨rfl, rfl⟩
  · intro w' hw'
    rw [hBeq] at hw'
    injection hw' with he
    rw [← he]
    exact ⟨rfl, rfl⟩
  · rintro a ⟨hah, hab, wa, hga, hcond⟩
    have heq := hOeq a wa hah hab hga
    have hif : (if (wa.governor_word == some beI
        && redirect_rels.contains wa.dependency_relation) = true
        then { wa with governor := headI, governor_word := some headI } else wa)
        = { wa with governor := headI, governor_word := some headI } := if_pos hcond
    have heq2 : getW (make_copula_apply s headI beI).2 a =
        some ({ wa with governor := headI, governor_word := some headI }) :=
      heq.trans (congrArg some hif)
    have hgw : wa.governor_word = some beI := by
      have h5 := (Bool.and_eq_true _ _).mp hcond
      exact beq_iff_eq.mp h5.1
    refine ⟨wa, { wa with governor := headI, governor_word := some headI },
      hga, gov_eq_of_govword hcons (getW_eq_some_mem hga) hgw, heq2, rfl, rfl⟩
  · intro j hjh hjb hA w' hw'
    cases hg : getW s j with
    | none =>
      have hs := getW_isSome_of_map_index (map_index_make_copula_apply s headI beI) j
      rw [hw', hg] at hs
      exact absurd hs (by simp)
    | some w =>
      have heq := hOeq j w hjh hjb hg
      cases hcond : (w.governor_word == some beI
          && redirect_rels.contains w.dependency_relation) with
      | true => exact absurd ⟨hjh, hjb, w, hg, hcond⟩ hA
      | false =>
        rw [heq, hcond] at hw'
        rw [if_neg (by simp)] at hw'
        injection hw' with he
        exact ⟨w, rfl, by rw [he], by rw [he]⟩

theorem TreeInv_make_copula {s : Sentence} {headI beI : Nat} {head be : WordNode}
    (hinv : TreeInv s)
    (hhead : getW s headI = some head) (hbe : getW s beI = some be)
    (hchain : Chain s headI beI) (hne : headI ≠ beI) :
    TreeInv (make_copula s headI beI).2 := by
  unfold make_copula
  cases hfg : find_governed s beI "expl" with
  | some e =>
    simp only
    by_cases hth : (e.«lemma» == "there") = true
    · rw [if_pos hth]
      exact hinv
    · rw [if_neg hth]
      exact TreeInv_make_copula_apply hinv hhead hbe hchain hne
  | none => exact TreeInv_make_copula_apply hinv hhead hbe hchain hne

theorem TreeInv_make_passive {s : Sentence} {beI verbI : Nat} {be verb : WordNode}
    (hinv : TreeInv s)
    (hbe : getW s beI = some be) (hverb : getW s verbI = some verb)
    (hchain : Chain s verbI beI) (hne : verbI ≠ beI)
    (hsubjn : ∀ sj, find_governed s beI "nsubj" = some sj → sj.index ≠ verbI)
    (hsubjc : ∀ sj, find_governed s beI "csubj" = some sj → sj.index ≠ verbI) :
    TreeInv (make_passive s beI verbI) := by
  have hnd := hinv.1
  have hcons := hinv.2.1
  have hz := getW_zero_none hcons
  obtain ⟨c1, c2, c3⟩ := make_passive_spec s beI verbI be hnd hbe hne
  have hmapidx := map_index_make_passive s beI verbI
  cases hfn : find_governed s beI "nsubj" with
  | some sj =>
    have hsjmem := find_governed_mem hfn
    have hsjW : getW s sj.index = some sj := getW_of_mem_nodup hnd hsjmem.1
    have hsjgov : sj.governor = beI := gov_eq_of_govword hcons hsjmem.1 hsjmem.2.1
    have hsjb : sj.index ≠ beI := by
      intro he
      exact self_gov_ne hz (reaches_of_getW hinv.2.2.2 hsjW) hsjW (by rw [hsjgov, he])
    obtain ⟨e1, e2, e3, e4⟩ := c1 sj hfn (hsubjn sj hfn) hsjb
    apply TreeInv_restructure (fun a => a = sj.index) hinv hverb hbe hchain hne hmapidx
    · intro w' hw'
      rw [e2, hverb] at hw'
      simp only [Option.map_some'] at hw'
      injection hw' with he
      rw [← he]
      exact ⟨rfl, rfl⟩
    · intro w' hw'
      rw [e3] at hw'
      injection hw' with he
      rw [← he]
      exact ⟨rfl, rfl⟩
    · rintro a rfl
      exact ⟨sj, { sj with governor := verbI, governor_word := some verbI, dependency_relation := "nsubj:pass" }, hsjW, hsjgov, e1, rfl, rfl⟩
    · intro j hjv hjb hA w' hw'
      rw [e4 j hjv hjb hA] at hw'
      exact ⟨w', hw', rfl, rfl⟩
  | none =>
    cases hfc : find_governed s beI "csubj" with
    | some sj =>
      have hsjmem := find_governed_mem hfc
      have hsjW : getW s sj.index = some sj := getW_of_mem_nodup hnd hsjmem.1
      have hsjgov : sj.governor = beI := gov_eq_of_govword hcons hsjmem.1 hsjmem.2.1
      have hsjb : sj.index ≠ beI := by
        intro he
        exact self_gov_ne hz (reaches_of_getW hinv.2.2.2 hsjW) hsjW (by rw [hsjgov, he])
      obtain ⟨e1, e2, e3, e4⟩ := c2 hfn sj hfc (hsubjc sj hfc) hsjb
      apply TreeInv_restructure (fun a => a = sj.index) hinv hverb hbe hchain hne hmapidx
      · intro w' hw'
        rw [e2, hverb] at hw'
        simp only [Option.map_some'] at hw'
        injection hw' with he
        rw [← he]
        exact ⟨rfl, rfl⟩
      · intro w' hw'
        rw [e3] at hw'
        injection hw' with he
        rw [← he]
        exact ⟨rfl, rfl⟩
      · rintro a rfl
        exact ⟨sj, { sj with governor := verbI, governor_word := some verbI, dependency_relation := "csubj:pass" }, hsjW, hsjgov, e1, rfl, rfl⟩
      · intro j hjv hjb hA w' hw'
        rw [e4 j hjv hjb hA] at hw'
        exact ⟨w', hw', rfl, rfl⟩
    | none =>
      obtain ⟨e2, e3, e4⟩ := c3 hfn hfc
      apply TreeInv_restructure (fun _ => (False : Prop)) hinv hverb hbe hchain hne hmapidx
      · intro w' hw'
        rw [e2, hverb] at hw'
        simp only [Option.map_some'] at hw'
        injection hw' with he
        rw [← he]
        exact ⟨rfl, rfl⟩
      · intro w' hw'
        rw [e3] at hw'
        injection hw' with he
        rw [← he]
        exact ⟨rfl, rfl⟩
      · rintro a ha
        exact absurd ha (by simp)
      · intro j hjv hjb _ w' hw'
        rw [e4 j hjv hjb] at hw'
        exact ⟨w', hw', rfl, rfl⟩

/-! ## Per-rule preservation of the tree invariant -/

theorem rr_ok_sentence {s1 s2 : Sentence} {d1 d2 : List String}
    (h : (Except.ok (s1, d1) : RuleResult) = Except.ok (s2, d2)) : s1 = s2 :=
  congrArg Prod.fst (Except.ok.inj h)

theorem govOf_ok {s : Sentence} {w g : WordNode} (h : govOf s w = .ok g) :
    w.governor_word = some g.index ∧ getW s g.index = some g := by
  unfold govOf at h
  cases hgw : w.governor_word with
  | none =>
    simp only [hgw] at h
    exact Except.noConfusion h
  | some gi =>
    simp only [hgw] at h
    cases hg : getW s gi with
    | none =>
      simp only [hg] at h
      exact Except.noConfusion h
    | some g2 =>
      simp only [hg] at h
      injection h with he
      have hidx := getW_eq_some_index hg
      refine ⟨?_, ?_⟩
      · rw [← he, hidx]
      · rw [← he, hidx]
        exact hg

theorem gov_facts {s : Sentence} (hinv : TreeInv s) {i gi : Nat} {w : WordNode}
    (hw : getW s i = some w) (hgw : w.governor_word = some gi) :
    w.governor = gi ∧ Chain s i gi ∧ i ≠ gi := by
  have hcons := hinv.2.1
  have hz := getW_zero_none hcons
  have hwg : w.governor = gi := gov_eq_of_govword hcons (getW_eq_some_mem hw) hgw
  have hch : Chain s w.governor gi := by rw [hwg]; exact Chain.refl _
  exact ⟨hwg, Chain.step hw hch,
    ne_of_gov_chain hz (reaches_of_getW hinv.2.2.2 hw) hw hch⟩

theorem TreeInv_relabel {s : Sentence} {i : Nat} {r : String} (hinv : TreeInv s) :
    TreeInv (setWord s i fun x => { x with dependency_relation := r }) :=
  TreeInv_setWord_rel (fun _ => rfl) (fun _ => rfl) (fun _ => rfl) hinv

theorem TreeInv_aux_to_ud {s s' : Sentence} {i : Nat} {d : List String}
    (hinv : TreeInv s) (h : aux_to_ud s i = .ok (s', d)) : TreeInv s' := by
  unfold aux_to_ud at h
  cases hw : getW s i with
  | none =>
    simp only [hw] at h
    rw [← rr_ok_sentence h]
    exact hinv
  | some w =>
    simp only [hw] at h
    by_cases hp : (w.upos == "PART") = true
    · rw [if_pos hp] at h
      cases hgov : govOf (setWord s i fun x => { x with dependency_relation := "mark" }) w with
      | error e =>
        simp only [hgov] at h
        exact Except.noConfusion h
      | ok g =>
        simp only [hgov] at h
        have h1 : TreeInv (setWord s i fun x =>
            { x with dependency_relation := "mark" }) := TreeInv_relabel hinv
        by_cases hacl : (g.dependency_relation == "acl:relcl") = true
        · rw [if_pos hacl] at h
          rw [← rr_ok_sentence h]
          exact TreeInv_relabel h1
        · rw [if_neg hacl] at h
          rw [← rr_ok_sentence h]
          exact h1
    · rw [if_neg hp] at h
      rw [← rr_ok_sentence h]
      exact hinv

theorem TreeInv_oprd_to_ud {s s' : Sentence} {i : Nat} {d : List String}
    (hinv : TreeInv s) (h : oprd_to_ud s i = .ok (s', d)) : TreeInv s' := by
  unfold oprd_to_ud at h
  cases hw : getW s i with
  | none =>
    simp only [hw] at h
    rw [← rr_ok_sentence h]
    exact hinv
  | some w =>
    simp only [hw] at h
    by_cases hn : (nominal_pos.contains w.upos) = true
    · rw [if_pos hn] at h
      rw [← rr_ok_sentence h]
      exact TreeInv_relabel hinv
    · rw [if_neg hn] at h
      rw [← rr_ok_sentence h]
      exact TreeInv_relabel hinv

theorem TreeInv_amod_to_ud {s s' : Sentence} {i : Nat} {d : List String}
    (hinv : TreeInv s) (h : amod_to_ud s i = .ok (s', d)) : TreeInv s' := by
  unfold amod_to_ud at h
  cases hw : getW s i with
  | none =>
    simp only [hw] at h
    rw [← rr_ok_sentence h]
    exact hinv
  | some w =>
    simp only [hw] at h
    cases hgov : govOf s w with
    | error e =>
      simp only [hgov] at h
      exact Except.noConfusion h
    | ok g =>
      simp only [hgov] at h
      by_cases hp : (g.upos == "VERB") = true
      · rw [if_pos hp] at h
        rw [← rr_ok_sentence h]
        exact TreeInv_relabel hinv
      · rw [if_neg hp] at h
        rw [← rr_ok_sentence h]
        exact hinv

theorem TreeInv_nummod_to_ud {s s' : Sentence} {i : Nat} {d : List String}
    (hinv : TreeInv s) (h : nummod_to_ud s i = .ok (s', d)) : TreeInv s' := by
  unfold nummod_to_ud at h
  cases hw : getW s i with
  | none =>
    simp only [hw] at h
    rw [← rr_ok_sentence h]
    exact hinv
  | some w =>
    simp only [hw] at h
    cases hgov : govOf s w with
    | error e =>
      simp only [hgov] at h
      exact Except.noConfusion h
    | ok g =>
      simp only [hgov] at h
      by_cases hp : (g.upos == "NOUN" && g.index == w.index - 1) = true
      · rw [if_pos hp] at h
        rw [← rr_ok_sentence h]
        exact TreeInv_relabel hinv
      · rw [if_neg hp] at h
        rw [← rr_ok_sentence h]
        exact hinv

theorem TreeInv_dep_to_ud {s s' : Sentence} {i : Nat} {d : List String}
    (hinv : TreeInv s) (h : dep_to_ud s i = .ok (s', d)) : TreeInv s' := by
  unfold dep_to_ud at h
  cases hw : getW s i with
  | none =>
    simp only [hw] at h
    rw [← rr_ok_sentence h]
    exact hinv
  | some w =>
    simp only [hw] at h
    cases hgov : govOf s w with
    | error e =>
      simp only [hgov] at h
      exact Except.noConfusion h
    | ok g =>
      simp only [hgov] at h
      by_cases hp : (g.upos == "VERB") = true
      · rw [if_pos hp] at h
        rw [← rr_ok_sentence h]
        exact TreeInv_relabel hinv
      · rw [if_neg hp] at h
        rw [← rr_ok_sentence h]
        exact hinv

theorem TreeInv_advmod_to_ud {s s' : Sentence} {i : Nat} {d : List String}
    (hinv : TreeInv s) (h : advmod_to_ud s i = .ok (s', d)) : TreeInv s' := by
  unfold advmod_to_ud at h
  cases hw : getW s i with
  | none =>
    simp only [hw] at h
    rw [← rr_ok_sentence h]
    exact hinv
  | some w =>
    simp only [hw] at h
    by_cases hsc : (w.upos == "SCONJ") = true
    · rw [if_pos hsc] at h
      cases hgov : govOf s w with
      | error e =>
        simp only [hgov] at h
        exact Except.noConfusion h
      | ok g =>
        simp only [hgov] at h
        by_cases hp : (g.dependency_relation == "advcl") = true
        · rw [if_pos hp] at h
          rw [← rr_ok_sentence h]
          exact TreeInv_relabel hinv
        · rw [if_neg hp] at h
          rw [← rr_ok_sentence h]
          exact TreeInv_setWord_rel (fun _ => rfl) (fun _ => rfl) (fun _ => rfl) hinv
    · rw [if_neg hsc] at h
      rw [← rr_ok_sentence h]
      exact hinv

theorem TreeInv_advcl_to_ud {s s' : Sentence} {i : Nat} {d : List String}
    (hinv : TreeInv s) (h : advcl_to_ud s i = .ok (s', d)) : TreeInv s' := by
  unfold advcl_to_ud at h
  cases hw : getW s i with
  | none =>
    simp only [hw] at h
    rw [← rr_ok_sentence h]
    exact hinv
  | some w =>
    simp only [hw] at h
    cases hgov : govOf s w with
    | error e =>
      simp only [hgov] at h
      exact Except.noConfusion h
    | ok g =>
      simp only [hgov] at h
      by_cases hbe : (g.«lemma» == "be" && (find_subj s i).isSome) = true
      · rw [if_pos hbe] at h
        obtain ⟨hgw, hgg⟩ := govOf_ok hgov
        obtain ⟨_, hch, hne⟩ := gov_facts hinv hw hgw
        have h1 : TreeInv (make_copula s i g.index).2 :=
          TreeInv_make_copula hinv hw hgg hch hne
        cases hfc : find_governed (make_copula s i g.index).2 i "csubj" with
        | some c =>
          simp only [hfc] at h
          by_cases hv : (c.upos == "VERB") = true
          · rw [if_pos hv] at h
            rw [← rr_ok_sentence h]
            exact TreeInv_relabel h1
          · rw [if_neg hv] at h
            rw [← rr_ok_sentence h]
            exact h1
        | none =>
          simp only [hfc] at h
          rw [← rr_ok_sentence h]
          exact h1
      · rw [if_neg hbe] at h
        by_cases hn : (nominal_pos.contains g.upos
            && (find_governed s g.index "cop").isNone) = true
        · rw [if_pos hn] at h
          rw [← rr_ok_sentence h]
          exact TreeInv_relabel hinv
        · rw [if_neg hn] at h
          rw [← rr_ok_sentence h]
          exact hinv

theorem TreeInv_comp_to_ud {s s' : Sentence} {i : Nat} {d : List String}
    (hinv : TreeInv s) (h : comp_to_ud s i = .ok (s', d)) : TreeInv s' := by
  unfold comp_to_ud at h
  cases hw : getW s i with
  | none =>
    simp only [hw] at h
    rw [← rr_ok_sentence h]
    exact hinv
  | some w =>
    simp only [hw] at h
    cases hgov : govOf s w with
    | error e =>
      simp only [hgov] at h
      exact Except.noConfusion h
    | ok g =>
      simp only [hgov] at h
      by_cases hbe : (g.«lemma» == "be") = true
      · rw [if_pos hbe] at h
        obtain ⟨hgw, hgg⟩ := govOf_ok hgov
        obtain ⟨_, hch, hne⟩ := gov_facts hinv hw hgw
        have h1 : TreeInv (make_copula s i g.index).2 :=
          TreeInv_make_copula hinv hw hgg hch hne
        cases hsubj : find_subj s g.index with
        | some sj =>
          simp only [hsubj] at h
          rw [← rr_ok_sentence h]
          exact TreeInv_setWord_rel (fun _ => rfl) (fun _ => rfl) (fun _ => rfl) h1
        | none =>
          simp only [hsubj] at h
          rw [← rr_ok_sentence h]
          exact h1
      · rw [if_neg hbe] at h
        by_cases hcop : ((find_governed s g.index "cop").isSome) = true
        · rw [if_pos hcop] at h
          cases hsubj : find_subj s g.index with
          | some sj =>
            simp only [hsubj] at h
            by_cases hit : (sj.«lemma» == "it") = true
            · rw [if_pos hit] at h
              rw [← rr_ok_sentence h]
              exact TreeInv_relabel (TreeInv_relabel hinv)
            · rw [if_neg hit] at h
              rw [← rr_ok_sentence h]
              exact hinv
          | none =>
            simp only [hsubj] at h
            rw [← rr_ok_sentence h]
            exact hinv
        · rw [if_neg hcop] at h
          rw [← rr_ok_sentence h]
          exact hinv

theorem TreeInv_acomp_to_ud {s s' : Sentence} {i : Nat} {d : List String} {w : WordNode}
    (hinv : TreeInv s) (hw : getW s i = some w)
    (hrel : w.dependency_relation = "acomp")
    (h : acomp_to_ud s i = .ok (s', d)) : TreeInv s' := by
  unfold acomp_to_ud at h
  simp only [hw] at h
  cases hgov : govOf s w with
  | error e =>
    simp only [hgov] at h
    exact Except.noConfusion h
  | ok g =>
    simp only [hgov] at h
    by_cases hbe : (g.«lemma» == "be") = true
    · rw [if_pos hbe] at h
      obtain ⟨hgw, hgg⟩ := govOf_ok hgov
      obtain ⟨_, hch, hne⟩ := gov_facts hinv hw hgw
      by_cases hvp : (w.upos == "VERB" && w.features.lookup "Aspect" == some "Perf") = true
      · rw [if_pos hvp] at h
        rw [← rr_ok_sentence h]
        refine TreeInv_make_passive hinv hgg hw hch hne ?_ ?_
        · intro sj hfn he
          have hsjW : getW s sj.index = some sj :=
            getW_of_mem_nodup hinv.1 (find_governed_mem hfn).1
          rw [he, hw] at hsjW
          injection hsjW with he2
          have h4 := (find_governed_mem hfn).2.2
          rw [← he2, hrel] at h4
          exact absurd h4 (by decide)
        · intro sj hfc he
          have hsjW : getW s sj.index = some sj :=
            getW_of_mem_nodup hinv.1 (find_governed_mem hfc).1
          rw [he, hw] at hsjW
          injection hsjW with he2
          have h4 := (find_governed_mem hfc).2.2
          rw [← he2, hrel] at h4
          exact absurd h4 (by decide)
      · rw [if_neg hvp] at h
        rw [← rr_ok_sentence h]
        exact TreeInv_make_copula hinv hw hgg hch hne
    · rw [if_neg hbe] at h
      rw [← rr_ok_sentence h]
      exact TreeInv_relabel hinv

theorem TreeInv_fix_step {s s' : Sentence} {i : Nat}
    (hinv : TreeInv s) (h : fix_step s i = .ok s') : TreeInv s' := by
  unfold fix_step at h
  cases hw : getW s i with
  | none =>
    simp only [hw] at h
    rw [← Except.ok.inj h]
    exact hinv
  | some w =>
    simp only [hw] at h
    by_cases hadv : (w.dependency_relation == "advmod") = true
    · rw [if_pos hadv] at h
      cases hgw : w.governor_word with
      | none =>
        simp only [hgw] at h
        exact Except.noConfusion h
      | some gi =>
        simp only [hgw] at h
        cases hg : getW s gi with
        | none =>
          simp only [hg] at h
          exact Except.noConfusion h
        | some g =>
          simp only [hg] at h
          by_cases hbe : (g.«lemma» == "be" && g.dependency_relation != "cop") = true
          · rw [if_pos hbe] at h
            rw [← Except.ok.inj h]
            obtain ⟨_, hch, hne⟩ := gov_facts hinv hw hgw
            exact TreeInv_make_copula hinv hw hg hch hne
          · rw [if_neg hbe] at h
            rw [← Except.ok.inj h]
            exact hinv
    · rw [if_neg hadv] at h
      rw [← Except.ok.inj h]
      exact hinv

theorem redirectF_moved {fromI toI : Nat} {u : WordNode}
    (h1 : (u.index == fromI) = false) (h2 : (u.index == toI) = false)
    (hcond : (u.governor_word == some fromI
      && redirect_rels.contains u.dependency_relation) = true) :
    redirectF fromI toI u = { u with governor := toI, governor_word := some toI } := by
  unfold redirectF
  split
  · next hor =>
    rw [h1, h2] at hor
    simp at hor
  · rfl

theorem redirectF_keep {fromI toI : Nat} {u : WordNode}
    (h1 : (u.index == fromI) = false) (h2 : (u.index == toI) = false)
    (hcond : (u.governor_word == some fromI
      && redirect_rels.contains u.dependency_relation) = false) :
    redirectF fromI toI u = u := by
  unfold redirectF
  split
  · rfl
  · split
    · next hc2 =>
      rw [hcond] at hc2
      exact Bool.noConfusion hc2
    · rfl

theorem redirectF_id_of_self {fromI toI : Nat} {u : WordNode}
    (h : (u.index == fromI || u.index == toI) = true) : redirectF fromI toI u = u := by
  simp only [redirectF]
  rw [if_pos h]

theorem TreeInv_redirect {s : Sentence} {fromI toI : Nat} {wf wt : WordNode}
    (hinv : TreeInv s) (hf : getW s fromI = some wf) (ht : getW s toI = some wt)
    (hfg : wf.governor = toI) :
    TreeInv (redirect_dependants s fromI toI) := by
  have hcons := hinv.2.1
  have hz := getW_zero_none hcons
  have hfromne : fromI ≠ 0 := by
    have h5 := (hcons wf (getW_eq_some_mem hf)).1
    rwa [getW_eq_some_index hf] at h5
  apply TreeInv_repoint
    (fun a => a ≠ fromI ∧ a ≠ toI ∧ ∃ u, getW s a = some u ∧
      (u.governor_word == some fromI
        && redirect_rels.contains u.dependency_relation) = true)
    hinv ht (map_index_redirect s fromI toI)
  · rintro a ⟨haf, hat, u, hu, hcond⟩
    have hju := getW_eq_some_index hu
    have h1 : (u.index == fromI) = false := by
      rw [hju]; exact beq_eq_false_iff_ne.mpr haf
    have h2 : (u.index == toI) = false := by
      rw [hju]; exact beq_eq_false_iff_ne.mpr hat
    have hgwu : u.governor_word = some fromI :=
      beq_iff_eq.mp ((Bool.and_eq_true _ _).mp hcond).1
    have hgu : u.governor = fromI := gov_eq_of_govword hcons (getW_eq_some_mem hu) hgwu
    refine ⟨u, { u with governor := toI, governor_word := some toI }, hu,
      by rw [hgu]; exact hfromne, ?_, rfl, rfl⟩
    rw [getW_redirect, hu, Option.map_some', redirectF_moved h1 h2 hcond]
  · intro j hA w' hw'
    rw [getW_redirect] at hw'
    cases hu : getW s j with
    | none =>
      rw [hu] at hw'
      simp at hw'
    | some u =>
      rw [hu, Option.map_some'] at hw'
      injection hw' with he
      have hju := getW_eq_some_index hu
      by_cases hj1 : (u.index == fromI || u.index == toI) = true
      · rw [redirectF_id_of_self hj1] at he
        exact ⟨u, rfl, by rw [← he], by rw [← he]⟩
      · have h1 : (u.index == fromI) = false := by
          cases hx : (u.index == fromI) with
          | false => rfl
          | true => exact absurd (by simp [hx]) hj1
        have h2 : (u.index == toI) = false := by
          cases hx : (u.index == toI) with
          | false => rfl
          | true => exact absurd (by simp [hx]) hj1
        cases hcond : (u.governor_word == some fromI
            && redirect_rels.contains u.dependency_relation) with
        | true =>
          have hjf : j ≠ fromI := by rw [← hju]; exact beq_eq_false_iff_ne.mp h1
          have hjt : j ≠ toI := by rw [← hju]; exact beq_eq_false_iff_ne.mp h2
          exact absurd ⟨hjf, hjt, u, hu, hcond⟩ hA
        | false =>
          rw [redirectF_keep h1 h2 hcond] at he
          exact ⟨u, rfl, by rw [← he], by rw [← he]⟩
  · rintro a ⟨haf, hat, u, hu, hcond⟩ hchain
    have hgwu : u.governor_word = some fromI :=
      beq_iff_eq.mp ((Bool.and_eq_true _ _).mp hcond).1
    have hgu : u.governor = fromI := gov_eq_of_govword hcons (getW_eq_some_mem hu) hgwu
    have hc2 : Chain s toI fromI := by
      have h6 := chain_snoc hchain hu
      rwa [hgu] at h6
    exact no_loop_strict hz (reaches_of_getW hinv.2.2.2 hf) wf hf (by rw [hfg]; exact hc2)

theorem TreeInv_attr_to_ud {s s' : Sentence} {i : Nat} {d : List String}
    (hinv : TreeInv s) (h : attr_to_ud s i = .ok (s', d)) : TreeInv s' := by
  unfold attr_to_ud at h
  cases hw : getW s i with
  | none =>
    simp only [hw] at h
    rw [← rr_ok_sentence h]
    exact hinv
  | some w =>
    simp only [hw] at h
    cases hgov : govOf s w with
    | error e =>
      simp only [hgov] at h
      exact Except.noConfusion h
    | ok g =>
      simp only [hgov] at h
      by_cases hbe : (g.«lemma» != "be") = true
      · rw [if_pos hbe] at h
        rw [← rr_ok_sentence h]
        exact hinv
      · rw [if_neg hbe] at h
        cases hfe : find_governed s g.index "expl" with
        | some e =>
          simp only [hfe] at h
          rw [← rr_ok_sentence h]
          exact TreeInv_relabel hinv
        | none =>
          simp only [hfe] at h
          rw [← rr_ok_sentence h]
          obtain ⟨hgw, hgg⟩ := govOf_ok hgov
          obtain ⟨_, hch, hne⟩ := gov_facts hinv hw hgw
          exact TreeInv_make_copula hinv hw hgg hch hne

theorem TreeInv_npadvmod_to_ud {s s' : Sentence} {i : Nat} {d : List String}
    (hinv : TreeInv s) (h : npadvmod_to_ud s i = .ok (s', d)) : TreeInv s' := by
  have hcons := hinv.2.1
  have hz := getW_zero_none hcons
  unfold npadvmod_to_ud at h
  cases hw : getW s i with
  | none =>
    simp only [hw] at h
    rw [← rr_ok_sentence h]
    exact hinv
  | some w =>
    simp only [hw] at h
    cases hgov : govOf s w with
    | error e =>
      simp only [hgov] at h
      exact Except.noConfusion h
    | ok g0 =>
      simp only [hgov] at h
      obtain ⟨hgw0, hg0⟩ := govOf_ok hgov
      obtain ⟨hwg0, hch0, hne0⟩ := gov_facts hinv hw hgw0
      have hg0ne : g0.index ≠ 0 := by
        have h5 := (hcons g0 (getW_eq_some_mem hg0)).1
        rwa [getW_eq_some_index hg0] at h5
      by_cases hob : (g0.dependency_relation == "obl:npmod") = true
      · rw [if_pos hob] at h
        cases hgw1 : g0.governor_word with
        | none =>
          simp only [hgw1] at h
          exact Except.noConfusion h
        | some gi1 =>
          simp only [hgw1] at h
          cases hg1 : getW s gi1 with
          | none =>
            simp only [hg1] at h
            exact Except.noConfusion h
          | some g1 =>
            simp only [hg1] at h
            rw [← rr_ok_sentence h]
            obtain ⟨hg0g, hch1, hne1⟩ := gov_facts hinv hg0 hgw1
            have hg1W : getW s g1.index = some g1 := by
              rw [getW_eq_some_index hg1]; exact hg1
            have hf1 : ∀ x : WordNode, (({ x with dependency_relation := "obl:npmod", governor := g1.index, governor_word := some g1.index } : WordNode)).index = x.index := fun _ => rfl
            apply TreeInv_repoint (fun a => a = i) hinv hg1W ?_ ?_ ?_ ?_
            · exact map_index_setWord hf1 s i
            · rintro a rfl
              refine ⟨w, { w with dependency_relation := "obl:npmod", governor := g1.index, governor_word := some g1.index }, hw, by rw [hwg0]; exact hg0ne, ?_, rfl, rfl⟩
              rw [getW_setWord hf1, if_pos rfl, hw, Option.map_some']
            · intro j hA w' hw'
              rw [getW_setWord hf1, if_neg hA] at hw'
              exact ⟨w', hw', rfl, rfl⟩
            · rintro a rfl hchain
              have h1 : Chain s w.governor g1.index := by
                rw [hwg0, getW_eq_some_index hg1]
                exact hch1
              exact chain_mutual_false hz (reaches_of_getW hinv.2.2.2 hw) hw h1 hchain
      · rw [if_neg hob] at h
        rw [← rr_ok_sentence h]
        have hf0 : ∀ x : WordNode, (({ x with dependency_relation := "obl:npmod", governor := g0.index, governor_word := some g0.index } : WordNode)).index = x.index := fun _ => rfl
        apply TreeInv_repoint (fun a => a = i) hinv hg0 ?_ ?_ ?_ ?_
        · exact map_index_setWord hf0 s i
        · rintro a rfl
          refine ⟨w, { w with dependency_relation := "obl:npmod", governor := g0.index, governor_word := some g0.index }, hw, by rw [hwg0]; exact hg0ne, ?_, rfl, rfl⟩
          rw [getW_setWord hf0, if_pos rfl, hw, Option.map_some']
        · intro j hA w' hw'
          rw [getW_setWord hf0, if_neg hA] at hw'
          exact ⟨w', hw', rfl, rfl⟩
        · rintro a rfl hchain
          have h1 : Chain s w.governor g0.index := by
            rw [hwg0]
            exact Chain.refl _
          exact chain_mutual_false hz (reaches_of_getW hinv.2.2.2 hw) hw h1 hchain

theorem TreeInv_nmod_to_ud {s s' : Sentence} {i : Nat} {d : List String}
    (hinv : TreeInv s) (h : nmod_to_ud s i = .ok (s', d)) : TreeInv s' := by
  have hcons := hinv.2.1
  unfold nmod_to_ud at h
  cases hw : getW s i with
  | none =>
    simp only [hw] at h
    rw [← rr_ok_sentence h]
    exact hinv
  | some w =>
    simp only [hw] at h
    by_cases hd : (w.«lemma» == "$") = true
    · rw [if_pos hd] at h
      cases hgov : govOf s w with
      | error e =>
        simp only [hgov] at h
        exact Except.noConfusion h
      | ok g =>
        simp only [hgov] at h
        by_cases hnum : (g.upos == "NUM") = true
        · rw [if_pos hnum] at h
          rw [← rr_ok_sentence h]
          obtain ⟨hgw, hgg⟩ := govOf_ok hgov
          obtain ⟨hwg, hch, hne⟩ := gov_facts hinv hw hgw
          have hwi := getW_eq_some_index hw
          have hf1 : ∀ x : WordNode, (({ x with dependency_relation := g.dependency_relation, governor := g.governor, governor_word := g.governor_word } : WordNode)).index = x.index := fun _ => rfl
          have hf2 : ∀ x : WordNode, (({ x with dependency_relation := "nummod", governor := i, governor_word := some i } : WordNode)).index = x.index := fun _ => rfl
          have e1 : getW (setWord (setWord s i fun x => { x with dependency_relation := g.dependency_relation, governor := g.governor, governor_word := g.governor_word }) g.index fun x => { x with dependency_relation := "nummod", governor := i, governor_word := some i }) i = some ({ w with dependency_relation := g.dependency_relation, governor := g.governor, governor_word := g.governor_word }) := by
            rw [getW_setWord hf2, if_neg hne, getW_setWord hf1, if_pos rfl, hw,
              Option.map_some']
          have e2 : getW (setWord (setWord s i fun x => { x with dependency_relation := g.dependency_relation, governor := g.governor, governor_word := g.governor_word }) g.index fun x => { x with dependency_relation := "nummod", governor := i, governor_word := some i }) g.index = some ({ g with dependency_relation := "nummod", governor := i, governor_word := some i }) := by
            rw [getW_setWord hf2, if_pos rfl, getW_setWord hf1,
              if_neg (fun hc => hne hc.symm), hgg, Option.map_some']
          have e3 : ∀ j, j ≠ i → j ≠ g.index →
              getW (setWord (setWord s i fun x => { x with dependency_relation := g.dependency_relation, governor := g.governor, governor_word := g.governor_word }) g.index fun x => { x with dependency_relation := "nummod", governor := i, governor_word := some i }) j = getW s j := by
            intro j hji hjg
            rw [getW_setWord hf2, if_neg hjg, getW_setWord hf1, if_neg hji]
          apply TreeInv_restructure
            (fun a => a ≠ i ∧ a ≠ g.index ∧ ∃ u, getW s a = some u ∧
              (u.governor_word == some g.index
                && redirect_rels.contains u.dependency_relation) = true)
            hinv hw hgg hch hne ?_ ?_ ?_ ?_ ?_
          · rw [map_index_redirect, map_index_setWord, map_index_setWord]
            all_goals intro x
            all_goals rfl
          · intro w' hw'
            rw [getW_redirect, e1, Option.map_some'] at hw'
            have hself : (({ w with dependency_relation := g.dependency_relation, governor := g.governor, governor_word := g.governor_word } : WordNode).index == g.index || ({ w with dependency_relation := g.dependency_relation, governor := g.governor, governor_word := g.governor_word } : WordNode).index == i) = true := by
              simp [hwi]
            rw [redirectF_id_of_self hself] at hw'
            injection hw' with he
            rw [← he]
            exact ⟨rfl, rfl⟩
          · intro w' hw'
            rw [getW_redirect, e2, Option.map_some'] at hw'
            have hself : (({ g with dependency_relation := "nummod", governor := i, governor_word := some i } : WordNode).index == g.index || ({ g with dependency_relation := "nummod", governor := i, governor_word := some i } : WordNode).index == i) = true := by
              simp
            rw [redirectF_id_of_self hself] at hw'
            injection hw' with he
            rw [← he]
            exact ⟨rfl, rfl⟩
          · rintro a ⟨hai, hag, u, hu, hcond⟩
            have hju := getW_eq_some_index hu
            have hb1 : (u.index == g.index) = false := by
              rw [hju]; exact beq_eq_false_iff_ne.mpr hag
            have hb2 : (u.index == i) = false := by
              rw [hju]; exact beq_eq_false_iff_ne.mpr hai
            have hgwu : u.governor_word = some g.index :=
              beq_iff_eq.mp ((Bool.and_eq_true _ _).mp hcond).1
            refine ⟨u, { u with governor := i, governor_word := some i }, hu,
              gov_eq_of_govword hcons (getW_eq_some_mem hu) hgwu, ?_, rfl, rfl⟩
            rw [getW_redirect, e3 a hai hag, hu, Option.map_some',
              redirectF_moved hb1 hb2 hcond]
          · intro j hji hjg hA w' hw'
            rw [getW_redirect, e3 j hji hjg] at hw'
            cases hu : getW s j with
            | none =>
              rw [hu] at hw'
              simp at hw'
            | some u =>
              rw [hu, Option.map_some'] at hw'
              injection hw' with he
              have hju := getW_eq_some_index hu
              have hb1 : (u.index == g.index) = false := by
                rw [hju]; exact beq_eq_false_iff_ne.mpr hjg
              have hb2 : (u.index == i) = false := by
                rw [hju]; exact beq_eq_false_iff_ne.mpr hji
              cases hcond : (u.governor_word == some g.index
                  && redirect_rels.contains u.dependency_relation) with
              | true => exact absurd ⟨hji, hjg, u, hu, hcond⟩ hA
              | false =>
                rw [redirectF_keep hb1 hb2 hcond] at he
                exact ⟨u, rfl, by rw [← he], by rw [← he]⟩
        · rw [if_neg hnum] at h
          rw [← rr_ok_sentence h]
          exact hinv
    · rw [if_neg hd] at h
      rw [← rr_ok_sentence h]
      exact hinv

theorem TreeInv_repoint_ancestor {s : Sentence} {a t : Nat} {wa wt : WordNode}
    {f : WordNode → WordNode}
    (hfi : ∀ x, (f x).index = x.index) (hfg : ∀ x, (f x).governor = t)
    (hfw : ∀ x, (f x).governor_word = some t)
    (hinv : TreeInv s) (ha : getW s a = some wa) (ht : getW s t = some wt)
    (hgnz : wa.governor ≠ 0) (hchain : Chain s wa.governor t) :
    TreeInv (setWord s a f) := by
  have hz := getW_zero_none hinv.2.1
  apply TreeInv_repoint (fun x => x = a) hinv ht (map_index_setWord hfi s a) ?_ ?_ ?_
  · rintro x rfl
    exact ⟨wa, f wa, ha, hgnz,
      by rw [getW_setWord hfi, if_pos rfl, ha, Option.map_some'], hfg wa, hfw wa⟩
  · intro j hA w' hw'
    rw [getW_setWord hfi, if_neg hA] at hw'
    exact ⟨w', hw', rfl, rfl⟩
  · rintro x rfl hcc
    exact chain_mutual_false hz (reaches_of_getW hinv.2.2.2 ha) ha hchain hcc

theorem TreeInv_repoint_sibling {s : Sentence} {a t : Nat} {wa wt : WordNode}
    {f : WordNode → WordNode}
    (hfi : ∀ x, (f x).index = x.index) (hfg : ∀ x, (f x).governor = t)
    (hfw : ∀ x, (f x).governor_word = some t)
    (hinv : TreeInv s) (ha : getW s a = some wa) (ht : getW s t = some wt)
    (hsib : wa.governor = wt.governor) (hgnz : wa.governor ≠ 0) (hne : a ≠ t) :
    TreeInv (setWord s a f) := by
  have hz := getW_zero_none hinv.2.1
  apply TreeInv_repoint (fun x => x = a) hinv ht (map_index_setWord hfi s a) ?_ ?_ ?_
  · rintro x rfl
    exact ⟨wa, f wa, ha, hgnz,
      by rw [getW_setWord hfi, if_pos rfl, ha, Option.map_some'], hfg wa, hfw wa⟩
  · intro j hA w' hw'
    rw [getW_setWord hfi, if_neg hA] at hw'
    exact ⟨w', hw', rfl, rfl⟩
  · rintro x rfl hcc
    cases hcc with
    | refl => exact hne rfl
    | step hg3 hc3 =>
      rw [ht] at hg3
      injection hg3 with he
      subst he
      rw [← hsib] at hc3
      exact no_loop_strict hz (reaches_of_getW hinv.2.2.2 ha) wa ha hc3

theorem TreeInv_conj_flatten {s2 s' : Sentence} {i gIdx : Nat} {d : List String}
    (hinv2 : TreeInv s2) (hchain2 : Chain s2 i gIdx) (hne2 : i ≠ gIdx)
    (hex : (getW s2 i).isSome = true)
    (h : conj_flatten s2 i gIdx = .ok (s', d)) : TreeInv s' := by
  unfold conj_flatten at h
  cases hg2 : getW s2 gIdx with
  | none =>
    simp only [hg2] at h
    rw [← rr_ok_sentence h]
    exact hinv2
  | some g2 =>
    simp only [hg2] at h
    by_cases hcj : (g2.dependency_relation == "conj") = true
    · rw [if_pos hcj] at h
      cases hggw : g2.governor_word with
      | none =>
        simp only [hggw] at h
        exact Except.noConfusion h
      | some ggi =>
        simp only [hggw] at h
        rw [← rr_ok_sentence h]
        obtain ⟨wi2, hwi⟩ := Option.isSome_iff_exists.mp hex
        have hz2 := getW_zero_none hinv2.2.1
        have hg2ne0 : gIdx ≠ 0 := by
          have h5 := (hinv2.2.1 g2 (getW_eq_some_mem hg2)).1
          rwa [getW_eq_some_index hg2] at h5
        cases hchain2 with
        | refl => exact absurd rfl hne2
        | step hg3 hc3 =>
          rw [hwi] at hg3
          injection hg3 with he3
          subst he3
          have hgnz : wi2.governor ≠ 0 := by
            intro h0
            rw [h0] at hc3
            cases hc3 with
            | refl => exact hg2ne0 rfl
            | step hg4 _ =>
              rw [hz2] at hg4
              exact Option.noConfusion hg4
          have hgg2 : g2.governor = ggi :=
            gov_eq_of_govword hinv2.2.1 (getW_eq_some_mem hg2) hggw
          have hchainT : Chain s2 wi2.governor ggi := by
            have h6 := chain_snoc hc3 hg2
            rwa [hgg2] at h6
          have hg2gnz : g2.governor ≠ 0 := by
            intro h0
            have h5 := (hinv2.2.1 g2 (getW_eq_some_mem hg2)).2.1 h0
            rw [h5] at hggw
            exact Option.noConfusion hggw
          have hsome := ((hinv2.2.1 g2 (getW_eq_some_mem hg2)).2.2 hg2gnz).2
          rw [hgg2] at hsome
          obtain ⟨wt, hwt⟩ := Option.isSome_iff_exists.mp hsome
          exact TreeInv_repoint_ancestor (fun _ => rfl) (fun _ => rfl) (fun _ => rfl)
            hinv2 hwi hwt hgnz hchainT
    · rw [if_neg hcj] at h
      rw [← rr_ok_sentence h]
      exact hinv2

theorem TreeInv_conj_to_ud {s s' : Sentence} {i : Nat} {d : List String} {w : WordNode}
    (hinv : TreeInv s) (hw : getW s i = some w)
    (hrel : w.dependency_relation = "conj")
    (h : conj_to_ud s i = .ok (s', d)) : TreeInv s' := by
  have hcons := hinv.2.1
  have hz := getW_zero_none hcons
  unfold conj_to_ud at h
  simp only [hw] at h
  cases hgov : govOf s w with
  | error e =>
    simp only [hgov] at h
    exact Except.noConfusion h
  | ok g =>
    simp only [hgov] at h
    obtain ⟨hgw, hgg⟩ := govOf_ok hgov
    obtain ⟨hwg, hch, hne⟩ := gov_facts hinv hw hgw
    have hwidx := getW_eq_some_index hw
    have hine0 : i ≠ 0 := by
      have h5 := (hcons w (getW_eq_some_mem hw)).1
      rwa [hwidx] at h5
    have hgne0 : g.index ≠ 0 := by
      have h5 := (hcons g (getW_eq_some_mem hgg)).1
      rwa [getW_eq_some_index hgg] at h5
    cases hcc : find_governed s g.index "cc" with
    | none =>
      simp only [hcc] at h
      by_cases horph : (g.upos == "VERB" && nominal_pos.contains w.upos) = true
      · rw [if_pos horph] at h
        cases hn : find_governed s i "nsubj" with
        | none =>
          simp only [hn] at h
          exact TreeInv_conj_flatten hinv
            (Chain.step hw (by rw [hwg]; exact Chain.refl _)) hne (by rw [hw]; rfl) h
        | some n =>
          simp only [hn] at h
          have hnmem := find_governed_mem hn
          have hnW : getW s n.index = some n := getW_of_mem_nodup hinv.1 hnmem.1
          have hng : n.governor = i := gov_eq_of_govword hcons hnmem.1 hnmem.2.1
          have hni : i ≠ n.index := by
            have h5 := self_gov_ne hz (reaches_of_getW hinv.2.2.2 hnW) hnW
            rw [hng] at h5
            exact h5
          have hfconj : ∀ x : WordNode, (({ x with dependency_relation := "conj", governor := g.index, governor_word := some g.index } : WordNode)).index = x.index := fun _ => rfl
          have hinv1 : TreeInv (setWord s n.index fun x => { x with dependency_relation := "conj", governor := g.index, governor_word := some g.index }) :=
            TreeInv_repoint_ancestor hfconj (fun _ => rfl) (fun _ => rfl) hinv hnW hgg
              (by rw [hng]; exact hine0)
              (by rw [hng]; exact Chain.step hw (by rw [hwg]; exact Chain.refl _))
          have hwT1 : getW (setWord s n.index fun x => { x with dependency_relation := "conj", governor := g.index, governor_word := some g.index }) i = some w := by
            rw [getW_setWord hfconj, if_neg hni, hw]
          have hnT1 : getW (setWord s n.index fun x => { x with dependency_relation := "conj", governor := g.index, governor_word := some g.index }) n.index = some ({ n with dependency_relation := "conj", governor := g.index, governor_word := some g.index }) := by
            rw [getW_setWord hfconj, if_pos rfl, hnW, Option.map_some']
          have hforph : ∀ x : WordNode, (({ x with dependency_relation := "orphan", governor := n.index, governor_word := some n.index } : WordNode)).index = x.index := fun _ => rfl
          have hinv2 : TreeInv (setWord (setWord s n.index fun x => { x with dependency_relation := "conj", governor := g.index, governor_word := some g.index }) i fun x => { x with dependency_relation := "orphan", governor := n.index, governor_word := some n.index }) :=
            TreeInv_repoint_sibling hforph (fun _ => rfl) (fun _ => rfl) hinv1 hwT1 hnT1
              (by rw [hwg]) (by rw [hwg]; exact hgne0) hni
          have hwT2 : getW (setWord (setWord s n.index fun x => { x with dependency_relation := "conj", governor := g.index, governor_word := some g.index }) i fun x => { x with dependency_relation := "orphan", governor := n.index, governor_word := some n.index }) i = some ({ w with dependency_relation := "orphan", governor := n.index, governor_word := some n.index }) := by
            rw [getW_setWord hforph, if_pos rfl, hwT1, Option.map_some']
          have hnT2 : getW (setWord (setWord s n.index fun x => { x with dependency_relation := "conj", governor := g.index, governor_word := some g.index }) i fun x => { x with dependency_relation := "orphan", governor := n.index, governor_word := some n.index }) n.index = some ({ n with dependency_relation := "conj", governor := g.index, governor_word := some g.index }) := by
            rw [getW_setWord hforph, if_neg (fun he => hni he.symm), hnT1]
          exact TreeInv_conj_flatten hinv2
            (Chain.step hwT2 (Chain.step hnT2 (Chain.refl _))) hne
            (by rw [hwT2]; rfl) h
      · rw [if_neg horph] at h
        exact TreeInv_conj_flatten hinv
          (Chain.step hw (by rw [hwg]; exact Chain.refl _)) hne (by rw [hw]; rfl) h
    | some c =>
      simp only [hcc] at h
      have hcmem := find_governed_mem hcc
      have hcW : getW s c.index = some c := getW_of_mem_nodup hinv.1 hcmem.1
      have hcg : c.governor = g.index := gov_eq_of_govword hcons hcmem.1 hcmem.2.1
      have hci : c.index ≠ i := by
        intro he
        rw [he, hw] at hcW
        injection hcW with he2
        have h5 := hcmem.2.2
        rw [← he2, hrel] at h5
        exact absurd h5 (by decide)
      have hfcc : ∀ x : WordNode, (({ x with governor := i, governor_word := some i } : WordNode)).index = x.index := fun _ => rfl
      have hinv1 : TreeInv (setWord s c.index fun x => { x with governor := i, governor_word := some i }) :=
        TreeInv_repoint_sibling hfcc (fun _ => rfl) (fun _ => rfl) hinv hcW hw
          (by rw [hcg, hwg]) (by rw [hcg]; exact hgne0) hci
      have hwS1 : getW (setWord s c.index fun x => { x with governor := i, governor_word := some i }) i = some w := by
        rw [getW_setWord hfcc, if_neg (fun he => hci he.symm), hw]
      have hgS1 : getW (setWord s c.index fun x => { x with governor := i, governor_word := some i }) g.index = some g := by
        have hcgne : g.index ≠ c.index := by
          have h5 := self_gov_ne hz (reaches_of_getW hinv.2.2.2 hcW) hcW
          rw [hcg] at h5
          exact h5
        rw [getW_setWord hfcc, if_neg hcgne, hgg]
      have hcS1 : getW (setWord s c.index fun x => { x with governor := i, governor_word := some i }) c.index = some ({ c with governor := i, governor_word := some i }) := by
        rw [getW_setWord hfcc, if_pos rfl, hcW, Option.map_some']
      by_cases horph : (g.upos == "VERB" && nominal_pos.contains w.upos) = true
      · rw [if_pos horph] at h
        cases hn : find_governed (setWord s c.index fun x => { x with governor := i, governor_word := some i }) i "nsubj" with
        | none =>
          simp only [hn] at h
          exact TreeInv_conj_flatten hinv1
            (Chain.step hwS1 (by rw [hwg]; exact Chain.refl _)) hne (by rw [hwS1]; rfl) h
        | some n =>
          simp only [hn] at h
          have hz1 := getW_zero_none hinv1.2.1
          have hnmem := find_governed_mem hn
          have hnW : getW (setWord s c.index fun x => { x with governor := i, governor_word := some i }) n.index = some n := getW_of_mem_nodup hinv1.1 hnmem.1
          have hng : n.governor = i := gov_eq_of_govword hinv1.2.1 hnmem.1 hnmem.2.1
          have hni : i ≠ n.index := by
            have h5 := self_gov_ne hz1 (reaches_of_getW hinv1.2.2.2 hnW) hnW
            rw [hng] at h5
            exact h5
          have hcn : c.index ≠ n.index := by
            intro he
            rw [← he] at hnW
            rw [hcS1] at hnW
            injection hnW with he2
            have h5 := hnmem.2.2
            rw [← he2] at h5
            have h6 : c.dependency_relation = "nsubj" := h5
            rw [hcmem.2.2] at h6
            exact absurd h6 (by decide)
          have hfconj : ∀ x : WordNode, (({ x with dependency_relation := "conj", governor := g.index, governor_word := some g.index } : WordNode)).index = x.index := fun _ => rfl
          have hinvT1 : TreeInv (setWord (setWord s c.index fun x => { x with governor := i, governor_word := some i }) n.index fun x => { x with dependency_relation := "conj", governor := g.index, governor_word := some g.index }) :=
            TreeInv_repoint_ancestor hfconj (fun _ => rfl) (fun _ => rfl) hinv1 hnW hgS1
              (by rw [hng]; exact hine0)
              (by rw [hng]; exact Chain.step hwS1 (by rw [hwg]; exact Chain.refl _))
          have hwT1 : getW (setWord (setWord s c.index fun x => { x with governor := i, governor_word := some i }) n.index fun x => { x with dependency_relation := "conj", governor := g.index, governor_word := some g.index }) i = some w := by
            rw [getW_setWord hfconj, if_neg hni, hwS1]
          have hnT1 : getW (setWord (setWord s c.index fun x => { x with governor := i, governor_word := some i }) n.index fun x => { x with dependency_relation := "conj", governor := g.index, governor_word := some g.index }) n.index = some ({ n with dependency_relation := "conj", governor := g.index, governor_word := some g.index }) := by
            rw [getW_setWord hfconj, if_pos rfl, hnW, Option.map_some']
          have hcT1 : getW (setWord (setWord s c.index fun x => { x with governor := i, governor_word := some i }) n.index fun x => { x with dependency_relation := "conj", governor := g.index, governor_word := some g.index }) c.index = some ({ c with governor := i, governor_word := some i }) := by
            rw [getW_setWord hfconj, if_neg hcn, hcS1]
          have hforph : ∀ x : WordNode, (({ x with dependency_relation := "orphan", governor := n.index, governor_word := some n.index } : WordNode)).index = x.index := fun _ => rfl
          have hinvT2 : TreeInv (setWord (setWord (setWord s c.index fun x => { x with governor := i, governor_word := some i }) n.index fun x => { x with dependency_relation := "conj", governor := g.index, governor_word := some g.index }) i fun x => { x with dependency_relation := "orphan", governor := n.index, governor_word := some n.index }) :=
            TreeInv_repoint_sibling hforph (fun _ => rfl) (fun _ => rfl) hinvT1 hwT1 hnT1
              (by rw [hwg]) (by rw [hwg]; exact hgne0) hni
          have hwT2 : getW (setWord (setWord (setWord s c.index fun x => { x with governor := i, governor_word := some i }) n.index fun x => { x with dependency_relation := "conj", governor := g.index, governor_word := some g.index }) i fun x => { x with dependency_relation := "orphan", governor := n.index, governor_word := some n.index }) i = some ({ w with dependency_relation := "orphan", governor := n.index, governor_word := some n.index }) := by
            rw [getW_setWord hforph, if_pos rfl, hwT1, Option.map_some']
          have hnT2 : getW (setWord (setWord (setWord s c.index fun x => { x with governor := i, governor_word := some i }) n.index fun x => { x with dependency_relation := "conj", governor := g.index, governor_word := some g.index }) i fun x => { x with dependency_relation := "orphan", governor := n.index, governor_word := some n.index }) n.index = some ({ n with dependency_relation := "conj", governor := g.index, governor_word := some g.index }) := by
            rw [getW_setWord hforph, if_neg (fun he => hni he.symm), hnT1]
          have hcT2 : getW (setWord (setWord (setWord s c.index fun x => { x with governor := i, governor_word := some i }) n.index fun x => { x with dependency_relation := "conj", governor := g.index, governor_word := some g.index }) i fun x => { x with dependency_relation := "orphan", governor := n.index, governor_word := some n.index }) c.index = some ({ c with governor := i, governor_word := some i }) := by
            rw [getW_setWord hforph, if_neg hci, hcT1]
          have hfcc2 : ∀ x : WordNode, (({ x with governor := n.index, governor_word := some n.index } : WordNode)).index = x.index := fun _ => rfl
          have hinvT3 : TreeInv (setWord (setWord (setWord (setWord s c.index fun x => { x with governor := i, governor_word := some i }) n.index fun x => { x with dependency_relation := "conj", governor := g.index, governor_word := some g.index }) i fun x => { x with dependency_relation := "orphan", governor := n.index, governor_word := some n.index }) c.index fun x => { x with governor := n.index, governor_word := some n.index }) :=
            TreeInv_repoint_ancestor hfcc2 (fun _ => rfl) (fun _ => rfl) hinvT2 hcT2 hnT2
              hine0 (Chain.step hwT2 (Chain.refl _))
          have hwT3 : getW (setWord (setWord (setWord (setWord s c.index fun x => { x with governor := i, governor_word := some i }) n.index fun x => { x with dependency_relation := "conj", governor := g.index, governor_word := some g.index }) i fun x => { x with dependency_relation := "orphan", governor := n.index, governor_word := some n.index }) c.index fun x => { x with governor := n.index, governor_word := some n.index }) i = some ({ w with dependency_relation := "orphan", governor := n.index, governor_word := some n.index }) := by
            rw [getW_setWord hfcc2, if_neg (fun he => hci he.symm), hwT2]
          have hnT3 : getW (setWord (setWord (setWord (setWord s c.index fun x => { x with governor := i, governor_word := some i }) n.index fun x => { x with dependency_relation := "conj", governor := g.index, governor_word := some g.index }) i fun x => { x with dependency_relation := "orphan", governor := n.index, governor_word := some n.index }) c.index fun x => { x with governor := n.index, governor_word := some n.index }) n.index = some ({ n with dependency_relation := "conj", governor := g.index, governor_word := some g.index }) := by
            rw [getW_setWord hfcc2, if_neg (fun he => hcn he.symm), hnT2]
          exact TreeInv_conj_flatten hinvT3
            (Chain.step hwT3 (Chain.step hnT3 (Chain.refl _))) hne
            (by rw [hwT3]; rfl) h
      · rw [if_neg horph] at h
        exact TreeInv_conj_flatten hinv1
          (Chain.step hwS1 (by rw [hwg]; exact Chain.refl _)) hne (by rw [hwS1]; rfl) h

theorem prep_chain_walk_spec {s : Sentence} (hcons : Consistent s) :
    ∀ (fuel : Nat) (x : WordNode) (acc : List WordNode) (hd : WordNode)
      (ps : List WordNode), getW s x.index = some x →
      prep_chain_walk s fuel x acc = .ok (hd, ps) →
      getW s hd.index = some hd ∧
      Chain s x.index hd.index ∧
      ∃ tail, ps = acc ++ tail ∧
        ∀ p ∈ tail, getW s p.index = some p ∧ p.governor ≠ 0 ∧
          Chain s x.index p.index ∧ Chain s p.governor hd.index := by
  intro fuel
  induction fuel with
  | zero =>
    intro x acc hd ps hx hres
    simp only [prep_chain_walk] at hres
    exact Except.noConfusion hres
  | succ fuel ih =>
    intro x acc hd ps hx hres
    unfold prep_chain_walk at hres
    by_cases hpr : (x.dependency_relation == "prep") = true
    · rw [if_pos hpr] at hres
      cases hgw : x.governor_word with
      | none =>
        simp only [hgw] at hres
        exact Except.noConfusion hres
      | some gi =>
        simp only [hgw] at hres
        cases hg2 : getW s gi with
        | none =>
          simp only [hg2] at hres
          exact Except.noConfusion hres
        | some x2 =>
          simp only [hg2] at hres
          have hx2 : getW s x2.index = some x2 := by
            rw [getW_eq_some_index hg2]
            exact hg2
          have hxg : x.governor = gi := gov_eq_of_govword hcons (getW_eq_some_mem hx) hgw
          have hgi0 : gi ≠ 0 := by
            have h5 := (hcons x2 (getW_eq_some_mem hg2)).1
            rwa [getW_eq_some_index hg2] at h5
          obtain ⟨hh, hchain2, tail2, hps, htail⟩ := ih x2 (acc ++ [x]) hd ps hx2 hres
          have hstep : Chain s x.index x2.index :=
            Chain.step hx (by rw [hxg, getW_eq_some_index hg2]; exact Chain.refl _)
          refine ⟨hh, chain_trans hstep hchain2, [x] ++ tail2, ?_, ?_⟩
          · rw [hps, List.append_assoc]
          · intro p hp
            rcases List.mem_cons.mp hp with h5 | h5
            · subst h5
              refine ⟨hx, by rw [hxg]; exact hgi0, Chain.refl _, ?_⟩
              rw [hxg, ← getW_eq_some_index hg2]
              exact hchain2
            · obtain ⟨hpW, hpnz, hpc, hph⟩ := htail p h5
              exact ⟨hpW, hpnz, chain_trans hstep hpc, hph⟩
    · rw [if_neg hpr] at hres
      injection hres with he
      have hhx : hd = x := (congrArg Prod.fst he).symm
      have hacc : ps = acc := (congrArg Prod.snd he).symm
      subst hhx hacc
      exact ⟨hx, Chain.refl _, [], by simp, by simp⟩

theorem prep_chain_spec {s : Sentence} (hinv : TreeInv s) {w : WordNode} {i : Nat}
    (hw : getW s i = some w) {gOpt : Option Nat} {preps : List WordNode}
    (hres : prep_chain s w = .ok (gOpt, preps)) :
    ∀ gi, gOpt = some gi → ∃ hnode, getW s gi = some hnode ∧
      Chain s i gi ∧ i ≠ gi ∧
      ∀ p ∈ preps, getW s p.index = some p ∧ p.governor ≠ 0 ∧
        i ≠ p.index ∧ Chain s p.governor gi := by
  have hcons := hinv.2.1
  have hz := getW_zero_none hcons
  have hacyc := hinv.2.2.2
  unfold prep_chain at hres
  cases hgw : w.governor_word with
  | none =>
    simp only [hgw] at hres
    exact Except.noConfusion hres
  | some xi =>
    simp only [hgw] at hres
    cases hgx : getW s xi with
    | none =>
      simp only [hgx] at hres
      exact Except.noConfusion hres
    | some x =>
      simp only [hgx] at hres
      have hwg : w.governor = xi := gov_eq_of_govword hcons (getW_eq_some_mem hw) hgw
      have hxW : getW s x.index = some x := by
        rw [getW_eq_some_index hgx]
        exact hgx
      have hchainIX : Chain s w.governor x.index := by
        rw [hwg, getW_eq_some_index hgx]
        exact Chain.refl _
      by_cases hio : (x.dependency_relation == "iobj"
          || x.dependency_relation == "agent") = true
      · rw [if_pos hio] at hres
        injection hres with he
        have h1 : gOpt = x.governor_word := (congrArg Prod.fst he).symm
        have h2 : preps = [x] := (congrArg Prod.snd he).symm
        intro gi hgi
        rw [h1] at hgi
        have hxgov : x.governor = gi := gov_eq_of_govword hcons (getW_eq_some_mem hxW) hgi
        have hxgnz : x.governor ≠ 0 := by
          intro h0
          have h5 := (hcons x (getW_eq_some_mem hxW)).2.1 h0
          rw [h5] at hgi
          exact Option.noConfusion hgi
        have hsome := ((hcons x (getW_eq_some_mem hxW)).2.2 hxgnz).2
        rw [hxgov] at hsome
        obtain ⟨hnode, hhn⟩ := Option.isSome_iff_exists.mp hsome
        have hchgi : Chain s w.governor gi :=
          chain_trans hchainIX (Chain.step hxW (by rw [hxgov]; exact Chain.refl _))
        refine ⟨hnode, hhn, Chain.step hw hchgi,
          ne_of_gov_chain hz (reaches_of_getW hacyc hw) hw hchgi, ?_⟩
        intro p hp
        rw [h2] at hp
        rcases List.mem_cons.mp hp with h5 | h5
        · subst h5
          exact ⟨hxW, hxgnz, ne_of_gov_chain hz (reaches_of_getW hacyc hw) hw hchainIX,
            by rw [hxgov]; exact Chain.refl _⟩
        · cases h5
      · rw [if_neg hio] at hres
        cases hwalk : prep_chain_walk s (s.length + 1) x [] with
        | error e =>
          simp only [hwalk] at hres
          exact Except.noConfusion hres
        | ok pr =>
          simp only [hwalk] at hres
          injection hres with he
          have h1 : gOpt = some pr.1.index := (congrArg Prod.fst he).symm
          have h2 : preps = pr.2 := (congrArg Prod.snd he).symm
          obtain ⟨hh, hchainXH, tail, hps, htail⟩ :=
            prep_chain_walk_spec hcons (s.length + 1) x [] pr.1 pr.2 hxW hwalk
          intro gi hgi
          rw [h1] at hgi
          injection hgi with hgi2
          have hchainWH : Chain s w.governor pr.1.index :=
            chain_trans hchainIX hchainXH
          refine ⟨pr.1, by rw [← hgi2]; exact hh, by rw [← hgi2]; exact Chain.step hw hchainWH, by rw [← hgi2]; exact ne_of_gov_chain hz (reaches_of_getW hacyc hw) hw hchainWH, ?_⟩
          intro p hp
          rw [h2, hps] at hp
          simp only [List.nil_append] at hp
          obtain ⟨hpW, hpnz, hpcix, hph⟩ := htail p hp
          have hchainWP : Chain s w.governor p.index := chain_trans hchainIX hpcix
          exact ⟨hpW, hpnz, ne_of_gov_chain hz (reaches_of_getW hacyc hw) hw hchainWP,
            by rw [← hgi2]; exact hph⟩

theorem TreeInv_pobj_loop {i : Nat} :
    ∀ (preps : List WordNode) (sc : Sentence) (wi : WordNode),
      TreeInv sc → getW sc i = some wi →
      (∀ p ∈ preps, (∃ u, getW sc p.index = some u ∧ u.governor ≠ 0) ∧
        p.index ≠ i ∧ wi.governor_word ≠ some p.index ∧ ¬ Chain sc i p.index) →
      TreeInv (pobj_prep_loop i sc preps) := by
  intro preps
  induction preps with
  | nil =>
    intro sc wi hinv _ _
    exact hinv
  | cons p rest ih =>
    intro sc wi hinv hwi hfacts
    have hcons := hinv.2.1
    have hz := getW_zero_none hcons
    obtain ⟨⟨u, hu, hugnz⟩, hpi, hpw, hpnc⟩ := hfacts p (List.mem_cons_self _ _)
    have hione0 : i ≠ 0 := by
      have h5 := (hcons wi (getW_eq_some_mem hwi)).1
      rwa [getW_eq_some_index hwi] at h5
    have hfcase : ∀ x : WordNode, (({ x with governor := i, governor_word := some i, dependency_relation := "case" } : WordNode)).index = x.index := fun _ => rfl
    have hinv1 : TreeInv (setWord sc p.index fun x => { x with governor := i, governor_word := some i, dependency_relation := "case" }) := by
      apply TreeInv_repoint (fun a => a = p.index) hinv hwi
        (map_index_setWord hfcase sc p.index) ?_ ?_ ?_
      · rintro a rfl
        exact ⟨u, { u with governor := i, governor_word := some i, dependency_relation := "case" }, hu, hugnz, by rw [getW_setWord hfcase, if_pos rfl, hu, Option.map_some'], rfl, rfl⟩
      · intro j hA w' hw'
        rw [getW_setWord hfcase, if_neg hA] at hw'
        exact ⟨w', hw', rfl, rfl⟩
      · rintro a rfl
        exact hpnc
    have hwi1 : getW (setWord sc p.index fun x => { x with governor := i, governor_word := some i, dependency_relation := "case" }) i = some wi := by
      rw [getW_setWord hfcase, if_neg (fun he => hpi he.symm), hwi]
    have htrans1 : ∀ z, ¬ Chain sc i z → ¬ Chain (setWord sc p.index fun x => { x with governor := i, governor_word := some i, dependency_relation := "case" }) i z := by
      intro z hzc hc
      apply hzc
      apply chain_transfer_back hc
      intro y hcy
      have hyne : ¬ y = p.index := fun he => hpnc (he ▸ hcy)
      rw [getW_setWord hfcase, if_neg hyne]
    cases hadv : find_governed (setWord sc p.index fun x => { x with governor := i, governor_word := some i, dependency_relation := "case" }) p.index "advmod" with
    | none =>
      simp only [pobj_prep_loop, hadv]
      apply ih _ wi hinv1 hwi1
      intro q hq
      obtain ⟨⟨u2, hu2, hu2g⟩, hqi, hqw, hqnc⟩ := hfacts q (List.mem_cons_of_mem _ hq)
      refine ⟨?_, hqi, hqw, htrans1 _ hqnc⟩
      by_cases hqp : q.index = p.index
      · refine ⟨{ u with governor := i, governor_word := some i, dependency_relation := "case" }, ?_, hione0⟩
        rw [hqp, getW_setWord hfcase, if_pos rfl, hu, Option.map_some']
      · exact ⟨u2, by rw [getW_setWord hfcase, if_neg hqp]; exact hu2, hu2g⟩
    | some adv =>
      have hadvmem := find_governed_mem hadv
      have hadvW : getW (setWord sc p.index fun x => { x with governor := i, governor_word := some i, dependency_relation := "case" }) adv.index = some adv :=
        getW_of_mem_nodup hinv1.1 hadvmem.1
      have hadvg : adv.governor = p.index :=
        gov_eq_of_govword hinv1.2.1 hadvmem.1 hadvmem.2.1
      have hpne0 : p.index ≠ 0 := by
        have h5 := (hcons u (getW_eq_some_mem hu)).1
        rwa [getW_eq_some_index hu] at h5
      have hadvne : adv.index ≠ i := by
        intro he
        rw [he, hwi1] at hadvW
        injection hadvW with he2
        exact hpw (he2.symm ▸ hadvmem.2.1)
      have hNCadv : ¬ Chain (setWord sc p.index fun x => { x with governor := i, governor_word := some i, dependency_relation := "case" }) i adv.index := by
        intro hc
        have h6 := chain_snoc hc hadvW
        rw [hadvg] at h6
        exact htrans1 p.index hpnc h6
      have hfadv : ∀ x : WordNode, (({ x with governor := i, governor_word := some i } : WordNode)).index = x.index := fun _ => rfl
      have hinv2 : TreeInv (setWord (setWord sc p.index fun x => { x with governor := i, governor_word := some i, dependency_relation := "case" }) adv.index fun x => { x with governor := i, governor_word := some i }) := by
        apply TreeInv_repoint (fun a => a = adv.index) hinv1 hwi1
          (map_index_setWord hfadv _ adv.index) ?_ ?_ ?_
        · rintro a rfl
          exact ⟨adv, { adv with governor := i, governor_word := some i }, hadvW, by rw [hadvg]; exact hpne0, by rw [getW_setWord hfadv, if_pos rfl, hadvW, Option.map_some'], rfl, rfl⟩
        · intro j hA w' hw'
          rw [getW_setWord hfadv, if_neg hA] at hw'
          exact ⟨w', hw', rfl, rfl⟩
        · rintro a rfl
          exact hNCadv
      have hwi2 : getW (setWord (setWord sc p.index fun x => { x with governor := i, governor_word := some i, dependency_relation := "case" }) adv.index fun x => { x with governor := i, governor_word := some i }) i = some wi := by
        rw [getW_setWord hfadv, if_neg (fun he => hadvne he.symm), hwi1]
      have htrans2 : ∀ z, ¬ Chain (setWord sc p.index fun x => { x with governor := i, governor_word := some i, dependency_relation := "case" }) i z → ¬ Chain (setWord (setWord sc p.index fun x => { x with governor := i, governor_word := some i, dependency_relation := "case" }) adv.index fun x => { x with governor := i, governor_word := some i }) i z := by
        intro z hzc hc
        apply hzc
        apply chain_transfer_back hc
        intro y hcy
        have hyne : ¬ y = adv.index := fun he => hNCadv (he ▸ hcy)
        rw [getW_setWord hfadv, if_neg hyne]
      simp only [pobj_prep_loop, hadv]
      apply ih _ wi hinv2 hwi2
      intro q hq
      obtain ⟨⟨u2, hu2, hu2g⟩, hqi, hqw, hqnc⟩ := hfacts q (List.mem_cons_of_mem _ hq)
      refine ⟨?_, hqi, hqw, htrans2 _ (htrans1 _ hqnc)⟩
      by_cases hqa : q.index = adv.index
      · refine ⟨{ adv with governor := i, governor_word := some i }, ?_, hione0⟩
        rw [hqa, getW_setWord hfadv, if_pos rfl, hadvW, Option.map_some']
      · by_cases hqp : q.index = p.index
        · refine ⟨{ u with governor := i, governor_word := some i, dependency_relation := "case" }, ?_, hione0⟩
          rw [getW_setWord hfadv, if_neg hqa, hqp, getW_setWord hfcase, if_pos rfl, hu,
            Option.map_some']
        · refine ⟨u2, ?_, hu2g⟩
          rw [getW_setWord hfadv, if_neg hqa, getW_setWord hfcase, if_neg hqp]
          exact hu2

theorem TreeInv_pobj_relabel_loop {s : Sentence} {i : Nat} {w gnode : WordNode}
    {gi : Nat} {r : String} {preps : List WordNode}
    (hinv : TreeInv s) (hw : getW s i = some w) (hgW : getW s gi = some gnode)
    (hch : Chain s i gi) (hne : i ≠ gi)
    (hpf : ∀ p ∈ preps, getW s p.index = some p ∧ p.governor ≠ 0 ∧
      i ≠ p.index ∧ Chain s p.governor gi) :
    TreeInv (pobj_prep_loop i (setWord s i fun x => { x with dependency_relation := r, governor := gi, governor_word := some gi }) preps) := by
  have hcons := hinv.2.1
  have hz := getW_zero_none hcons
  have hgne0 : gi ≠ 0 := by
    have h5 := (hcons gnode (getW_eq_some_mem hgW)).1
    rwa [getW_eq_some_index hgW] at h5
  have hc3 : Chain s w.governor gi := by
    cases hch with
    | refl => exact absurd rfl hne
    | step hg3 hc3 =>
      rw [hw] at hg3
      injection hg3 with he
      rw [he]
      exact hc3
  have hwgnz : w.governor ≠ 0 := by
    intro h0
    rw [h0] at hc3
    cases hc3 with
    | refl => exact hgne0 rfl
    | step hg4 _ =>
      rw [hz] at hg4
      exact Option.noConfusion hg4
  have hNCgi : ¬ Chain s gi i :=
    fun hc => chain_mutual_false hz (reaches_of_getW hinv.2.2.2 hw) hw hc3 hc
  have hfr : ∀ x : WordNode, (({ x with dependency_relation := r, governor := gi, governor_word := some gi } : WordNode)).index = x.index := fun _ => rfl
  have hinv1 : TreeInv (setWord s i fun x => { x with dependency_relation := r, governor := gi, governor_word := some gi }) :=
    TreeInv_repoint_ancestor hfr (fun _ => rfl) (fun _ => rfl) hinv hw hgW hwgnz hc3
  have hwi1 : getW (setWord s i fun x => { x with dependency_relation := r, governor := gi, governor_word := some gi }) i = some ({ w with dependency_relation := r, governor := gi, governor_word := some gi }) := by
    rw [getW_setWord hfr, if_pos rfl, hw, Option.map_some']
  apply TreeInv_pobj_loop preps _ _ hinv1 hwi1
  intro p hp
  obtain ⟨hpW, hpnz, hpi, hpc⟩ := hpf p hp
  have hpig : p.index ≠ gi := by
    intro he
    refine no_loop_strict hz (reaches_of_getW hinv.2.2.2 hpW) p hpW ?_
    rw [he]
    exact hpc
  refine ⟨⟨p, ?_, hpnz⟩, fun he2 => hpi he2.symm, ?_, ?_⟩
  · rw [getW_setWord hfr, if_neg (fun he2 => hpi he2.symm)]
    exact hpW
  · intro he2
    have he3 : some gi = some p.index := he2
    exact hpig (Option.some.inj he3).symm
  · intro hc
    cases hc with
    | refl => exact hpi rfl
    | step hg3 hc3b =>
      rw [hwi1] at hg3
      injection hg3 with he3
      rw [← he3] at hc3b
      have hc4 : Chain (setWord s i fun x => { x with dependency_relation := r, governor := gi, governor_word := some gi }) gi p.index := hc3b
      have hc5 : Chain s gi p.index := by
        apply chain_transfer_back hc4
        intro y hcy
        have hyne : ¬ y = i := fun he4 => hNCgi (he4 ▸ hcy)
        rw [getW_setWord hfr, if_neg hyne]
      exact no_loop_strict hz (reaches_of_getW hinv.2.2.2 hpW) p hpW (chain_trans hpc hc5)

theorem TreeInv_pobj_copula_loop {s : Sentence} {i : Nat} {w g : WordNode}
    {preps : List WordNode}
    (hinv : TreeInv s) (hw : getW s i = some w) (hgW : getW s g.index = some g)
    (hch : Chain s i g.index) (hne : i ≠ g.index)
    (hpf : ∀ p ∈ preps, getW s p.index = some p ∧ p.governor ≠ 0 ∧
      i ≠ p.index ∧ Chain s p.governor g.index) :
    TreeInv (pobj_prep_loop i (make_copula_apply s i g.index).2 preps) := by
  obtain ⟨_, hHeq, hBeq, hOeq⟩ := make_copula_apply_spec s i g.index g hgW hne
  have hcons := hinv.2.1
  have hz := getW_zero_none hcons
  have hinv1 : TreeInv (make_copula_apply s i g.index).2 :=
    TreeInv_make_copula_apply hinv hw hgW hch hne
  have hione0 : i ≠ 0 := by
    have h5 := (hcons w (getW_eq_some_mem hw)).1
    rwa [getW_eq_some_index hw] at h5
  have hwi1 : getW (make_copula_apply s i g.index).2 i = some ({ w with governor := g.governor, governor_word := g.governor_word, dependency_relation := g.dependency_relation }) := by
    rw [hHeq, hw, Option.map_some']
  have hNC_g : ¬ Chain s g.governor i := fun hc =>
    no_loop_strict hz (reaches_of_getW hinv.2.2.2 hgW) g hgW (chain_trans hc hch)
  have hNC_gg : ¬ Chain s g.governor g.index := fun hc =>
    no_loop_strict hz (reaches_of_getW hinv.2.2.2 hgW) g hgW hc
  have Hgov : ∀ y, Chain s g.governor y →
      (getW (make_copula_apply s i g.index).2 y).map WordNode.governor =
        (getW s y).map WordNode.governor := by
    intro y hcy
    have hyi : y ≠ i := fun he => hNC_g (he ▸ hcy)
    have hyg : y ≠ g.index := fun he => hNC_gg (he ▸ hcy)
    cases hgy : getW s y with
    | none =>
      have hs := getW_isSome_of_map_index (map_index_make_copula_apply s i g.index) y
      rw [hgy] at hs
      cases hgy2 : getW (make_copula_apply s i g.index).2 y with
      | none => rfl
      | some w2 =>
        rw [hgy2] at hs
        exact absurd hs (by simp)
    | some u =>
      have heq := hOeq y u hyi hyg hgy
      cases hcond : (u.governor_word == some g.index
          && redirect_rels.contains u.dependency_relation) with
      | true =>
        have hgwu : u.governor_word = some g.index :=
          beq_iff_eq.mp ((Bool.and_eq_true _ _).mp hcond).1
        have hgu : u.governor = g.index :=
          gov_eq_of_govword hcons (getW_eq_some_mem hgy) hgwu
        have h6 := chain_snoc hcy hgy
        rw [hgu] at h6
        exact absurd h6 hNC_gg
      | false =>
        rw [heq, hcond, if_neg (by simp)]
  apply TreeInv_pobj_loop preps _ _ hinv1 hwi1
  intro p hp
  obtain ⟨hpW, hpnz, hpi, hpc⟩ := hpf p hp
  have hpig : p.index ≠ g.index := by
    intro he
    refine no_loop_strict hz (reaches_of_getW hinv.2.2.2 hpW) p hpW ?_
    rw [he]
    exact hpc
  have hgovp_ne : g.governor ≠ p.index := by
    intro he
    have h7 : Chain s p.index g.index := Chain.step hpW hpc
    refine no_loop_strict hz (reaches_of_getW hinv.2.2.2 hgW) g hgW ?_
    rw [he]
    exact h7
  refine ⟨?_, fun he => hpi he.symm, ?_, ?_⟩
  · have heq := hOeq p.index p (fun he => hpi he.symm) hpig hpW
    cases hcond : (p.governor_word == some g.index
        && redirect_rels.contains p.dependency_relation) with
    | true =>
      have hif : (if (p.governor_word == some g.index
          && redirect_rels.contains p.dependency_relation) = true
          then { p with governor := i, governor_word := some i } else p)
          = { p with governor := i, governor_word := some i } := if_pos hcond
      exact ⟨{ p with governor := i, governor_word := some i },
        heq.trans (congrArg some hif), hione0⟩
    | false =>
      refine ⟨p, ?_, hpnz⟩
      rw [heq, hcond, if_neg (by simp)]
  · intro he
    have hgg : g.governor_word = some p.index := he
    exact hgovp_ne (gov_eq_of_govword hcons (getW_eq_some_mem hgW) hgg)
  · intro hc
    cases hc with
    | refl => exact hpi rfl
    | step hg3 hc3b =>
      rw [hwi1] at hg3
      injection hg3 with he3
      rw [← he3] at hc3b
      have hc4 : Chain (make_copula_apply s i g.index).2 g.governor p.index := hc3b
      have hc5 : Chain s g.governor p.index := chain_transfer_back hc4 Hgov
      have h9 : Chain s g.index p.index := Chain.step hgW hc5
      exact no_loop_strict hz (reaches_of_getW hinv.2.2.2 hpW) p hpW (chain_trans hpc h9)

theorem TreeInv_pobj_relabel {s s' : Sentence} {i : Nat} {d : List String}
    {w g : WordNode} {preps : List WordNode}
    (hinv : TreeInv s) (hw : getW s i = some w) (hgW : getW s g.index = some g)
    (hch : Chain s i g.index) (hne : i ≠ g.index)
    (hpf : ∀ p ∈ preps, getW s p.index = some p ∧ p.governor ≠ 0 ∧
      i ≠ p.index ∧ Chain s p.governor g.index)
    (h : pobj_relabel s i w g preps = .ok (s', d)) : TreeInv s' := by
  unfold pobj_relabel at h
  cases preps with
  | nil =>
    dsimp only at h
    rw [← rr_ok_sentence h]
    exact hinv
  | cons p rest =>
    dsimp only at h
    by_cases hp1 : (p.dependency_relation == "prep") = true
    · rw [if_pos hp1] at h
      rw [← rr_ok_sentence h]
      exact TreeInv_pobj_relabel_loop hinv hw hgW hch hne hpf
    · rw [if_neg hp1] at h
      by_cases hp2 : (p.dependency_relation == "iobj") = true
      · rw [if_pos hp2] at h
        rw [← rr_ok_sentence h]
        exact TreeInv_pobj_relabel_loop hinv hw hgW hch hne hpf
      · rw [if_neg hp2] at h
        by_cases hp3 : (p.dependency_relation == "agent") = true
        · rw [if_pos hp3] at h
          rw [← rr_ok_sentence h]
          exact TreeInv_pobj_relabel_loop hinv hw hgW hch hne hpf
        · rw [if_neg hp3] at h
          rw [← rr_ok_sentence h]
          exact hinv

theorem TreeInv_pobj_to_ud {s s' : Sentence} {i : Nat} {d : List String}
    (hinv : TreeInv s) (h : pobj_to_ud s i = .ok (s', d)) : TreeInv s' := by
  unfold pobj_to_ud at h
  cases hw : getW s i with
  | none =>
    simp only [hw] at h
    rw [← rr_ok_sentence h]
    exact hinv
  | some w =>
    simp only [hw] at h
    cases hpc : prep_chain s w with
    | error e =>
      simp only [hpc] at h
      exact Except.noConfusion h
    | ok pr =>
      simp only [hpc] at h
      obtain ⟨gOpt, preps⟩ := pr
      dsimp only at h
      by_cases hemp : (preps.isEmpty) = true
      · rw [if_pos hemp] at h
        rw [← rr_ok_sentence h]
        exact hinv
      · rw [if_neg hemp] at h
        cases gOpt with
        | none =>
          dsimp only at h
          exact Except.noConfusion h
        | some gi =>
          dsimp only at h
          cases hgW : getW s gi with
          | none =>
            simp only [hgW] at h
            exact Except.noConfusion h
          | some g =>
            simp only [hgW] at h
            obtain ⟨hnode, hhn, hchIG, hneIG, hpf⟩ := prep_chain_spec hinv hw hpc gi rfl
            have hgidx : g.index = gi := getW_eq_some_index hgW
            have hgW2 : getW s g.index = some g := by rw [hgidx]; exact hgW
            have hch2 : Chain s i g.index := by rw [hgidx]; exact hchIG
            have hne2 : i ≠ g.index := by rw [hgidx]; exact hneIG
            have hpf2 : ∀ p ∈ preps, getW s p.index = some p ∧ p.governor ≠ 0 ∧
                i ≠ p.index ∧ Chain s p.governor g.index := by
              intro p hp
              obtain ⟨a, b, c2, d2⟩ := hpf p hp
              exact ⟨a, b, c2, by rw [hgidx]; exact d2⟩
            by_cases hbe : (g.«lemma» == "be") = true
            · rw [if_pos hbe] at h
              cases hmc : make_copula s i g.index with
              | mk fst snd =>
                simp only [hmc] at h
                cases fst with
                | true =>
                  dsimp only at h
                  rw [← rr_ok_sentence h]
                  unfold make_copula at hmc
                  cases hfg : find_governed s g.index "expl" with
                  | some e =>
                    simp only [hfg] at hmc
                    by_cases hth : (e.«lemma» == "there") = true
                    · rw [if_pos hth] at hmc
                      injection hmc with h1 h2
                      exact Bool.noConfusion h1
                    · rw [if_neg hth] at hmc
                      have hsnd : snd = (make_copula_apply s i g.index).2 :=
                        (congrArg Prod.snd hmc).symm
                      rw [hsnd]
                      exact TreeInv_pobj_copula_loop hinv hw hgW2 hch2 hne2 hpf2
                  | none =>
                    simp only [hfg] at hmc
                    have hsnd : snd = (make_copula_apply s i g.index).2 :=
                      (congrArg Prod.snd hmc).symm
                    rw [hsnd]
                    exact TreeInv_pobj_copula_loop hinv hw hgW2 hch2 hne2 hpf2
                | false =>
                  dsimp only at h
                  exact TreeInv_pobj_relabel hinv hw hgW2 hch2 hne2 hpf2 h
            · rw [if_neg hbe] at h
              exact TreeInv_pobj_relabel hinv hw hgW2 hch2 hne2 hpf2 h

theorem TreeInv_redirect_child {s : Sentence} {fromI toI : Nat} {wt : WordNode}
    (hinv : TreeInv s) (ht : getW s toI = some wt) (htg : wt.governor = fromI) :
    TreeInv (redirect_dependants s fromI toI) := by
  have hcons := hinv.2.1
  have hz := getW_zero_none hcons
  apply TreeInv_repoint
    (fun a => a ≠ fromI ∧ a ≠ toI ∧ ∃ u, getW s a = some u ∧
      (u.governor_word == some fromI
        && redirect_rels.contains u.dependency_relation) = true)
    hinv ht (map_index_redirect s fromI toI)
  · rintro a ⟨haf, hat, u, hu, hcond⟩
    have hju := getW_eq_some_index hu
    have h1 : (u.index == fromI) = false := by
      rw [hju]; exact beq_eq_false_iff_ne.mpr haf
    have h2 : (u.index == toI) = false := by
      rw [hju]; exact beq_eq_false_iff_ne.mpr hat
    have hgwu : u.governor_word = some fromI :=
      beq_iff_eq.mp ((Bool.and_eq_true _ _).mp hcond).1
    have hgu : u.governor = fromI := gov_eq_of_govword hcons (getW_eq_some_mem hu) hgwu
    have hugnz : u.governor ≠ 0 := by
      intro h0
      have h5 := (hcons u (getW_eq_some_mem hu)).2.1 h0
      rw [h5] at hgwu
      exact Option.noConfusion hgwu
    refine ⟨u, { u with governor := toI, governor_word := some toI }, hu,
      hugnz, ?_, rfl, rfl⟩
    rw [getW_redirect, hu, Option.map_some', redirectF_moved h1 h2 hcond]
  · intro j hA w' hw'
    rw [getW_redirect] at hw'
    cases hu : getW s j with
    | none =>
      rw [hu] at hw'
      simp at hw'
    | some u =>
      rw [hu, Option.map_some'] at hw'
      injection hw' with he
      have hju := getW_eq_some_index hu
      by_cases hj1 : (u.index == fromI || u.index == toI) = true
      · rw [redirectF_id_of_self hj1] at he
        exact ⟨u, rfl, by rw [← he], by rw [← he]⟩
      · have h1 : (u.index == fromI) = false := by
          cases hx : (u.index == fromI) with
          | false => rfl
          | true => exact absurd (by simp [hx]) hj1
        have h2 : (u.index == toI) = false := by
          cases hx : (u.index == toI) with
          | false => rfl
          | true => exact absurd (by simp [hx]) hj1
        cases hcond : (u.governor_word == some fromI
            && redirect_rels.contains u.dependency_relation) with
        | true =>
          have hjf : j ≠ fromI := by rw [← hju]; exact beq_eq_false_iff_ne.mp h1
          have hjt : j ≠ toI := by rw [← hju]; exact beq_eq_false_iff_ne.mp h2
          exact absurd ⟨hjf, hjt, u, hu, hcond⟩ hA
        | false =>
          rw [redirectF_keep h1 h2 hcond] at he
          exact ⟨u, rfl, by rw [← he], by rw [← he]⟩
  · rintro a ⟨haf, hat, u, hu, hcond⟩ hchain
    have hgwu : u.governor_word = some fromI :=
      beq_iff_eq.mp ((Bool.and_eq_true _ _).mp hcond).1
    have hgu : u.governor = fromI := gov_eq_of_govword hcons (getW_eq_some_mem hu) hgwu
    cases hchain with
    | refl => exact hat rfl
    | step hg3 hc3 =>
      rw [ht] at hg3
      injection hg3 with he3
      subst he3
      rw [htg] at hc3
      refine no_loop_strict hz (reaches_of_getW hinv.2.2.2 hu) u hu ?_
      rw [hgu]
      exact hc3

theorem TreeInv_pcomp_to_ud {s s' : Sentence} {i : Nat} {d : List String}
    (hinv : TreeInv s) (h : pcomp_to_ud s i = .ok (s', d)) : TreeInv s' := by
  have hcons := hinv.2.1
  have hz := getW_zero_none hcons
  unfold pcomp_to_ud at h
  cases hw : getW s i with
  | none =>
    simp only [hw] at h
    rw [← rr_ok_sentence h]
    exact hinv
  | some w =>
    simp only [hw] at h
    cases hgwpi : w.governor_word with
    | none =>
      simp only [hgwpi] at h
      exact Except.noConfusion h
    | some pi =>
      simp only [hgwpi] at h
      cases hprepW0 : getW s pi with
      | none =>
        simp only [hprepW0] at h
        exact Except.noConfusion h
      | some prep =>
        simp only [hprepW0] at h
        by_cases hadp : (w.upos == "ADP" && prep.upos == "SCONJ") = true
        · rw [if_pos hadp] at h
          rw [← rr_ok_sentence h]
          exact TreeInv_relabel hinv
        · rw [if_neg hadp] at h
          by_cases hnp : (prep.dependency_relation != "prep") = true
          · rw [if_pos hnp] at h
            cases hpgw2 : prep.governor_word with
            | none =>
              simp only [hpgw2] at h
              exact Except.noConfusion h
            | some gi2 =>
              simp only [hpgw2] at h
              cases hgW2x : getW s gi2 with
              | none =>
                simp only [hgW2x] at h
                exact Except.noConfusion h
              | some g2 =>
                simp only [hgW2x] at h
                rw [← rr_ok_sentence h]
                exact hinv
          · rw [if_neg hnp] at h
            have hprep : prep.dependency_relation = "prep" := by simpa using hnp
            cases hpgw : prep.governor_word with
            | none =>
              simp only [hpgw] at h
              exact Except.noConfusion h
            | some gi =>
              simp only [hpgw] at h
              cases hgW : getW s gi with
              | none =>
                simp only [hgW] at h
                exact Except.noConfusion h
              | some g =>
                simp only [hgW] at h
                rw [← rr_ok_sentence h]
                obtain ⟨hwg, hchIP, hneIP⟩ := gov_facts hinv hw hgwpi
                obtain ⟨hpg, hchPG, hnePG⟩ := gov_facts hinv hprepW0 hpgw
                have hgidx : g.index = gi := getW_eq_some_index hgW
                have hgW2 : getW s g.index = some g := by rw [hgidx]; exact hgW
                have hchPG2 : Chain s pi g.index := by rw [hgidx]; exact hchPG
                have hchIG : Chain s i g.index := chain_trans hchIP hchPG2
                have hwchainG : Chain s w.governor g.index := by
                  rw [hwg]; exact hchPG2
                have hneIG : i ≠ g.index :=
                  ne_of_gov_chain hz (reaches_of_getW hinv.2.2.2 hw) hw hwchainG
                have hpiG : pi ≠ g.index := by rw [hgidx]; exact hnePG
                have hpine0 : pi ≠ 0 := by
                  have h5 := (hcons prep (getW_eq_some_mem hprepW0)).1
                  rwa [getW_eq_some_index hprepW0] at h5
                have hgne0 : g.index ≠ 0 := by
                  have h5 := (hcons g (getW_eq_some_mem hgW2)).1
                  exact h5
                by_cases hbe : (g.«lemma» == "be") = true
                · rw [if_pos hbe]
                  have hsucc : TreeInv (redirect_dependants (setWord (make_copula_apply s i g.index).2 pi fun x => { x with dependency_relation := if prep.upos == "SCONJ" then "mark" else "case" }) pi i) := by
                    have happly := TreeInv_make_copula_apply hinv hw hgW2 hchIG hneIG
                    obtain ⟨_, hHeq, hBeq, hOeq⟩ :=
                      make_copula_apply_spec s i g.index g hgW2 hneIG
                    have hcont : redirect_rels.contains "prep" = true := by decide
                    have hcond : (prep.governor_word == some g.index
                        && redirect_rels.contains prep.dependency_relation) = true := by
                      rw [hpgw, hgidx, hprep, hcont]
                      simp
                    have heqpi := hOeq pi prep (fun he => hneIP he.symm) hpiG hprepW0
                    have hif : (if (prep.governor_word == some g.index
                        && redirect_rels.contains prep.dependency_relation) = true
                        then { prep with governor := i, governor_word := some i }
                        else prep)
                        = { prep with governor := i, governor_word := some i } :=
                      if_pos hcond
                    have hpi1 : getW (make_copula_apply s i g.index).2 pi =
                        some ({ prep with governor := i, governor_word := some i }) :=
                      heqpi.trans (congrArg some hif)
                    have hfrel : ∀ x : WordNode, (({ x with dependency_relation := if prep.upos == "SCONJ" then "mark" else "case" } : WordNode)).index = x.index := fun _ => rfl
                    have hinv2 : TreeInv (setWord (make_copula_apply s i g.index).2 pi fun x => { x with dependency_relation := if prep.upos == "SCONJ" then "mark" else "case" }) :=
                      TreeInv_relabel happly
                    have hpi2 : getW (setWord (make_copula_apply s i g.index).2 pi fun x => { x with dependency_relation := if prep.upos == "SCONJ" then "mark" else "case" }) pi = some ({ { prep with governor := i, governor_word := some i } with dependency_relation := if prep.upos == "SCONJ" then "mark" else "case" }) := by
                      rw [getW_setWord hfrel, if_pos rfl, hpi1, Option.map_some']
                    have hwi1 : getW (make_copula_apply s i g.index).2 i =
                        some ({ w with governor := g.governor, governor_word := g.governor_word, dependency_relation := g.dependency_relation }) := by
                      rw [hHeq, hw, Option.map_some']
                    have hti2 : getW (setWord (make_copula_apply s i g.index).2 pi fun x => { x with dependency_relation := if prep.upos == "SCONJ" then "mark" else "case" }) i = some ({ w with governor := g.governor, governor_word := g.governor_word, dependency_relation := g.dependency_relation }) := by
                      rw [getW_setWord hfrel, if_neg hneIP, hwi1]
                    exact TreeInv_redirect hinv2 hpi2 hti2 rfl
                  simp only [make_copula]
                  cases hfg : find_governed s g.index "expl" with
                  | some e =>
                    simp only
                    by_cases hth : (e.«lemma» == "there") = true
                    · rw [if_pos hth]
                      show TreeInv (redirect_dependants (setWord s pi fun x => { x with dependency_relation := if prep.upos == "SCONJ" then "mark" else "case" }) pi i)
                      have hfrel : ∀ x : WordNode, (({ x with dependency_relation := if prep.upos == "SCONJ" then "mark" else "case" } : WordNode)).index = x.index := fun _ => rfl
                      have hinv2 : TreeInv (setWord s pi fun x => { x with dependency_relation := if prep.upos == "SCONJ" then "mark" else "case" }) :=
                        TreeInv_relabel hinv
                      have hti : getW (setWord s pi fun x => { x with dependency_relation := if prep.upos == "SCONJ" then "mark" else "case" }) i = some w := by
                        rw [getW_setWord hfrel, if_neg hneIP, hw]
                      exact TreeInv_redirect_child hinv2 hti hwg
                    · rw [if_neg hth]
                      exact hsucc
                  | none =>
                    simp only
                    exact hsucc
                · rw [if_neg hbe]
                  have hfadv : ∀ x : WordNode, (({ x with dependency_relation := "advcl", governor := g.index, governor_word := some g.index } : WordNode)).index = x.index := fun _ => rfl
                  have hwgnz : w.governor ≠ 0 := by rw [hwg]; exact hpine0
                  have hinvT1 : TreeInv (setWord s i fun x => { x with dependency_relation := "advcl", governor := g.index, governor_word := some g.index }) :=
                    TreeInv_repoint_ancestor hfadv (fun _ => rfl) (fun _ => rfl)
                      hinv hw hgW2 hwgnz hwchainG
                  have htiT1 : getW (setWord s i fun x => { x with dependency_relation := "advcl", governor := g.index, governor_word := some g.index }) i = some ({ w with dependency_relation := "advcl", governor := g.index, governor_word := some g.index }) := by
                    rw [getW_setWord hfadv, if_pos rfl, hw, Option.map_some']
                  have hpiT1 : getW (setWord s i fun x => { x with dependency_relation := "advcl", governor := g.index, governor_word := some g.index }) pi = some prep := by
                    rw [getW_setWord hfadv, if_neg (fun he => hneIP he.symm), hprepW0]
                  have hfmv : ∀ x : WordNode, (({ x with governor := i, governor_word := some i } : WordNode)).index = x.index := fun _ => rfl
                  have hinvT2 : TreeInv (setWord (setWord s i fun x => { x with dependency_relation := "advcl", governor := g.index, governor_word := some g.index }) pi fun x => { x with governor := i, governor_word := some i }) :=
                    TreeInv_repoint_sibling hfmv (fun _ => rfl) (fun _ => rfl)
                      hinvT1 hpiT1 htiT1 (by rw [hpg]; exact hgidx.symm)
                      (by rw [hpg, ← hgidx]; exact hgne0) (fun he => hneIP he.symm)
                  have hpiT2 : getW (setWord (setWord s i fun x => { x with dependency_relation := "advcl", governor := g.index, governor_word := some g.index }) pi fun x => { x with governor := i, governor_word := some i }) pi = some ({ prep with governor := i, governor_word := some i }) := by
                    rw [getW_setWord hfmv, if_pos rfl, hpiT1, Option.map_some']
                  have htiT2 : getW (setWord (setWord s i fun x => { x with dependency_relation := "advcl", governor := g.index, governor_word := some g.index }) pi fun x => { x with governor := i, governor_word := some i }) i = some ({ w with dependency_relation := "advcl", governor := g.index, governor_word := some g.index }) := by
                    rw [getW_setWord hfmv, if_neg hneIP, htiT1]
                  have hfrel : ∀ x : WordNode, (({ x with dependency_relation := if prep.upos == "SCONJ" then "mark" else "case" } : WordNode)).index = x.index := fun _ => rfl
                  have hinvS2 : TreeInv (setWord (setWord (setWord s i fun x => { x with dependency_relation := "advcl", governor := g.index, governor_word := some g.index }) pi fun x => { x with governor := i, governor_word := some i }) pi fun x => { x with dependency_relation := if prep.upos == "SCONJ" then "mark" else "case" }) :=
                    TreeInv_relabel hinvT2
                  have hpiS2 : getW (setWord (setWord (setWord s i fun x => { x with dependency_relation := "advcl", governor := g.index, governor_word := some g.index }) pi fun x => { x with governor := i, governor_word := some i }) pi fun x => { x with dependency_relation := if prep.upos == "SCONJ" then "mark" else "case" }) pi = some ({ { prep with governor := i, governor_word := some i } with dependency_relation := if prep.upos == "SCONJ" then "mark" else "case" }) := by
                    rw [getW_setWord hfrel, if_pos rfl, hpiT2, Option.map_some']
                  have htiS2 : getW (setWord (setWord (setWord s i fun x => { x with dependency_relation := "advcl", governor := g.index, governor_word := some g.index }) pi fun x => { x with governor := i, governor_word := some i }) pi fun x => { x with dependency_relation := if prep.upos == "SCONJ" then "mark" else "case" }) i = some ({ w with dependency_relation := "advcl", governor := g.index, governor_word := some g.index }) := by
                    rw [getW_setWord hfrel, if_neg hneIP, htiT2]
                  exact TreeInv_redirect hinvS2 hpiS2 htiS2 rfl

/-! ## The rule engine and the whole pipeline preserve the invariant -/

theorem TreeInv_run_rule {s s' : Sentence} {i : Nat} {d : List String}
    (hinv : TreeInv s) (h : run_rule s i = .ok (s', d)) : TreeInv s' := by
  unfold run_rule at h
  cases hw : getW s i with
  | none =>
    simp only [hw] at h
    rw [← rr_ok_sentence h]
    exact hinv
  | some w =>
    simp only [hw] at h
    split at h
    case h_1 => exact TreeInv_aux_to_ud hinv h
    case h_2 => exact TreeInv_oprd_to_ud hinv h
    case h_3 => exact TreeInv_amod_to_ud hinv h
    case h_4 => exact TreeInv_nmod_to_ud hinv h
    case h_5 => exact TreeInv_nummod_to_ud hinv h
    case h_6 => exact TreeInv_advcl_to_ud hinv h
    case h_7 => exact TreeInv_pobj_to_ud hinv h
    case h_8 => exact TreeInv_pcomp_to_ud hinv h
    case h_9 => exact TreeInv_comp_to_ud hinv h
    case h_10 => exact TreeInv_comp_to_ud hinv h
    case h_11 => exact TreeInv_attr_to_ud hinv h
    case h_12 heq => exact TreeInv_acomp_to_ud hinv hw heq h
    case h_13 => exact TreeInv_advmod_to_ud hinv h
    case h_14 => exact TreeInv_npadvmod_to_ud hinv h
    case h_15 heq => exact TreeInv_conj_to_ud hinv hw heq h
    case h_16 => exact TreeInv_dep_to_ud hinv h
    case h_17 =>
      rw [← rr_ok_sentence h]
      exact hinv

theorem TreeInv_rules_pass {idxs : List Nat} :
    ∀ {s s' : Sentence} {dacc d' : List String}, TreeInv s →
      rules_pass idxs s dacc = .ok (s', d') → TreeInv s' := by
  induction idxs with
  | nil =>
    intro s s' dacc d' hinv h
    simp only [rules_pass] at h
    injection h with he
    have he2 : s = s' := congrArg Prod.fst he
    rw [← he2]
    exact hinv
  | cons i rest ih =>
    intro s s' dacc d' hinv h
    simp only [rules_pass] at h
    cases hr : run_rule s i with
    | error e =>
      simp only [hr] at h
      exact Except.noConfusion h
    | ok pr =>
      simp only [hr] at h
      obtain ⟨s1, d2⟩ := pr
      dsimp only at h
      exact ih (TreeInv_run_rule hinv hr) h

theorem TreeInv_fix_pass {idxs : List Nat} :
    ∀ {s s' : Sentence}, TreeInv s → fix_pass idxs s = .ok s' → TreeInv s' := by
  induction idxs with
  | nil =>
    intro s s' hinv h
    simp only [fix_pass] at h
    rw [← Except.ok.inj h]
    exact hinv
  | cons i rest ih =>
    intro s s' hinv h
    simp only [fix_pass] at h
    cases hr : fix_step s i with
    | error e =>
      simp only [hr] at h
      exact Except.noConfusion h
    | ok s1 =>
      simp only [hr] at h
      exact ih (TreeInv_fix_step hinv hr) h

theorem TreeInv_fix_advmod_cop {s s' : Sentence} (hinv : TreeInv s)
    (h : fix_advmod_cop s = .ok s') : TreeInv s' := by
  unfold fix_advmod_cop at h
  exact TreeInv_fix_pass hinv h

theorem TreeInv_spacy_to_ud {s s' : Sentence} {d : List String} (hinv : TreeInv s)
    (h : spacy_to_ud s = .ok (s', d)) : TreeInv s' := by
  unfold spacy_to_ud at h
  cases hr : rules_pass (s.map fun w => w.index) s [] with
  | error e =>
    simp only [hr] at h
    exact Except.noConfusion h
  | ok pr =>
    simp only [hr] at h
    obtain ⟨s1, d1⟩ := pr
    dsimp only at h
    cases hf : fix_advmod_cop s1 with
    | error e =>
      simp only [hf] at h
      exact Except.noConfusion h
    | ok s2 =>
      simp only [hf] at h
      injection h with he
      have he2 : s2 = s' := congrArg Prod.fst he
      rw [← he2]
      exact TreeInv_fix_advmod_cop (TreeInv_rules_pass hinv hr) hf

theorem TreeInv_add_entity {s : Sentence} {sp : SpacySpan} (hinv : TreeInv s) :
    TreeInv (add_entity s sp) := by
  simp only [add_entity]
  split
  · apply TreeInv_map ?_ ?_ ?_ hinv
    · intro w
      split <;> rfl
    · intro w
      split <;> rfl
    · intro w
      split <;> rfl
  · apply TreeInv_map ?_ ?_ ?_ ?_
    · intro w
      split <;> rfl
    · intro w
      split <;> rfl
    · intro w
      split <;> rfl
    · exact TreeInv_setWord_rel (fun _ => rfl) (fun _ => rfl) (fun _ => rfl) hinv

theorem TreeInv_add_entities :
    ∀ (ents : List SpacySpan) (s : Sentence), TreeInv s →
      TreeInv (add_entities s ents) := by
  intro ents
  induction ents with
  | nil =>
    intro s hinv
    exact hinv
  | cons e rest ih =>
    intro s hinv
    exact ih _ (TreeInv_add_entity hinv)

theorem TreeInv_sentence {ss : SpacySent} {s1 : Sentence} {sn : SentenceNode}
    {diags : List String}
    (h1 : add_governor_word (ss.tokens.map spacy_to_ud_token) = .ok s1)
    (hok : sentence_ok s1 = true)
    (hres : spacy_to_ud_sentence ss = .ok (sn, diags)) :
    TreeInv sn.word_nodes := by
  unfold spacy_to_ud_sentence at hres
  simp only [h1] at hres
  cases hs2 : spacy_to_ud s1 with
  | error e =>
    simp only [hs2] at hres
    exact Except.noConfusion hres
  | ok pr =>
    simp only [hs2] at hres
    obtain ⟨w3, d3⟩ := pr
    dsimp only at hres
    injection hres with he
    have hsn : sn = { text := ss.text, word_nodes := add_entities w3 ss.ents } :=
      (congrArg Prod.fst he).symm
    rw [hsn]
    exact TreeInv_add_entities ss.ents w3
      (TreeInv_spacy_to_ud (sentence_ok_TreeInv hok) hs2)

theorem convert_sents_mem {sents : List SpacySent} :
    ∀ {acc : UdDoc} {dacc : List String} {doc : UdDoc} {diags : List String},
      convert_sents sents acc dacc = .ok (doc, diags) →
      ∀ sn ∈ doc, sn ∈ acc ∨
        ∃ ss ∈ sents, ∃ d2, spacy_to_ud_sentence ss = .ok (sn, d2) := by
  induction sents with
  | nil =>
    intro acc dacc doc diags h sn hsn
    simp only [convert_sents] at h
    injection h with he
    have he2 : acc = doc := congrArg Prod.fst he
    rw [← he2] at hsn
    exact Or.inl hsn
  | cons x rest ih =>
    intro acc dacc doc diags h sn hsn
    simp only [convert_sents] at h
    cases hx : spacy_to_ud_sentence x with
    | error e =>
      simp only [hx] at h
      exact Except.noConfusion h
    | ok pr =>
      simp only [hx] at h
      obtain ⟨snx, dx⟩ := pr
      dsimp only at h
      rcases ih h sn hsn with hacc | ⟨ss2, hss2, d2, hd2⟩
      · rcases List.mem_append.mp hacc with h5 | h5
        · exact Or.inl h5
        · rw [List.mem_singleton] at h5
          exact Or.inr ⟨x, List.mem_cons_self _ _, dx, by rw [h5]; exact hx⟩
      · exact Or.inr ⟨ss2, List.mem_cons_of_mem _ hss2, d2, hd2⟩

/-- Claim C1: for every converted sentence of the output document (under
valid spaCy input for each processed raw sentence, expressed as the
decidable check `sentence_ok` on the resolved word list), every word
with a non-zero governor position holds a governor reference equal to
that position which resolves to another word node of the same sentence,
exactly one word of the sentence has governor position 0, and after the
rule engine the governor relation forms a tree: the unique root together
with every word's governor chain reaching the root marker 0 (no
cycles). -/
theorem governor_tree_invariant (dsp : SpacyDoc)
    (hvalid : ∀ ss ∈ (if dsp.sents.isEmpty then [⟨dsp.text, dsp.tokens, dsp.ents⟩]
        else dsp.sents),
      ∀ s1, add_governor_word (ss.tokens.map spacy_to_ud_token) = .ok s1 →
        sentence_ok s1 = true)
    (doc : UdDoc) (diags : List String)
    (hres : spacy_to_ud_doc dsp = .ok (doc, diags)) :
    ∀ sn ∈ doc,
      (∀ w ∈ sn.word_nodes, w.governor ≠ 0 →
        w.governor_word = some w.governor ∧
        ∃ u ∈ sn.word_nodes, u.index = w.governor ∧ w.governor ≠ w.index)
      ∧ (∃ r ∈ sn.word_nodes, r.governor = 0 ∧
          ∀ w ∈ sn.word_nodes, w.governor = 0 → w = r)
      ∧ (∀ w ∈ sn.word_nodes, Reaches sn.word_nodes w.index) := by
  unfold spacy_to_ud_doc at hres
  intro sn hsn
  rcases convert_sents_mem hres sn hsn with hacc | ⟨ss, hss, d2, hd2⟩
  · exact absurd hacc (List.not_mem_nil sn)
  · have hag : ∃ s1, add_governor_word (ss.tokens.map spacy_to_ud_token) = .ok s1 := by
      have hd3 := hd2
      unfold spacy_to_ud_sentence at hd3
      cases h1 : add_governor_word (ss.tokens.map spacy_to_ud_token) with
      | error e =>
        simp only [h1] at hd3
        exact Except.noConfusion hd3
      | ok s1 => exact ⟨s1, rfl⟩
    obtain ⟨s1, h1⟩ := hag
    obtain ⟨hnd, hcons, hroot, hacyc⟩ :=
      TreeInv_sentence h1 (hvalid ss hss s1 h1) hd2
    have hz := getW_zero_none hcons
    refine ⟨?_, hroot, ?_⟩
    · intro w hw h0
      obtain ⟨hidx, h2, h3⟩ := hcons w hw
      obtain ⟨ha, hb⟩ := h3 h0
      obtain ⟨u, hu⟩ := Option.isSome_iff_exists.mp hb
      have hwW : getW sn.word_nodes w.index = some w := getW_of_mem_nodup hnd hw
      exact ⟨ha, u, getW_eq_some_mem hu, getW_eq_some_index hu,
        self_gov_ne hz (reaches_of_getW hacyc hwW) hwW⟩
    · intro w hw
      exact hacyc w hw

/-- Claim C1 witness: the one-sentence document "Dogs bark" satisfies
the validity hypothesis, converts successfully, and its converted
sentence exhibits the resolution, unique-root and reachability
properties. -/
theorem governor_tree_invariant_witness :
    (∀ ss ∈ (if c1_doc.sents.isEmpty then [⟨c1_doc.text, c1_doc.tokens, c1_doc.ents⟩]
        else c1_doc.sents),
      ∀ s1, add_governor_word (ss.tokens.map spacy_to_ud_token) = .ok s1 →
        sentence_ok s1 = true)
    ∧ (∃ doc diags, spacy_to_ud_doc c1_doc = .ok (doc, diags) ∧
        ∀ sn ∈ doc,
          (∀ w ∈ sn.word_nodes, w.governor ≠ 0 →
            w.governor_word = some w.governor ∧
            ∃ u ∈ sn.word_nodes, u.index = w.governor ∧ w.governor ≠ w.index)
          ∧ (∃ r ∈ sn.word_nodes, r.governor = 0 ∧
              ∀ w ∈ sn.word_nodes, w.governor = 0 → w = r)
          ∧ (∀ w ∈ sn.word_nodes, Reaches sn.word_nodes w.index)) := by
  have hv : ∀ ss ∈ (if c1_doc.sents.isEmpty
      then [⟨c1_doc.text, c1_doc.tokens, c1_doc.ents⟩] else c1_doc.sents),
      ∀ s1, add_governor_word (ss.tokens.map spacy_to_ud_token) = .ok s1 →
        sentence_ok s1 = true := by
    intro ss hss s1 h1
    have hss2 : ss = c1_sentW := by simpa [c1_doc] using hss
    subst hss2
    have h2 : (Except.ok c1_resolved : Except String Sentence) = Except.ok s1 := by
      rw [← h1]
      rfl
    injection h2 with he
    rw [← he]
    decide
  exact ⟨hv, _, _, rfl, governor_tree_invariant c1_doc hv _ _ rfl⟩
